import Mathlib

/-!
# The WASM bridge of `builtins.wasm` (src/libexpr/primops/wasm.cc)

A shallow embedding of `NixWasmInstance` and its host callbacks.

* The sandbox's linear memory is a list of bytes; `std::span` views are offset/size pairs.
* Host values live in evaluator memory (`heap`); a `Value *` is a `Ptr`.
* The arena `values` is the `ValueVector` of the instance: a list of pointers.
* `ValueId` is `uint32_t`: every conversion from `size_t` to it is an explicit `% 2^32`.
* A callback ends in one of five ways (`Outcome`): it returns, it throws a `nix::Error`,
  it throws a standard exception that is not a `nix::Error`, an `assert` fails, or it
  violates a library precondition (undefined behaviour).
-/

namespace NixWasm

abbrev Byte := UInt8

/-- The width of `uint32_t` / `ValueId`. -/
def U32 : Nat := 4294967296

/-- A host pointer `Value *`: one of the shared static values, or a cell of evaluator memory. -/
inductive Ptr where
  | vNull
  | vTrue
  | vFalse
  | cell (addr : Nat)
  deriving DecidableEq, Repr

/-- The classes of the `nix::Error` hierarchy that occur here. -/
inductive ErrorKind where
  | Error
  | EvalError
  | TypeError
  deriving DecidableEq, Repr

/-- A thrown `nix::Error`: its dynamic class, its message, and the traces added to it. -/
structure NixError where
  kind : ErrorKind
  msg : String
  traces : List String
  deriving DecidableEq, Repr

/-- A value in canonical (forced) form, by kind. A float is kept as its 64-bit pattern. -/
inductive Forced where
  | int (n : Int)
  | float (bits : Nat)
  | bool (b : Bool)
  | string (s : List Byte)
  | path (p : List Byte)
  | null
  | attrs (bindings : List (List Byte × Ptr))
  | list (elems : List Ptr)
  | function (code : Nat)
  | external (tag : Nat)
  deriving DecidableEq, Repr

/-- Modelled from the spec: the evaluator's `Value` cell (libexpr, not part of this file's
source). A cell is in canonical form, or a delayed computation whose forcing yields a canonical
value or fails ("forcing may trigger further host computation and can fail"), or freshly
allocated and not yet written. -/
inductive Value where
  | forced (w : Forced)
  | thunk (result : Except NixError Forced)
  | uninitialized

/-- A value passed into or out of a sandbox function (`wasmtime::Val`). An `i32` is kept as
its 32 bits, read unsigned. -/
inductive Val where
  | i32 (bits : Nat)
  | i64 (n : Int)
  | f64 (bits : Nat)
  deriving DecidableEq, Repr

/-- The state a callback works on: `EvalState` memory, the arena `values`, the linear memory
of the sandbox, and the diagnostics data of the instance. `calls` is not in the source: it
records, in order, the exports the host has entered and their arguments. -/
structure Instance where
  heap : List Value
  values : List Ptr
  mem : List Byte
  wasmPath : String
  functionName : Option String
  warnings : List String
  calls : List (String × List Val) := []

/-- How a host member function ends. -/
inductive Outcome (α : Type) where
  | ok (ret : α) (st : Instance)
  | error (e : NixError) (st : Instance)
  | stdException (what : String) (st : Instance)
  | abort
  | undefined

/-- Host code: a function of the instance state. -/
def M (α : Type) : Type := Instance → Outcome α

def M.pure {α : Type} (a : α) : M α := fun st => .ok a st

def M.bind {α β : Type} (m : M α) (f : α → M β) : M β := fun st =>
  match m st with
  | .ok a st1 => f a st1
  | .error e st1 => .error e st1
  | .stdException w st1 => .stdException w st1
  | .abort => .abort
  | .undefined => .undefined

instance : Monad M where
  pure := M.pure
  bind := M.bind

/-- Throwing `Error(...)` or one of its subclasses. -/
def raise {α : Type} (kind : ErrorKind) (msg : String) : M α :=
  fun st => .error ⟨kind, msg, []⟩ st

def getState : M Instance := fun st => .ok st st

def setState (st : Instance) : M Unit := fun _ => .ok () st

/-! ## Evaluator interface -/

/-- Dereferencing a `Value *`. The three statics are constant objects. -/
def Instance.deref (st : Instance) : Ptr → Option Value
  | .vNull => some (.forced .null)
  | .vTrue => some (.forced (.bool true))
  | .vFalse => some (.forced (.bool false))
  | .cell a => st.heap[a]?

/-- Modelled from the spec: `Value::mkInt`, `mkFloat`, `mkString`, `mkList`, `mkAttrs`
(libexpr): the cell behind a `Value &` is overwritten. The statics are constant. -/
def writeValue (p : Ptr) (v : Value) : M Unit := fun st =>
  match p with
  | .cell a => if a < st.heap.length then .ok () { st with heap := st.heap.set a v } else .undefined
  | _ => .undefined

/-- Modelled from the spec: `EvalState::allocValue` (libexpr), a fresh cell of evaluator
memory. -/
def stateAllocValue : M Ptr := fun st =>
  .ok (.cell st.heap.length) { st with heap := st.heap ++ [.uninitialized] }

/-- Modelled from the spec: `EvalState::forceValue` followed by `Value::type()` (libexpr).
Forcing a delayed computation overwrites the cell with its canonical form or raises the
computation's error; a canonical value is left as it is. -/
def forceValue (p : Ptr) : M Forced := fun st =>
  match st.deref p with
  | none => .undefined
  | some (.forced w) => .ok w st
  | some (.thunk (.ok w)) => (do writeValue p (.forced w); pure w : M Forced) st
  | some (.thunk (.error e)) => .error e st
  | some .uninitialized => .abort

/-- Modelled from the spec: `EvalState::forceInt` (libexpr): "fails if the forced value is not
an integer". -/
def forceInt (p : Ptr) (errorCtx : String) : M Int := do
  match (← forceValue p) with
  | .int n => pure n
  | _ => raise .TypeError ("expected an integer: " ++ errorCtx)

/-- Modelled from the spec: `EvalState::forceFloat` (libexpr). -/
def forceFloat (p : Ptr) (errorCtx : String) : M Nat := do
  match (← forceValue p) with
  | .float x => pure x
  | _ => raise .TypeError ("expected a float: " ++ errorCtx)

/-- Modelled from the spec: `EvalState::forceBool` (libexpr). -/
def forceBool (p : Ptr) (errorCtx : String) : M Bool := do
  match (← forceValue p) with
  | .bool b => pure b
  | _ => raise .TypeError ("expected a Boolean: " ++ errorCtx)

/-- Modelled from the spec: `EvalState::forceString` (libexpr). -/
def forceString (p : Ptr) (errorCtx : String) : M (List Byte) := do
  match (← forceValue p) with
  | .string s => pure s
  | _ => raise .TypeError ("expected a string: " ++ errorCtx)

/-- Modelled from the spec: `EvalState::forceList` (libexpr). -/
def forceList (p : Ptr) (errorCtx : String) : M (List Ptr) := do
  match (← forceValue p) with
  | .list elems => pure elems
  | _ => raise .TypeError ("expected a list: " ++ errorCtx)

/-- Modelled from the spec: `EvalState::forceAttrs` (libexpr). -/
def forceAttrs (p : Ptr) (errorCtx : String) : M (List (List Byte × Ptr)) := do
  match (← forceValue p) with
  | .attrs bs => pure bs
  | _ => raise .TypeError ("expected a set: " ++ errorCtx)

/-- Modelled from the spec: `EvalState::forceFunction` (libexpr): "forces `funId` to a
callable". -/
def forceFunction (p : Ptr) (errorCtx : String) : M Nat := do
  match (← forceValue p) with
  | .function code => pure code
  | _ => raise .TypeError ("expected a function: " ++ errorCtx)

/-- Modelled from the spec: `EvalState::getBool` (libexpr), the canonical boolean singletons. -/
def getBool (b : Bool) : Ptr := if b then .vTrue else .vFalse

/-! ## The arena -/

/-- `values.at(valueId)`: a checked access that throws `std::out_of_range`. -/
def valuesAt (valueId : Nat) : M Ptr := fun st =>
  match st.values[valueId]? with
  | some p => .ok p st
  | none => .stdException "vector::_M_range_check" st

/-- `addValue`: the id is `values.size()` converted to `ValueId` on return. -/
def addValue (v : Ptr) : M Nat := fun st =>
  .ok (st.values.length % U32) { st with values := st.values ++ [v] }

/-- `allocValue`: a fresh evaluator cell, registered in the arena. -/
def allocValue : M (Nat × Ptr) := do
  let v ← stateAllocValue
  let id ← addValue v
  pure (id, v)

/-! ## Scalars -/

def make_int (n : Int) : M Nat := do
  let (valueId, value) ← allocValue
  writeValue value (.forced (.int n))
  pure valueId

def get_int (valueId : Nat) : M Int := do
  forceInt (← valuesAt valueId) "while evaluating a value from WASM"

def make_float (x : Nat) : M Nat := do
  let (valueId, value) ← allocValue
  writeValue value (.forced (.float x))
  pure valueId

def get_float (valueId : Nat) : M Nat := do
  forceFloat (← valuesAt valueId) "while evaluating a value from WASM"

/-- The `int32_t` argument converts to `bool` as "not zero". -/
def make_bool (b : Int) : M Nat :=
  addValue (getBool (b ≠ 0))

/-- The `bool` result converts to `int32_t` as 0 or 1. -/
def get_bool (valueId : Nat) : M Int := do
  let b ← forceBool (← valuesAt valueId) "while evaluating a value from WASM"
  pure (if b then 1 else 0)

def make_null : M Nat :=
  addValue .vNull

/-! ## Linear memory -/

/-- A `std::span<uint8_t>` into the linear memory: where it starts and how many bytes. -/
structure Span where
  off : Nat
  size : Nat
  deriving DecidableEq, Repr

/-- `memory()`: the whole linear memory at its current size. -/
def memory : M Span := fun st => .ok ⟨0, st.mem.length⟩ st

/-- `std::span::subspan(offset, count)`. The standard requires `offset <= size()` and
`count <= size() - offset`; outside of that the behaviour is undefined. -/
def Span.subspan (s : Span) (offset count : Nat) : M Span := fun st =>
  if offset ≤ s.size ∧ count ≤ s.size - offset then .ok ⟨s.off + offset, count⟩ st
  else .undefined

/-- `std::span::subspan(offset)`: the rest of the span; requires `offset <= size()`. -/
def Span.subspanFrom (s : Span) (offset : Nat) : M Span := fun st =>
  if offset ≤ s.size then .ok ⟨s.off + offset, s.size - offset⟩ st
  else .undefined

/-- The file's own `subspan<T>(s, len)`: `assert(s.size() >= len * sizeof(T))`, then the
first `len` elements. The result keeps the byte offset; `size` counts elements. -/
def subspanT (sizeofT : Nat) (s : Span) (len : Nat) : M Span := fun st =>
  if s.size ≥ len * sizeofT then .ok ⟨s.off, len⟩ st
  else .abort

/-- Reading `len` bytes of linear memory at `off` (an access outside of it is undefined). -/
def loadBytes (off len : Nat) : M (List Byte) := fun st =>
  if off + len ≤ st.mem.length then .ok ((st.mem.drop off).take len) st
  else .undefined

/-- The bytes of `mem` with `bytes` written at `off`. -/
def writeAt (mem : List Byte) (off : Nat) (bytes : List Byte) : List Byte :=
  mem.take off ++ bytes ++ mem.drop (off + bytes.length)

/-- `memcpy` into linear memory at `off` (a write outside of it is undefined). -/
def memcpy (off : Nat) (bytes : List Byte) : M Unit := fun st =>
  if off + bytes.length ≤ st.mem.length then .ok () { st with mem := writeAt st.mem off bytes }
  else .undefined

/-- Little-endian value of a byte sequence. -/
def decodeLE : List Byte → Nat
  | [] => 0
  | b :: bs => b.toNat + 256 * decodeLE bs

/-- The `width` low bytes of `v`, little-endian. -/
def encodeLE : Nat → Nat → List Byte
  | 0, _ => []
  | width + 1, v => UInt8.ofNat v :: encodeLE width (v / 256)

/-- The `uint32_t` that linear memory `mem` holds at byte offset `off`. -/
def readU32 (mem : List Byte) (off : Nat) : Nat :=
  decodeLE ((mem.drop off).take 4)

/-- The `count` consecutive `uint32_t` ids that `mem` holds from byte offset `off` on. -/
def storedIds (mem : List Byte) (off : Nat) : Nat → List Nat
  | 0 => []
  | count + 1 => readU32 mem off :: storedIds mem (off + 4) count

/-- Reading a `uint32_t` at byte offset `off`. -/
def loadU32 (off : Nat) : M Nat := do
  pure (decodeLE (← loadBytes off 4))

/-- Writing a `uint32_t` at byte offset `off`. -/
def storeU32 (off : Nat) (v : Nat) : M Unit :=
  memcpy off (encodeLE 4 v)

/-- `span2string`: the bytes seen as characters. -/
def span2string (bs : List Byte) : String :=
  String.mk (bs.map (fun b => Char.ofNat b.toNat))

/-- `assert(cond)`. -/
def assert (cond : Bool) : M Unit := fun st =>
  if cond then .ok () st else .abort

/-! ## Diagnostics -/

def panic (ptr len : Nat) : M Unit := do
  let s ← (← memory).subspan ptr len
  let msg ← loadBytes s.off s.size
  raise .Error ("WASM panic: " ++ span2string msg)

def warn (ptr len : Nat) : M Unit := do
  let s ← (← memory).subspan ptr len
  let msg ← loadBytes s.off s.size
  let st ← getState
  setState { st with warnings := st.warnings ++
    ["'" ++ st.wasmPath ++ "' function '" ++ st.functionName.getD "<unknown>" ++ "': "
      ++ span2string msg] }

/-! ## Kinds -/

def get_type (valueId : Nat) : M Nat := do
  let value ← valuesAt valueId
  match (← forceValue value) with
  | .int _ => pure 1
  | .float _ => pure 2
  | .bool _ => pure 3
  | .string _ => pure 4
  | .path _ => pure 5
  | .null => pure 6
  | .attrs _ => pure 7
  | .list _ => pure 8
  | .function _ => pure 9
  | .external _ => raise .Error "unsupported type"

/-! ## Strings -/

def make_string (ptr len : Nat) : M Nat := do
  let (valueId, value) ← allocValue
  let s ← (← memory).subspan ptr len
  let bytes ← loadBytes s.off s.size
  writeValue value (.forced (.string bytes))
  pure valueId

def copy_string (valueId ptr maxLen : Nat) : M Nat := do
  let s ← forceString (← valuesAt valueId) "while evaluating a value from WASM"
  if s.length ≤ maxLen then
    let buf ← (← memory).subspan ptr maxLen
    memcpy buf.off s
  pure (s.length % U32)

/-! ## Lists -/

/-- The loop `values.at(vs[n])` over `count` ids stored from byte offset `off` on. -/
def readValues (off : Nat) : Nat → M (List Ptr)
  | 0 => pure []
  | count + 1 => do
    let v ← valuesAt (← loadU32 off)
    let rest ← readValues (off + 4) count
    pure (v :: rest)

def make_list (ptr len : Nat) : M Nat := do
  let vs ← subspanT 4 (← (← memory).subspanFrom ptr) len
  let (valueId, value) ← allocValue
  let list ← readValues vs.off len
  writeValue value (.forced (.list list))
  pure valueId

/-- The loop `out[n] = addValue(elem)` of `copy_list`. -/
def writeIds (off : Nat) : List Ptr → M Unit
  | [] => pure ()
  | elem :: rest => do
    storeU32 off (← addValue elem)
    writeIds (off + 4) rest

def copy_list (valueId ptr maxLen : Nat) : M Nat := do
  let value ← valuesAt valueId
  let elems ← forceList value "while getting a list from WASM"
  if elems.length ≤ maxLen then
    let out ← subspanT 4 (← (← memory).subspanFrom ptr) elems.length
    writeIds out.off elems
  pure (elems.length % U32)

/-! ## Attribute sets and functions -/

/-- Modelled from the spec: the two evaluator operations (libexpr) whose code is not part of
this file. `sortBindings` is the order in which `Value::mkAttrs` stores the inserted bindings
("entry ordering is implementation-defined"); `callFunction` is `EvalState::callFunction`,
which applies a function value to arguments and writes the result into a given cell; it "may
itself invoke sandbox functions", so it is host code over the whole instance state. -/
structure Evaluator where
  sortBindings : List (List Byte × Ptr) → List (List Byte × Ptr)
  callFunction : Ptr → List Ptr → Ptr → M Unit

/-- The loop of `make_attrset` over `count` records `{attrNamePtr, attrNameLen, value}` stored
from byte offset `off` on; `mem` is the span taken at entry. The name is read before the value
is looked up. -/
def readAttrs (mem : Span) (off : Nat) : Nat → M (List (List Byte × Ptr))
  | 0 => pure []
  | count + 1 => do
    let attrNamePtr ← loadU32 off
    let attrNameLen ← loadU32 (off + 4)
    let value ← loadU32 (off + 8)
    let nameSpan ← mem.subspan attrNamePtr attrNameLen
    let name ← loadBytes nameSpan.off nameSpan.size
    let v ← valuesAt value
    let rest ← readAttrs mem (off + 12) count
    pure ((name, v) :: rest)

def make_attrset (ev : Evaluator) (ptr len : Nat) : M Nat := do
  let mem ← memory
  let attrs ← subspanT 12 (← mem.subspanFrom ptr) len
  let (valueId, value) ← allocValue
  let builder ← readAttrs mem attrs.off len
  writeValue value (.forced (.attrs (ev.sortBindings builder)))
  pure valueId

/-- The loop of `copy_attrset`: record `n` is `{value, nameLen}`, 8 bytes. -/
def writeAttrs (off : Nat) : List (List Byte × Ptr) → M Unit
  | [] => pure ()
  | attr :: rest => do
    storeU32 off (← addValue attr.2)
    storeU32 (off + 4) (attr.1.length % U32)
    writeAttrs (off + 8) rest

def copy_attrset (valueId ptr maxLen : Nat) : M Nat := do
  let value ← valuesAt valueId
  let attrs ← forceAttrs value "while copying an attrset into WASM"
  if attrs.length ≤ maxLen then
    let buf ← subspanT 8 (← (← memory).subspanFrom ptr) maxLen
    writeAttrs buf.off attrs
  pure (attrs.length % U32)

def copy_attrname (valueId attrIdx ptr len : Nat) : M Unit := do
  let value ← valuesAt valueId
  let attrs ← forceAttrs value "while copying an attr name into WASM"
  assert (attrIdx < attrs.length)
  let name := (attrs.getD attrIdx ([], .vNull)).1
  assert (len = name.length)
  let dst ← (← memory).subspan ptr len
  memcpy dst.off name

def call_function (ev : Evaluator) (funId ptr len : Nat) : M Nat := do
  let f ← valuesAt funId
  let _ ← forceFunction f "while calling a function from WASM"
  let argIds ← subspanT 4 (← (← memory).subspanFrom ptr) len
  let args ← readValues argIds.off len
  let (valueId, value) ← allocValue
  ev.callFunction f args value
  pure valueId

/-! ## The callback boundary -/

/-- What the sandbox runtime gets back from a registered host function: a result, a trap, or
something that is neither (an exception that leaves the wrapper, an abort, undefined
behaviour). -/
inductive HostResult (α : Type) where
  | ok (ret : α) (st : Instance)
  | trap (msg : String) (st : Instance)
  | escaped (what : String) (st : Instance)
  | abort
  | undefined

/-- Modelled from the spec: `BaseError::what()` (libutil); the trap carries "the original
message". -/
def NixError.what (e : NixError) : String := e.msg

/-- The text a `const char *` denotes: the characters before the first NUL. -/
def cString (s : String) : String :=
  String.mk (s.data.takeWhile (fun c => c ≠ Char.ofNat 0))

/-- The wrapper `regFun` puts around every callback: `catch (Error & e)` turns a `nix::Error`
into `Trap(e.what())`; nothing else is caught. `what()` is a `const char *`, so the message of
the trap ends at the first NUL of the message of the error. -/
def regFun {α : Type} (f : M α) (st : Instance) : HostResult α :=
  match f st with
  | .ok a st1 => .ok a st1
  | .error e st1 => .trap (cString e.what) st1
  | .stdException w st1 => .escaped w st1
  | .abort => .abort
  | .undefined => .undefined

/-! ## Example states -/

/-- The arena after 2^32 calls of `make_null` on a fresh instance: every 32-bit id is taken. -/
def fullArena : Instance :=
  { heap := [], values := List.replicate U32 .vNull, mem := [0, 0, 0, 0],
    wasmPath := "m.wasm", functionName := none, warnings := [] }

/-- An instance whose single value is a string of 2^32 bytes. -/
def hugeString : Instance :=
  { heap := [.forced (.string (List.replicate U32 0))], values := [.cell 0], mem := [],
    wasmPath := "m.wasm", functionName := none, warnings := [] }

/-- An instance whose single value is the two-byte string "hi"; four bytes of memory. -/
def oneString : Instance :=
  { heap := [.forced (.string [104, 105])], values := [.cell 0], mem := [0, 0, 0, 0],
    wasmPath := "m.wasm", functionName := none, warnings := [] }

/-- An arena with one entry and a memory that holds the id 0 at offset 0. -/
def oneValue : Instance :=
  { heap := [], values := [.vTrue], mem := [0, 0, 0, 0, 9, 9, 9, 9],
    wasmPath := "m.wasm", functionName := none, warnings := [] }

/-- The `count` construct records `{namePtr, nameLen, valueId}` (12 bytes each) that `mem` holds
from byte offset `off` on. -/
def storedAttrs (mem : List Byte) (off : Nat) : Nat → List (Nat × Nat × Nat)
  | 0 => []
  | count + 1 =>
    (readU32 mem off, readU32 mem (off + 4), readU32 mem (off + 8)) ::
      storedAttrs mem (off + 12) count

/-- The `count` read records `{valueId, nameLen}` (8 bytes each) that `mem` holds from byte
offset `off` on. -/
def storedPairs (mem : List Byte) (off : Nat) : Nat → List (Nat × Nat)
  | 0 => []
  | count + 1 => (readU32 mem off, readU32 mem (off + 4)) :: storedPairs mem (off + 8) count

/-- The bytes `[off, off + len)` of `mem`. -/
def slice (mem : List Byte) (off len : Nat) : List Byte :=
  (mem.drop off).take len

/-- An evaluator that stores bindings in insertion order and whose functions return null. -/
def plainEvaluator : Evaluator :=
  { sortBindings := fun bs => bs
    callFunction := fun _ _ value => writeValue value (.forced .null) }

/-- One value in the arena; memory holds the construct record `{namePtr = 12, nameLen = 1,
valueId = 0}` at offset 0, the name "a" at offset 12 and room for one read record at 16. -/
def oneAttr : Instance :=
  { heap := [], values := [.vTrue],
    mem := [12, 0, 0, 0, 1, 0, 0, 0, 0, 0, 0, 0, 97, 0, 0, 0, 0, 0, 0, 0, 0, 0, 0, 0],
    wasmPath := "m.wasm", functionName := none, warnings := [] }

/-! ## The callback table -/

/-- A call of one of the host functions registered under `env` (the `regFun` lines of the
constructor), with its arguments. -/
inductive Call where
  | panic (ptr len : Nat)
  | warn (ptr len : Nat)
  | get_type (valueId : Nat)
  | make_int (n : Int)
  | get_int (valueId : Nat)
  | make_float (x : Nat)
  | get_float (valueId : Nat)
  | make_string (ptr len : Nat)
  | copy_string (valueId ptr maxLen : Nat)
  | make_bool (b : Int)
  | get_bool (valueId : Nat)
  | make_null
  | make_list (ptr len : Nat)
  | copy_list (valueId ptr maxLen : Nat)
  | make_attrset (ptr len : Nat)
  | copy_attrset (valueId ptr maxLen : Nat)
  | copy_attrname (valueId attrIdx ptr len : Nat)
  | call_function (funId ptr len : Nat)
  deriving DecidableEq, Repr

/-- What a host function hands back to the sandbox: nothing (`std::monostate`), a 32-bit
integer, a 64-bit integer or a double (by bit pattern). -/
inductive Ret where
  | unit
  | i32 (bits : Nat)
  | i64 (n : Int)
  | f64 (bits : Nat)
  deriving DecidableEq, Repr

/-- The member function a call is bound to. -/
def Call.run (ev : Evaluator) : Call → M Ret
  | .panic ptr len => do NixWasm.panic ptr len; pure .unit
  | .warn ptr len => do NixWasm.warn ptr len; pure .unit
  | .get_type valueId => do pure (.i32 (← NixWasm.get_type valueId))
  | .make_int n => do pure (.i32 (← NixWasm.make_int n))
  | .get_int valueId => do pure (.i64 (← NixWasm.get_int valueId))
  | .make_float x => do pure (.i32 (← NixWasm.make_float x))
  | .get_float valueId => do pure (.f64 (← NixWasm.get_float valueId))
  | .make_string ptr len => do pure (.i32 (← NixWasm.make_string ptr len))
  | .copy_string valueId ptr maxLen => do pure (.i32 (← NixWasm.copy_string valueId ptr maxLen))
  | .make_bool b => do pure (.i32 (← NixWasm.make_bool b))
  | .get_bool valueId => do pure (.i32 (← NixWasm.get_bool valueId).toNat)
  | .make_null => do pure (.i32 (← NixWasm.make_null))
  | .make_list ptr len => do pure (.i32 (← NixWasm.make_list ptr len))
  | .copy_list valueId ptr maxLen => do pure (.i32 (← NixWasm.copy_list valueId ptr maxLen))
  | .make_attrset ptr len => do pure (.i32 (← NixWasm.make_attrset ev ptr len))
  | .copy_attrset valueId ptr maxLen =>
    do pure (.i32 (← NixWasm.copy_attrset valueId ptr maxLen))
  | .copy_attrname valueId attrIdx ptr len =>
    do NixWasm.copy_attrname valueId attrIdx ptr len; pure .unit
  | .call_function funId ptr len => do pure (.i32 (← NixWasm.call_function ev funId ptr len))

/-- A call as the sandbox sees it: the member function behind the `regFun` wrapper. -/
def hostCall (ev : Evaluator) (c : Call) (st : Instance) : HostResult Ret :=
  regFun (c.run ev) st

/-- The arena of `st1` keeps every entry of the arena of `st` at its id (and may have more). -/
def ArenaKept (st st1 : Instance) : Prop :=
  ∃ added, st1.values = st.values ++ added

/-! ## Sandbox code and the orchestrator -/

/-- Code of the sandbox, as far as the host can tell: it returns results, traps, calls a host
function and goes on with the result, or reads and writes its own linear memory. A function that
is called with arguments it does not accept is one that traps. -/
inductive Prog where
  | ret (results : List Val)
  | trap (msg : String)
  | host (c : Call) (k : Ret → Prog)
  | load (off len : Nat) (k : List Byte → Prog)
  | store (off : Nat) (bytes : List Byte) (k : Prog)

/-- An export of a module (`wasmtime::Extern`). -/
inductive Extern where
  | func (body : List Val → Prog)
  | memory (initial : List Byte)
  | global (v : Val)
  | table

/-- A compiled module: its exports by name, and whether `linker.instantiate` fails on it. -/
structure Module where
  exports : List (String × Extern)
  instantiateError : Option String

/-- `instance->get(wasmCtx, name)`. -/
def Module.get (m : Module) (name : String) : Option Extern :=
  m.exports.lookup name

/-- How a call into the sandbox ends: with results, with a trap, or with a host callback that
ended in neither a result nor a trap. -/
inductive CallResult where
  | returned (results : List Val) (st : Instance)
  | trapped (msg : String) (st : Instance)
  | escaped (what : String) (st : Instance)
  | abort
  | undefined

/-- Running sandbox code against the callback table. -/
def Prog.run (ev : Evaluator) : Prog → Instance → CallResult
  | .ret results, st => .returned results st
  | .trap msg, st => .trapped msg st
  | .host c k, st =>
    match hostCall ev c st with
    | .ok r st1 => (k r).run ev st1
    | .trap msg st1 => .trapped msg st1
    | .escaped w st1 => .escaped w st1
    | .abort => .abort
    | .undefined => .undefined
  | .load off len k, st =>
    if off + len ≤ st.mem.length then (k (slice st.mem off len)).run ev st
    else .trapped "out of bounds memory access" st
  | .store off bytes k, st =>
    if off + bytes.length ≤ st.mem.length then
      k.run ev { st with mem := writeAt st.mem off bytes }
    else .trapped "out of bounds memory access" st

/-- `unwrap`: the value of a successful result; a failed one is thrown as
`Error(res.err().message())`. -/
def unwrap {α : Type} (res : Except String α) : M α :=
  match res with
  | .ok a => pure a
  | .error msg => raise .Error msg

/-- `f.call(wasmCtx, args)`: the results of the function, or the message of its trap. The call
is recorded. An exception, abort or undefined behaviour of a host callback is not a result. -/
def funcCall (ev : Evaluator) (name : String) (body : List Val → Prog) (args : List Val) :
    M (Except String (List Val)) := fun st =>
  match (body args).run ev { st with calls := st.calls ++ [(name, args)] } with
  | .returned results st1 => .ok (.ok results) st1
  | .trapped msg st1 => .ok (.error msg) st1
  | .escaped w st1 => .stdException w st1
  | .abort => .abort
  | .undefined => .undefined

/-- `unwrap(f.call(wasmCtx, args))`. -/
def callExport (ev : Evaluator) (name : String) (body : List Val → Prog) (args : List Val) :
    M (List Val) := do
  unwrap (← funcCall ev name body args)

def getFunction (m : Module) (name : String) : M (List Val → Prog) := do
  match m.get name with
  | none =>
    raise .Error ("WASM module '" ++ (← getState).wasmPath ++ "' does not export function '"
      ++ name ++ "'")
  | some (.func body) => pure body
  | some _ =>
    raise .Error ("export '" ++ name ++ "' of WASM module '" ++ (← getState).wasmPath
      ++ "' is not a function")

def runFunction (ev : Evaluator) (m : Module) (name : String) (args : List Val) :
    M (List Val) := do
  let st ← getState
  setState { st with functionName := some name }
  let f ← getFunction m name
  callExport ev name f args

/-- What can go wrong in the sandbox runtime while an instance is set up. -/
structure Runtime where
  wasiConfigError : Option String
  defineWasiError : Option String

/-- The constructor of `NixWasmInstance`, from the WASI configuration on. The export `memory`
is taken without a check: a missing export is a dereferenced empty optional, an export of
another kind makes `std::get` throw `std::bad_variant_access`. -/
def newInstance (rt : Runtime) (m : Module) : M Unit := do
  match rt.wasiConfigError with
  | some msg => raise .Error ("failed to set WASI config: " ++ msg)
  | none => pure ()
  match rt.defineWasiError with
  | some msg => raise .Error ("failed to define WASI: " ++ msg)
  | none => pure ()
  match m.instantiateError with
  | some msg => unwrap (.error msg)
  | none => pure ()
  match m.get "memory" with
  | none => fun _ => .undefined
  | some (.memory initial) =>
    let st ← getState
    setState { st with mem := initial }
  | some _ => fun st => .stdException "bad_variant_access" st

/-- What `modules.find` / `make_ref<NixWasmModule>(wasmPath)` yields for a path: the file
cannot be read, the bytes do not compile, or a compiled module. -/
inductive Loaded where
  | unreadable (e : NixError)
  | invalid (msg : String)
  | compiled (m : Module)

/-- `e.addTrace(pos, ...)`. -/
def NixError.addTrace (e : NixError) (t : String) : NixError :=
  { e with traces := t :: e.traces }

/-- `.at(0).i32()` on the results of the user function, then the conversion of the `int32_t`
to the `size_t` index of `values.at`. -/
def resultIndex (results : List Val) : M Nat := do
  match results with
  | [] => fun st => .stdException "vector::_M_range_check" st
  | .i32 bits :: _ =>
    pure (if bits < 2147483648 then bits else bits + (18446744073709551616 - U32))
  | _ :: _ => fun _ => .abort

/-- The block `if (hsInitExt) ...`: `hs_init` is called, with two zero arguments, only if it is
exported and is a function. -/
def hsInitStep (ev : Evaluator) (m : Module) : M Unit := do
  match m.get "hs_init" with
  | some (.func hsInit) =>
    let _ ← callExport ev "hs_init" hsInit [.i32 0, .i32 0]
  | _ => pure ()

/-- The module for the path: found in the cache, or read and compiled by the constructor of
`NixWasmModule`, where `unwrap` turns a compile error into `Error(message)`. -/
def loadModule (loaded : Loaded) : M Module :=
  match loaded with
  | .unreadable e => fun st => .error e st
  | .invalid msg => unwrap (.error msg)
  | .compiled m => pure m

/-- `*p` for reading the value a pointer of the arena points to. -/
def readValue (v : Ptr) : M Value := fun st =>
  match st.deref v with
  | some value => .ok value st
  | none => .undefined

/-- The body of the `try` block of `prim_wasm`. -/
def prim_wasm_body (ev : Evaluator) (rt : Runtime) (loaded : Loaded) (functionName : String)
    (arg : Ptr) : M Value := do
  let m ← loadModule loaded
  newInstance rt m
  let _ ← runFunction ev m "_initialize" []
  hsInitStep ev m
  let _ ← runFunction ev m "nix_wasm_init_v1" []
  let argId ← addValue arg
  let results ← runFunction ev m functionName [.i32 argId]
  let v ← valuesAt (← resultIndex results)
  readValue v

/-- `prim_wasm`, once the module path and the function name are resolved: the `try` block, and
the `catch (Error & e)` that adds the trace and rethrows. `heap` is the evaluator memory at
entry; the result is the value assigned to `v`. -/
def prim_wasm (ev : Evaluator) (rt : Runtime) (loaded : Loaded) (heap : List Value)
    (wasmPath functionName : String) (arg : Ptr) : Outcome Value :=
  match prim_wasm_body ev rt loaded functionName arg
      { heap := heap, values := [], mem := [], wasmPath := wasmPath, functionName := none,
        warnings := [] } with
  | .error e st =>
    .error (e.addTrace ("while executing the WASM function '" ++ functionName ++ "' from '"
      ++ wasmPath ++ "'")) st
  | o => o

/-- The exports the orchestrator enters on a module, in order, when every step returns:
`_initialize`, then `hs_init` with two zero arguments if it is an exported function, then
`nix_wasm_init_v1`, then the user export with the id of the argument. -/
def expectedCalls (m : Module) (functionName : String) (argId : Nat) :
    List (String × List Val) :=
  [("_initialize", [])] ++
    (match m.get "hs_init" with
      | some (.func _) => [("hs_init", [.i32 0, .i32 0])]
      | _ => []) ++
    [("nix_wasm_init_v1", []), (functionName, [.i32 argId])]

/-- The record of calls and the module path are the same in both states. -/
def SameContext (st st1 : Instance) : Prop :=
  st1.calls = st.calls ∧ st1.wasmPath = st.wasmPath

/-- A relation between the state before and the state after host code that every elementary
state change made by the callbacks respects: writing evaluator memory, writing linear memory,
emitting a warning, and appending to the arena. -/
structure FrameRel (R : Instance → Instance → Prop) : Prop where
  refl : ∀ st, R st st
  trans : ∀ a b c, R a b → R b c → R a c
  heap : ∀ (st : Instance) (h : List Value), R st { st with heap := h }
  mem : ∀ (st : Instance) (m : List Byte), R st { st with mem := m }
  warnings : ∀ (st : Instance) (w : List String), R st { st with warnings := w }
  push : ∀ (st : Instance) (v : Ptr), R st { st with values := st.values ++ [v] }

/-- The outcome leaves a state behind (a return or a throw) only if that state is related to
the initial one. -/
def Outcome.related {α : Type} (R : Instance → Instance → Prop) (st : Instance) :
    Outcome α → Prop
  | .ok _ st1 => R st st1
  | .error _ st1 => R st st1
  | .stdException _ st1 => R st st1
  | .abort => True
  | .undefined => True

/-- Host code that, from every state, ends in a related state. -/
def Frame {α : Type} (R : Instance → Instance → Prop) (m : M α) : Prop :=
  ∀ st, (m st).related R st

/-- A fresh instance: empty arena, empty evaluator memory, four bytes of linear memory. -/
def freshInstance : Instance :=
  { heap := [], values := [], mem := [0, 0, 0, 0],
    wasmPath := "m.wasm", functionName := none, warnings := [] }

/-- The state after `n` consecutive calls of `make_null`. -/
def afterMakeNulls : Nat → Instance → Instance
  | 0, st => st
  | n + 1, st =>
    match make_null st with
    | .ok _ st1 => afterMakeNulls n st1
    | _ => st

/-- An evaluator whose `callFunction` can never be run without undefined behaviour: a result
that does not mention `undefined` shows that `callFunction` was not reached. -/
def unreachableEvaluator : Evaluator :=
  { sortBindings := fun bs => bs
    callFunction := fun _ _ _ => fun _ => .undefined }

/-- The call leaves a state behind only if that state is related to the initial one. -/
def CallResult.related (R : Instance → Instance → Prop) (st : Instance) : CallResult → Prop
  | .returned _ st1 => R st st1
  | .trapped _ st1 => R st st1
  | .escaped _ st1 => R st st1
  | .abort => True
  | .undefined => True

/-- A runtime in which setting up WASI does not fail. -/
def okRuntime : Runtime :=
  { wasiConfigError := none, defineWasiError := none }

/-- A module with a memory and a user export `f` that returns its argument, and none of the
three initialization exports. -/
def bareModule : Module :=
  { exports := [("memory", .memory [0, 0, 0, 0]), ("f", .func (fun args => .ret args))],
    instantiateError := none }

/-- A module with `_initialize` and `nix_wasm_init_v1` (each registers one value), the user
export `f` that returns its argument, and no `hs_init`. -/
def plainModule : Module :=
  { exports :=
      [("memory", .memory [0, 0, 0, 0]),
       ("_initialize", .func (fun _ => .host (.make_int 1) (fun _ => .ret []))),
       ("nix_wasm_init_v1", .func (fun _ => .host .make_null (fun _ => .ret []))),
       ("f", .func (fun args => .ret args))],
    instantiateError := none }

/-- A module with a memory, `_initialize` (which does nothing) and the user export `f`, but
without `nix_wasm_init_v1` and without `hs_init`. -/
def hooklessModule : Module :=
  { exports :=
      [("memory", .memory [0, 0, 0, 0]),
       ("_initialize", .func (fun _ => .ret [])),
       ("f", .func (fun args => .ret args))],
    instantiateError := none }

/-- The instance of `hooklessModule` after `_initialize` has returned. -/
def hooklessAfterInit : Instance :=
  { heap := [], values := [], mem := [0, 0, 0, 0], wasmPath := "m.wasm",
    functionName := some "_initialize", warnings := [], calls := [("_initialize", [])] }

/-- The instance of `plainModule` after `_initialize` has returned. -/
def plainAfterInit : Instance :=
  { heap := [.forced (.int 1)], values := [.cell 0], mem := [0, 0, 0, 0], wasmPath := "m.wasm",
    functionName := some "_initialize", warnings := [], calls := [("_initialize", [])] }

/-- The instance of `plainModule` after `nix_wasm_init_v1` has returned. -/
def plainAfterHook : Instance :=
  { heap := [.forced (.int 1)], values := [.cell 0, .vNull], mem := [0, 0, 0, 0],
    wasmPath := "m.wasm", functionName := some "nix_wasm_init_v1", warnings := [],
    calls := [("_initialize", []), ("nix_wasm_init_v1", [])] }

/-- The instance of `plainModule` after the user export `f` has returned, called on `true`. -/
def plainDone : Instance :=
  { heap := [.forced (.int 1)], values := [.cell 0, .vNull, .vTrue], mem := [0, 0, 0, 0],
    wasmPath := "m.wasm", functionName := some "f", warnings := [],
    calls := [("_initialize", []), ("nix_wasm_init_v1", []), ("f", [.i32 2])] }

/-! ## The end-to-end examples -/

/-- Addition of `i64` values in the sandbox: the sum modulo 2^64, read as signed. -/
def wrap64 (n : Int) : Int :=
  (n + 9223372036854775808) % 18446744073709551616 - 9223372036854775808

/-- The export `addOne` of the end-to-end property: it reads its argument with `get_int`, adds 1
and returns the id that `make_int` gives for the sum. -/
def addOne : List Val → Prog
  | [.i32 argId] =>
    .host (.get_int argId) (fun r =>
      match r with
      | .i64 n =>
        .host (.make_int (wrap64 (n + 1))) (fun r2 =>
          match r2 with
          | .i32 id => .ret [.i32 id]
          | _ => .trap "unreachable")
      | _ => .trap "unreachable")
  | _ => .trap "signature mismatch"

/-- Sandbox code that calls `make_null` `count` times and returns. -/
def nullsProg : Nat → Prog
  | 0 => .ret []
  | count + 1 => .host .make_null (fun _ => nullsProg count)

/-- A module whose initialization exports do nothing and whose export `addOne` is `addOne`. -/
def addOneModule : Module :=
  { exports :=
      [("memory", .memory [0, 0, 0, 0]),
       ("_initialize", .func (fun _ => .ret [])),
       ("nix_wasm_init_v1", .func (fun _ => .ret [])),
       ("addOne", .func addOne)],
    instantiateError := none }

/-- The same module, except that `_initialize` registers `count` values first. -/
def busyAddOneModule (count : Nat) : Module :=
  { exports :=
      [("memory", .memory [0, 0, 0, 0]),
       ("_initialize", .func (fun _ => nullsProg count)),
       ("nix_wasm_init_v1", .func (fun _ => .ret [])),
       ("addOne", .func addOne)],
    instantiateError := none }

/-- The instance of `addOneModule`, called on the integer 41, after `_initialize` returned. -/
def addOneAfterInit : Instance :=
  { heap := [.forced (.int 41)], values := [], mem := [0, 0, 0, 0], wasmPath := "m.wasm",
    functionName := some "_initialize", warnings := [], calls := [("_initialize", [])] }

/-- The same instance after `nix_wasm_init_v1` returned. -/
def addOneAfterHook : Instance :=
  { heap := [.forced (.int 41)], values := [], mem := [0, 0, 0, 0], wasmPath := "m.wasm",
    functionName := some "nix_wasm_init_v1", warnings := [],
    calls := [("_initialize", []), ("nix_wasm_init_v1", [])] }

/-- The instance of `busyAddOneModule count`, called on the integer 41, after `_initialize`
returned: the arena holds `count` nulls. -/
def busyAfterInit (count : Nat) : Instance :=
  { heap := [.forced (.int 41)], values := List.replicate count .vNull,
    mem := [0, 0, 0, 0], wasmPath := "m.wasm", functionName := some "_initialize",
    warnings := [], calls := [("_initialize", [])] }

/-- The same instance after `nix_wasm_init_v1` returned. -/
def busyAfterHook (count : Nat) : Instance :=
  { heap := [.forced (.int 41)], values := List.replicate count .vNull,
    mem := [0, 0, 0, 0], wasmPath := "m.wasm", functionName := some "nix_wasm_init_v1",
    warnings := [], calls := [("_initialize", []), ("nix_wasm_init_v1", [])] }

/-! ## Panics and the text of an error -/

/-- Modelled from the spec: the text of an error, as its receiver sees it, is made of its
message and of the traces added to it; `part` occurs in one of them. -/
def NixError.mentions (e : NixError) (part : String) : Prop :=
  ∃ t ∈ e.msg :: e.traces, ∃ a b : String, t = a ++ part ++ b

/-- The trace that `prim_wasm` adds to an error. -/
def executingTrace (functionName wasmPath : String) : String :=
  "while executing the WASM function '" ++ functionName ++ "' from '" ++ wasmPath ++ "'"

/-- A module whose user export `f` returns no result; its initialization exports do nothing. -/
def silentModule : Module :=
  { exports :=
      [("memory", .memory [0, 0, 0, 0]),
       ("_initialize", .func (fun _ => .ret [])),
       ("nix_wasm_init_v1", .func (fun _ => .ret [])),
       ("f", .func (fun _ => .ret []))],
    instantiateError := none }

/-- A module whose user export `f` calls `get_int` on its argument (id 0) and returns it; its
initialization exports do nothing. -/
def readIntModule : Module :=
  { exports :=
      [("memory", .memory [0, 0, 0, 0]),
       ("_initialize", .func (fun _ => .ret [])),
       ("nix_wasm_init_v1", .func (fun _ => .ret [])),
       ("f", .func (fun _ => .host (.get_int 0) (fun _ => .ret [.i32 0])))],
    instantiateError := none }

/-- The instance of either module after `_initialize` returned. -/
def emptyAfterInit : Instance :=
  { heap := [], values := [], mem := [0, 0, 0, 0], wasmPath := "m.wasm",
    functionName := some "_initialize", warnings := [], calls := [("_initialize", [])] }

/-- The same instance after `nix_wasm_init_v1` returned. -/
def emptyAfterHook : Instance :=
  { heap := [], values := [], mem := [0, 0, 0, 0], wasmPath := "m.wasm",
    functionName := some "nix_wasm_init_v1", warnings := [],
    calls := [("_initialize", []), ("nix_wasm_init_v1", [])] }

/-- The same instance after the user export `f` was entered on the argument `true`. -/
def emptyDone : Instance :=
  { heap := [], values := [.vTrue], mem := [0, 0, 0, 0], wasmPath := "m.wasm",
    functionName := some "f", warnings := [],
    calls := [("_initialize", []), ("nix_wasm_init_v1", []), ("f", [.i32 0])] }

/-! ## Examples for `call_function` and the composite constructors -/

/-- An arena of two values, a function and the integer 5; memory holds the id 1 at offset 0. -/
def oneFunction : Instance :=
  { heap := [.forced (.function 0), .forced (.int 5)], values := [.cell 0, .cell 1],
    mem := [1, 0, 0, 0], wasmPath := "m.wasm", functionName := none, warnings := [] }

/-- An arena of 2^32 entries whose first entry is a function. -/
def fullFunctionArena : Instance :=
  { heap := [.forced (.function 0)], values := .cell 0 :: List.replicate 4294967295 .vNull,
    mem := [0, 0, 0, 0], wasmPath := "m.wasm", functionName := none, warnings := [] }

/-- The instance `oneFunction` when `call_function 0 0 1` applies the function: the result cell
is allocated and registered under the id 2. -/
def oneFunctionEntered : Instance :=
  { heap := [.forced (.function 0), .forced (.int 5), .uninitialized],
    values := [.cell 0, .cell 1, .cell 2],
    mem := [1, 0, 0, 0], wasmPath := "m.wasm", functionName := none, warnings := [] }

/-- An arena with one entry (so of size 1) and a memory that holds the id 1 at offset 0 and the
construct record `{namePtr = 16, nameLen = 1, valueId = 1}` at offset 4, with the name "a" at
offset 16. -/
def selfReference : Instance :=
  { heap := [], values := [.vTrue],
    mem := [1, 0, 0, 0, 16, 0, 0, 0, 1, 0, 0, 0, 1, 0, 0, 0, 97, 0, 0, 0],
    wasmPath := "m.wasm", functionName := none, warnings := [] }

/-! # Theorems -/

@[simp] theorem bind_apply {α β : Type} (m : M α) (f : α → M β) (st : Instance) :
    (m >>= f) st = M.bind m f st := rfl

@[simp] theorem pure_apply {α : Type} (a : α) (st : Instance) :
    (pure a : M α) st = .ok a st := rfl

theorem set_append_last {α : Type} (l : List α) (x y : α) :
    (l ++ [x]).set l.length y = l ++ [y] := by
  induction l with
  | nil => rfl
  | cons a l ih => simp [ih]

theorem make_int_eq (n : Int) (st : Instance) :
    make_int n st = .ok (st.values.length % U32)
      { st with heap := st.heap ++ [.forced (.int n)],
                values := st.values ++ [.cell st.heap.length] } := by
  simp [make_int, allocValue, stateAllocValue, addValue, writeValue, M.bind, set_append_last]

theorem make_bool_eq (b : Int) (st : Instance) :
    make_bool b st = .ok (st.values.length % U32)
      { st with values := st.values ++ [getBool (decide (b ≠ 0))] } := by
  simp [make_bool, addValue]

/-- C1 (amended). Scalar round trip while the arena has fewer than 2^32 entries: for every
such state and every integer `n` (so every 64-bit signed one), `make_int n` returns the id of
the new entry and `get_int` at that id returns exactly `n`; and for `v` equal to 0 or 1,
`get_bool` at the id returned by `make_bool v` returns `v`. -/
theorem scalar_round_trip (st : Instance) (hfit : st.values.length < U32) (n : Int) :
    (∃ id st1, make_int n st = .ok id st1 ∧ id = st.values.length ∧
        get_int id st1 = .ok n st1) ∧
    (∀ v : Int, v = 0 ∨ v = 1 →
      ∃ id st1, make_bool v st = .ok id st1 ∧ id = st.values.length ∧
        get_bool id st1 = .ok v st1) := by
  have hmod : st.values.length % U32 = st.values.length := Nat.mod_eq_of_lt hfit
  refine ⟨⟨_, _, make_int_eq n st, hmod, ?_⟩, ?_⟩
  · simp [hmod, get_int, valuesAt, forceInt, forceValue, Instance.deref, M.bind]
  · intro v hv
    refine ⟨_, _, make_bool_eq v st, hmod, ?_⟩
    rcases hv with rfl | rfl <;>
      simp [hmod, get_bool, valuesAt, forceBool, forceValue, Instance.deref, M.bind, getBool]

theorem scalar_round_trip_witness :
    ∃ id st1, make_int 41 oneValue = .ok id st1 ∧ id = oneValue.values.length ∧
      get_int id st1 = .ok 41 st1 :=
  (scalar_round_trip oneValue (by decide) 41).1

theorem U32_pos : 0 < U32 := by decide

theorem get_int_not_int (st : Instance) (id : Nat) (p : Ptr) (w : Forced)
    (hp : st.values[id]? = some p) (hw : st.deref p = some (.forced w))
    (hk : ∀ n, w ≠ .int n) :
    get_int id st =
      .error ⟨.TypeError, "expected an integer: while evaluating a value from WASM", []⟩ st := by
  simp only [get_int, valuesAt, bind_apply, M.bind, hp, forceInt, forceValue, hw]
  cases w with
  | int n => exact absurd rfl (hk n)
  | _ => rfl

theorem make_int_wraps (st : Instance) (n : Int) (hlen : st.values.length = U32)
    (h0 : st.values[0]? = some .vNull) :
    ∃ st1, make_int n st = .ok 0 st1 ∧
      get_int 0 st1 =
        .error ⟨.TypeError, "expected an integer: while evaluating a value from WASM", []⟩ st1 := by
  rw [make_int_eq, hlen, Nat.mod_self]
  refine ⟨_, rfl, get_int_not_int _ 0 .vNull .null ?_ rfl (fun n h => by cases h)⟩
  show (st.values ++ _)[0]? = _
  rw [List.getElem?_append_left (by rw [hlen]; exact U32_pos)]
  exact h0

theorem fullArena_length : fullArena.values.length = U32 := List.length_replicate _ _

theorem fullArena_first : fullArena.values[0]? = some .vNull := by
  show (List.replicate U32 Ptr.vNull)[0]? = _
  rw [List.getElem?_replicate, if_pos U32_pos]

/-- C1, as stated, fails on an arena that already holds 2^32 entries: `make_int 7` returns the
id 0, which still names the first entry (a null), so `get_int` at the returned id raises a type
error and does not return 7. -/
theorem scalar_round_trip_fails_on_full_arena :
    ∃ st1, make_int 7 fullArena = .ok 0 st1 ∧
      get_int 0 st1 =
        .error ⟨.TypeError, "expected an integer: while evaluating a value from WASM", []⟩ st1 :=
  make_int_wraps fullArena 7 fullArena_length fullArena_first

theorem writeAt_length (mem : List Byte) (off : Nat) (bytes : List Byte)
    (h : off + bytes.length ≤ mem.length) : (writeAt mem off bytes).length = mem.length := by
  simp [writeAt]; omega

theorem writeAt_inside (mem : List Byte) (off : Nat) (bytes : List Byte)
    (h : off + bytes.length ≤ mem.length) (i : Nat) (hi : i < bytes.length) :
    (writeAt mem off bytes)[off + i]? = bytes[i]? := by
  have h1 : (mem.take off).length = off := by simp; omega
  unfold writeAt
  rw [List.append_assoc, List.getElem?_append_right (by omega), h1,
    List.getElem?_append_left (by omega)]
  simp

theorem writeAt_outside (mem : List Byte) (off : Nat) (bytes : List Byte)
    (h : off + bytes.length ≤ mem.length) (i : Nat) (hi : i < off ∨ off + bytes.length ≤ i) :
    (writeAt mem off bytes)[i]? = mem[i]? := by
  have h1 : (mem.take off).length = off := by simp; omega
  unfold writeAt
  rcases hi with hi | hi
  · rw [List.append_assoc, List.getElem?_append_left (by omega), List.getElem?_take]
    simp [hi]
  · rw [List.getElem?_append_right (by simp; omega)]
    simp [h1]
    congr 1; omega

/-- What a successful forcing does: nothing on a canonical value, and on a delayed computation
it overwrites that one cell with the canonical form. -/
theorem forceValue_ok (p : Ptr) (st st1 : Instance) (w : Forced)
    (h : forceValue p st = .ok w st1) :
    (st.deref p = some (.forced w) ∧ st1 = st) ∨
    (∃ a, p = .cell a ∧ st.heap[a]? = some (.thunk (.ok w)) ∧
      st1 = { st with heap := st.heap.set a (.forced w) }) := by
  unfold forceValue at h
  split at h
  · cases h
  · rename_i w1 hd
    cases h
    exact Or.inl ⟨hd, rfl⟩
  · rename_i w1 hd
    cases p with
    | cell a =>
      have hlt : a < st.heap.length := by
        have : st.heap[a]? = some (.thunk (.ok w1)) := hd
        exact (List.getElem?_eq_some.1 this).1
      simp [writeValue, M.bind, hlt] at h
      obtain ⟨rfl, rfl⟩ := h
      exact Or.inr ⟨a, rfl, hd, rfl⟩
    | vNull => simp [Instance.deref] at hd
    | vTrue => simp [Instance.deref] at hd
    | vFalse => simp [Instance.deref] at hd
  · cases h
  · cases h

/-- Forcing touches evaluator memory only, and forcing again gives the same value. -/
theorem forceValue_frame (p : Ptr) (st st1 : Instance) (w : Forced)
    (h : forceValue p st = .ok w st1) :
    st1.values = st.values ∧ st1.mem = st.mem ∧ st1.heap.length = st.heap.length ∧
      st1.deref p = some (.forced w) := by
  rcases forceValue_ok p st st1 w h with ⟨hd, rfl⟩ | ⟨a, rfl, hd, rfl⟩
  · exact ⟨rfl, rfl, rfl, hd⟩
  · have hlt : a < st.heap.length := (List.getElem?_eq_some.1 hd).1
    refine ⟨rfl, rfl, by simp, ?_⟩
    simp [Instance.deref, hlt]

theorem forceValue_of_forced (p : Ptr) (st : Instance) (w : Forced)
    (h : st.deref p = some (.forced w)) : forceValue p st = .ok w st := by
  simp [forceValue, h]

theorem copy_string_fits (st st1 : Instance) (id ptr maxLen : Nat) (p : Ptr) (s : List Byte)
    (hid : st.values[id]? = some p) (hs : forceValue p st = .ok (.string s) st1)
    (hlen : s.length ≤ maxLen) (hmax : maxLen < U32) (hbuf : ptr + maxLen ≤ st.mem.length) :
    copy_string id ptr maxLen st = .ok s.length { st1 with mem := writeAt st.mem ptr s } := by
  obtain ⟨hv, hm, _, _⟩ := forceValue_frame p st st1 _ hs
  have hmod : s.length % U32 = s.length := Nat.mod_eq_of_lt (by omega)
  have h1 : ptr ≤ st.mem.length ∧ maxLen ≤ st.mem.length - ptr := by omega
  have h2 : ptr + s.length ≤ st.mem.length := by omega
  simp [copy_string, valuesAt, hid, M.bind, forceString, hs, hlen, memory, Span.subspan, h1,
    memcpy, h2, hmod, hm]

theorem make_string_eq (st : Instance) (ptr len : Nat) (h : ptr + len ≤ st.mem.length) :
    make_string ptr len st = .ok (st.values.length % U32)
      { st with heap := st.heap ++ [.forced (.string ((st.mem.drop ptr).take len))],
                values := st.values ++ [.cell st.heap.length] } := by
  have h1 : ptr ≤ st.mem.length ∧ len ≤ st.mem.length - ptr := by omega
  simp [make_string, allocValue, stateAllocValue, addValue, writeValue, M.bind, memory,
    Span.subspan, loadBytes, h1, h, set_append_last]

theorem slice_length (mem : List Byte) (ptr len : Nat) (h : ptr + len ≤ mem.length) :
    ((mem.drop ptr).take len).length = len := by
  simp; omega

theorem slice_getElem? (mem : List Byte) (ptr len i : Nat) (hi : i < len) :
    ((mem.drop ptr).take len)[i]? = mem[ptr + i]? := by
  rw [List.getElem?_take, if_pos hi, List.getElem?_drop]

/-- C2. `copy_string` with a sufficient buffer. For every id whose forced value is a string `s`
and every `ptr`, `maxLen` (a `uint32_t`) with `s.length ≤ maxLen` and the buffer
`[ptr, ptr + maxLen)` inside the linear memory, `copy_string` returns the length of `s`, the
bytes `[ptr, ptr + s.length)` are those of `s`, every other byte of memory is unchanged, and so is
the arena. In particular the string that `make_string p len` builds from in-range bytes is
the value of the arena entry it appends, and copying it out through an id of that entry
reproduces the bytes that were at `[p, p + len)`. -/
theorem copy_string_sufficient_buffer :
    (∀ (st st1 : Instance) (id ptr maxLen : Nat) (v : Ptr) (s : List Byte),
      st.values[id]? = some v → forceValue v st = .ok (.string s) st1 →
      s.length ≤ maxLen → maxLen < U32 → ptr + maxLen ≤ st.mem.length →
      ∃ st2, copy_string id ptr maxLen st = .ok s.length st2 ∧
        st2.mem.length = st.mem.length ∧
        (∀ i, i < s.length → st2.mem[ptr + i]? = s[i]?) ∧
        (∀ i, i < ptr ∨ ptr + s.length ≤ i → st2.mem[i]? = st.mem[i]?) ∧
        st2.values = st.values) ∧
    (∀ (st : Instance) (p len : Nat), p + len ≤ st.mem.length →
      ∃ newId st1 v, make_string p len st = .ok newId st1 ∧
        st1.values = st.values ++ [v] ∧ st1.mem = st.mem ∧
        (st.values.length < U32 → st1.values[newId]? = some v) ∧
        ∀ id out maxLen, st1.values[id]? = some v →
          len ≤ maxLen → maxLen < U32 → out + maxLen ≤ st1.mem.length →
          ∃ st2, copy_string id out maxLen st1 = .ok len st2 ∧
            ∀ i, i < len → st2.mem[out + i]? = st.mem[p + i]?) := by
  have partA : ∀ (st st1 : Instance) (id ptr maxLen : Nat) (v : Ptr) (s : List Byte),
      st.values[id]? = some v → forceValue v st = .ok (.string s) st1 →
      s.length ≤ maxLen → maxLen < U32 → ptr + maxLen ≤ st.mem.length →
      ∃ st2, copy_string id ptr maxLen st = .ok s.length st2 ∧
        st2.mem.length = st.mem.length ∧
        (∀ i, i < s.length → st2.mem[ptr + i]? = s[i]?) ∧
        (∀ i, i < ptr ∨ ptr + s.length ≤ i → st2.mem[i]? = st.mem[i]?) ∧
        st2.values = st.values := by
    intro st st1 id ptr maxLen v s hid hs hlen hmax hbuf
    have hfit : ptr + s.length ≤ st.mem.length := by omega
    refine ⟨_, copy_string_fits st st1 id ptr maxLen v s hid hs hlen hmax hbuf,
      writeAt_length _ _ _ hfit, fun i hi => writeAt_inside _ _ _ hfit i hi,
      fun i hi => writeAt_outside _ _ _ hfit i hi, (forceValue_frame v st st1 _ hs).1⟩
  refine ⟨partA, ?_⟩
  intro st p len hin
  refine ⟨_, _, .cell st.heap.length, make_string_eq st p len hin, rfl, rfl, ?_, ?_⟩
  · intro hfit
    simp [Nat.mod_eq_of_lt hfit]
  · intro id out maxLen hid hlen hmax hbuf
    have hforce : forceValue (.cell st.heap.length)
        { st with heap := st.heap ++ [.forced (.string ((st.mem.drop p).take len))],
                  values := st.values ++ [.cell st.heap.length] } =
        .ok (.string ((st.mem.drop p).take len)) _ :=
      forceValue_of_forced _ _ _ (by simp [Instance.deref])
    have hl := slice_length st.mem p len hin
    obtain ⟨st2, h1, _, h3, _⟩ := partA _ _ id out maxLen _ _ hid hforce (by omega) hmax hbuf
    rw [hl] at h1
    refine ⟨st2, h1, fun i hi => ?_⟩
    rw [h3 i (by omega), slice_getElem? _ _ _ _ hi]

theorem copy_string_small (st st1 : Instance) (id ptr maxLen : Nat) (v : Ptr) (s : List Byte)
    (hid : st.values[id]? = some v) (hs : forceValue v st = .ok (.string s) st1)
    (hlen : maxLen < s.length) :
    copy_string id ptr maxLen st = .ok (s.length % U32) st1 := by
  have : ¬ s.length ≤ maxLen := by omega
  simp [copy_string, valuesAt, hid, M.bind, forceString, hs, this]

theorem copy_list_small (st st1 : Instance) (id ptr maxLen : Nat) (v : Ptr) (elems : List Ptr)
    (hid : st.values[id]? = some v) (hs : forceValue v st = .ok (.list elems) st1)
    (hlen : maxLen < elems.length) :
    copy_list id ptr maxLen st = .ok (elems.length % U32) st1 := by
  have : ¬ elems.length ≤ maxLen := by omega
  simp [copy_list, valuesAt, hid, M.bind, forceList, hs, this]

theorem copy_attrset_small (st st1 : Instance) (id ptr maxLen : Nat) (v : Ptr)
    (bs : List (List Byte × Ptr))
    (hid : st.values[id]? = some v) (hs : forceValue v st = .ok (.attrs bs) st1)
    (hlen : maxLen < bs.length) :
    copy_attrset id ptr maxLen st = .ok (bs.length % U32) st1 := by
  have : ¬ bs.length ≤ maxLen := by omega
  simp [copy_attrset, valuesAt, hid, M.bind, forceAttrs, hs, this]

/-- C3 (amended). Two-call sizing protocol, too-small case. For `copy_string`, `copy_list` and
`copy_attrset`, every id whose forced value has the matching kind and every `ptr` (in range or
not): if the true size is greater than `maxLen`, the callback returns the true size reduced
modulo 2^32 (the conversion to the `uint32_t` result), which is the true size itself whenever
that is below 2^32; linear memory and the arena are exactly as forcing left them, that is,
unchanged. -/
theorem sizing_too_small :
    (∀ (st st1 : Instance) (id ptr maxLen : Nat) (v : Ptr) (s : List Byte),
      st.values[id]? = some v → forceValue v st = .ok (.string s) st1 → maxLen < s.length →
      copy_string id ptr maxLen st = .ok (s.length % U32) st1 ∧
        (s.length < U32 → s.length % U32 = s.length) ∧
        st1.mem = st.mem ∧ st1.values = st.values) ∧
    (∀ (st st1 : Instance) (id ptr maxLen : Nat) (v : Ptr) (elems : List Ptr),
      st.values[id]? = some v → forceValue v st = .ok (.list elems) st1 →
      maxLen < elems.length →
      copy_list id ptr maxLen st = .ok (elems.length % U32) st1 ∧
        (elems.length < U32 → elems.length % U32 = elems.length) ∧
        st1.mem = st.mem ∧ st1.values = st.values) ∧
    (∀ (st st1 : Instance) (id ptr maxLen : Nat) (v : Ptr) (bs : List (List Byte × Ptr)),
      st.values[id]? = some v → forceValue v st = .ok (.attrs bs) st1 → maxLen < bs.length →
      copy_attrset id ptr maxLen st = .ok (bs.length % U32) st1 ∧
        (bs.length < U32 → bs.length % U32 = bs.length) ∧
        st1.mem = st.mem ∧ st1.values = st.values) := by
  refine ⟨?_, ?_, ?_⟩
  · intro st st1 id ptr maxLen v s hid hs hlen
    obtain ⟨hv, hm, _, _⟩ := forceValue_frame v st st1 _ hs
    exact ⟨copy_string_small st st1 id ptr maxLen v s hid hs hlen, Nat.mod_eq_of_lt, hm, hv⟩
  · intro st st1 id ptr maxLen v elems hid hs hlen
    obtain ⟨hv, hm, _, _⟩ := forceValue_frame v st st1 _ hs
    exact ⟨copy_list_small st st1 id ptr maxLen v elems hid hs hlen, Nat.mod_eq_of_lt, hm, hv⟩
  · intro st st1 id ptr maxLen v bs hid hs hlen
    obtain ⟨hv, hm, _, _⟩ := forceValue_frame v st st1 _ hs
    exact ⟨copy_attrset_small st st1 id ptr maxLen v bs hid hs hlen, Nat.mod_eq_of_lt, hm, hv⟩

theorem sizing_too_small_witness :
    copy_string 0 0 0 oneString = .ok (2 % U32) oneString ∧
      ((2 : Nat) < U32 → 2 % U32 = 2) ∧ oneString.mem = oneString.mem ∧
      oneString.values = oneString.values :=
  sizing_too_small.1 oneString oneString 0 0 0 (.cell 0) [104, 105] rfl rfl (by decide)

/-- C3, as stated, fails for a string of 2^32 bytes: with `maxLen = 0` the true size 2^32 is
greater than `maxLen`, and `copy_string` returns 0. -/
theorem sizing_too_small_huge_string :
    copy_string 0 0 0 hugeString = .ok 0 hugeString ∧
    hugeString.values[0]? = some (.cell 0) ∧
    forceValue (.cell 0) hugeString = .ok (.string (List.replicate U32 0)) hugeString ∧
    (List.replicate U32 (0 : Byte)).length = U32 := by
  refine ⟨?_, rfl, forceValue_of_forced _ _ _ rfl, List.length_replicate _ _⟩
  have h := copy_string_small hugeString hugeString 0 0 0 (.cell 0) (List.replicate U32 0) rfl
    (forceValue_of_forced _ _ _ rfl) (by rw [List.length_replicate]; exact U32_pos)
  rw [List.length_replicate, Nat.mod_self] at h
  exact h

theorem toNat_ofNat (n : Nat) : (UInt8.ofNat n).toNat = n % 256 := by
  simp [UInt8.toNat, UInt8.ofNat, Fin.ofNat]

theorem decode_encode_u32 (v : Nat) : decodeLE (encodeLE 4 v) = v % U32 := by
  simp only [encodeLE, decodeLE, toNat_ofNat, U32]
  omega

theorem encodeLE_length (w v : Nat) : (encodeLE w v).length = w := by
  induction w generalizing v with
  | zero => rfl
  | succ w ih => simp [encodeLE, ih]

theorem writeAt_slice (mem : List Byte) (off : Nat) (bytes : List Byte)
    (h : off + bytes.length ≤ mem.length) :
    ((writeAt mem off bytes).drop off).take bytes.length = bytes := by
  apply List.ext_getElem?
  intro i
  by_cases hi : i < bytes.length
  · rw [List.getElem?_take, if_pos hi, List.getElem?_drop, writeAt_inside _ _ _ h i hi]
  · rw [List.getElem?_take, if_neg hi]
    exact (List.getElem?_eq_none (by omega)).symm

theorem readU32_writeAt (mem : List Byte) (off v : Nat) (h : off + 4 ≤ mem.length) :
    readU32 (writeAt mem off (encodeLE 4 v)) off = v % U32 := by
  have hl := encodeLE_length 4 v
  have := writeAt_slice mem off (encodeLE 4 v) (by omega)
  rw [hl] at this
  rw [readU32, this, decode_encode_u32]

theorem readU32_congr (m1 m2 : List Byte) (off : Nat)
    (h : ∀ i, i < off + 4 → m1[i]? = m2[i]?) : readU32 m1 off = readU32 m2 off := by
  unfold readU32
  congr 1
  apply List.ext_getElem?
  intro i
  by_cases hi : i < 4
  · rw [List.getElem?_take, List.getElem?_take, if_pos hi, if_pos hi, List.getElem?_drop,
      List.getElem?_drop]
    exact h _ (by omega)
  · rw [List.getElem?_take, List.getElem?_take, if_neg hi, if_neg hi]

theorem readU32_congr_range (m1 m2 : List Byte) (off : Nat)
    (h : ∀ i, off ≤ i → i < off + 4 → m1[i]? = m2[i]?) : readU32 m1 off = readU32 m2 off := by
  unfold readU32
  congr 1
  apply List.ext_getElem?
  intro i
  by_cases hi : i < 4
  · rw [List.getElem?_take, List.getElem?_take, if_pos hi, if_pos hi, List.getElem?_drop,
      List.getElem?_drop]
    exact h _ (by omega) (by omega)
  · rw [List.getElem?_take, List.getElem?_take, if_neg hi, if_neg hi]

theorem storedIds_congr (m1 m2 : List Byte) (count off : Nat)
    (h : ∀ i, off ≤ i → i < off + 4 * count → m1[i]? = m2[i]?) :
    storedIds m1 off count = storedIds m2 off count := by
  induction count generalizing off with
  | zero => rfl
  | succ n ih =>
    simp only [storedIds]
    rw [readU32_congr_range m1 m2 off (fun i h1 h2 => h i h1 (by omega)),
      ih (off + 4) (fun i h1 h2 => h i (by omega) (by omega))]

theorem loadU32_eq (off : Nat) (st : Instance) (h : off + 4 ≤ st.mem.length) :
    loadU32 off st = .ok (readU32 st.mem off) st := by
  simp [loadU32, loadBytes, M.bind, h, readU32]

theorem storeU32_eq (off v : Nat) (st : Instance) (h : off + 4 ≤ st.mem.length) :
    storeU32 off v st = .ok () { st with mem := writeAt st.mem off (encodeLE 4 v) } := by
  simp [storeU32, memcpy, encodeLE_length, h]

theorem writeIds_ok : ∀ (elems : List Ptr) (off : Nat) (st : Instance),
    off + 4 * elems.length ≤ st.mem.length → st.values.length + elems.length ≤ U32 →
    ∃ st1, writeIds off elems st = .ok () st1 ∧ st1.values = st.values ++ elems ∧
      st1.heap = st.heap ∧ st1.mem.length = st.mem.length ∧
      (∀ i, i < off ∨ off + 4 * elems.length ≤ i → st1.mem[i]? = st.mem[i]?) ∧
      storedIds st1.mem off elems.length = List.range' st.values.length elems.length := by
  intro elems
  induction elems with
  | nil =>
    intro off st _ _
    exact ⟨st, rfl, by simp, rfl, rfl, fun _ _ => rfl, rfl⟩
  | cons e rest ih =>
    intro off st hmem hfit
    simp only [List.length_cons] at hmem hfit
    have hlt : st.values.length % U32 = st.values.length := Nat.mod_eq_of_lt (by omega)
    have h4 : off + 4 ≤ st.mem.length := by omega
    have hw := writeAt_length st.mem off (encodeLE 4 st.values.length)
      (by rw [encodeLE_length]; exact h4)
    obtain ⟨st1, hrun, hvals, hheap, hlen, hframe, hids⟩ :=
      ih (off + 4)
        { st with values := st.values ++ [e],
                  mem := writeAt st.mem off (encodeLE 4 st.values.length) }
        (by simp only [hw]; omega) (by simp; omega)
    refine ⟨st1, ?_, ?_, hheap, by rw [hlen]; exact hw, ?_, ?_⟩
    · simp only [writeIds, bind_apply, M.bind, addValue, hlt]
      rw [storeU32_eq]
      · exact hrun
      · exact h4
    · rw [hvals]; simp
    · intro i hi
      rw [hframe i (by simp only [List.length_cons] at hi; omega)]
      exact writeAt_outside _ _ _ (by rw [encodeLE_length]; exact h4) i
        (by rw [encodeLE_length]; simp only [List.length_cons] at hi; omega)
    · simp only [List.length_cons, storedIds, List.range'_succ]
      rw [hids]
      congr 1
      · rw [readU32_congr st1.mem _ off (fun i hi => hframe i (Or.inl hi))]
        rw [readU32_writeAt _ _ _ h4, hlt]
      · simp

theorem readValues_ok : ∀ (count off : Nat) (st : Instance),
    off + 4 * count ≤ st.mem.length →
    (∀ i ∈ storedIds st.mem off count, i < st.values.length) →
    ∃ ps, readValues off count st = .ok ps st ∧
      ps.map some = (storedIds st.mem off count).map (fun i => st.values[i]?) := by
  intro count
  induction count with
  | zero =>
    intro off st _ _
    exact ⟨[], rfl, rfl⟩
  | succ n ih =>
    intro off st hmem hvalid
    have h4 : off + 4 ≤ st.mem.length := by omega
    have hfirst : readU32 st.mem off < st.values.length :=
      hvalid _ (by simp [storedIds])
    obtain ⟨ps, hrun, hps⟩ := ih (off + 4) st (by omega)
      (fun i hi => hvalid i (by simp [storedIds, hi]))
    refine ⟨st.values[readU32 st.mem off] :: ps, ?_, ?_⟩
    · simp only [readValues, bind_apply, M.bind, loadU32_eq off st h4, valuesAt,
        List.getElem?_eq_getElem hfirst, hrun, pure_apply]
    · simp only [storedIds, List.map_cons, hps, List.getElem?_eq_getElem hfirst]

theorem make_list_ok (st : Instance) (ptr n : Nat)
    (hsrc : ptr + 4 * n ≤ st.mem.length)
    (hvalid : ∀ i ∈ storedIds st.mem ptr n, i < st.values.length) :
    ∃ ps, make_list ptr n st = .ok (st.values.length % U32)
        { st with heap := st.heap ++ [.forced (.list ps)],
                  values := st.values ++ [.cell st.heap.length] } ∧
      ps.map some = (storedIds st.mem ptr n).map (fun i => st.values[i]?) := by
  obtain ⟨ps, hrun, hps⟩ := readValues_ok n ptr
    { st with heap := st.heap ++ [.uninitialized],
              values := st.values ++ [.cell st.heap.length] }
    hsrc (fun i hi => by have := hvalid i hi; simp; omega)
  refine ⟨ps, ?_, ?_⟩
  · have h1 : ptr ≤ st.mem.length := by omega
    have h2 : n * 4 ≤ st.mem.length - ptr := by omega
    simp [make_list, memory, Span.subspanFrom, subspanT, M.bind, h1, h2, allocValue,
      stateAllocValue, addValue, hrun, writeValue, set_append_last]
  · rw [hps]
    apply List.map_congr_left
    intro i hi
    exact List.getElem?_append_left (hvalid i hi)

theorem copy_list_fits (st st1 : Instance) (id out maxLen : Nat) (v : Ptr) (elems : List Ptr)
    (hid : st.values[id]? = some v) (hs : forceValue v st = .ok (.list elems) st1)
    (hlen : elems.length ≤ maxLen) (hmax : maxLen < U32)
    (hout : out + 4 * elems.length ≤ st.mem.length)
    (hroom : st.values.length + elems.length ≤ U32) :
    ∃ st2, copy_list id out maxLen st = .ok elems.length st2 ∧
      st2.values = st.values ++ elems ∧ st2.heap = st1.heap ∧
      st2.mem.length = st.mem.length ∧
      (∀ i, i < out ∨ out + 4 * elems.length ≤ i → st2.mem[i]? = st.mem[i]?) ∧
      storedIds st2.mem out elems.length = List.range' st.values.length elems.length := by
  obtain ⟨hv, hm, _, _⟩ := forceValue_frame v st st1 _ hs
  obtain ⟨st2, hrun, h1, h2, h3, h4, h5⟩ := writeIds_ok elems out st1
    (by rw [hm]; exact hout) (by rw [hv]; exact hroom)
  refine ⟨st2, ?_, by rw [h1, hv], h2, by rw [h3, hm], fun i hi => by rw [h4 i hi, hm],
    by rw [h5, hv]⟩
  have hmod : elems.length % U32 = elems.length := Nat.mod_eq_of_lt (by omega)
  have ha : out ≤ st.mem.length := by omega
  have hb : elems.length * 4 ≤ st.mem.length - out := by omega
  simp [copy_list, valuesAt, hid, M.bind, forceList, hs, hlen, memory, Span.subspanFrom,
    subspanT, hm, ha, hb, hrun, hmod]

theorem storedIds_length (mem : List Byte) (count off : Nat) :
    (storedIds mem off count).length = count := by
  induction count generalizing off with
  | zero => rfl
  | succ n ih => simp [storedIds, ih]

theorem range'_map_append {α : Type} (l ps : List α) :
    (List.range' l.length ps.length).map (fun i => (l ++ ps)[i]?) = ps.map some := by
  apply List.ext_getElem?
  intro k
  by_cases hk : k < ps.length
  · rw [List.getElem?_map, List.getElem?_range' _ _ hk, List.getElem?_map]
    simp only [Option.map_some', one_mul]
    rw [List.getElem?_append_right (by omega), Nat.add_sub_cancel_left,
      List.getElem?_eq_getElem hk]
    rfl
  · have h1 : (List.map (fun i => (l ++ ps)[i]?) (List.range' l.length ps.length))[k]? = none :=
      List.getElem?_eq_none (by simp; omega)
    have h2 : (List.map some ps)[k]? = none := List.getElem?_eq_none (by simp; omega)
    rw [h1, h2]

/-- C4 (amended). List round trip, while the ids fit in 32 bits. If linear memory holds `n`
valid arena ids from `ptr` on, the arena has room for `n + 1` more entries below 2^32, and
`copy_list` is given `maxLen ≥ n` (a `uint32_t`) with the `n` output slots inside memory, then
`make_list` returns an id `L`, `copy_list L` returns `n`, and the `n` ids it writes are the
next `n` arena ids: none of them was in the arena before the `copy_list` call, they are
pairwise distinct, and the k-th one resolves to the same host value as the k-th input id. -/
theorem list_round_trip (st : Instance) (ptr n out maxLen : Nat)
    (hsrc : ptr + 4 * n ≤ st.mem.length)
    (hvalid : ∀ i ∈ storedIds st.mem ptr n, i < st.values.length)
    (hmax : n ≤ maxLen) (hmax32 : maxLen < U32)
    (hout : out + 4 * n ≤ st.mem.length)
    (hroom : st.values.length + 1 + n ≤ U32) :
    ∃ L st1 st2, make_list ptr n st = .ok L st1 ∧ copy_list L out maxLen st1 = .ok n st2 ∧
      storedIds st2.mem out n = List.range' st1.values.length n ∧
      (∀ i ∈ storedIds st2.mem out n, st1.values[i]? = none) ∧
      (storedIds st2.mem out n).Nodup ∧
      (storedIds st2.mem out n).map (fun i => st2.values[i]?) =
        (storedIds st.mem ptr n).map (fun i => st.values[i]?) ∧
      ∀ i ∈ storedIds st.mem ptr n, ∃ v, st.values[i]? = some v := by
  obtain ⟨ps, hmake, hps⟩ := make_list_ok st ptr n hsrc hvalid
  have hpl : ps.length = n := by
    have := congrArg List.length hps
    simpa [storedIds_length] using this
  have hL : st.values.length % U32 = st.values.length := Nat.mod_eq_of_lt (by omega)
  rw [hL] at hmake
  obtain ⟨st2, hcopy, hvals, _, _, _, hids⟩ := copy_list_fits
    { st with heap := st.heap ++ [.forced (.list ps)],
              values := st.values ++ [.cell st.heap.length] }
    _ st.values.length out maxLen (.cell st.heap.length) ps (by simp)
    (forceValue_of_forced _ _ _ (by simp [Instance.deref])) (by omega) hmax32
    (by rw [hpl]; exact hout) (by simp; omega)
  rw [hpl] at hcopy hids
  refine ⟨_, _, st2, hmake, hcopy, hids, ?_, ?_, ?_, ?_⟩
  · intro i hi
    rw [hids] at hi
    exact List.getElem?_eq_none (List.mem_range'_1.1 hi).1
  · rw [hids]; exact List.nodup_range' _ _
  · rw [hids, hvals, ← hps, ← hpl]
    exact range'_map_append _ ps
  · intro i hi
    exact ⟨_, List.getElem?_eq_getElem (hvalid i hi)⟩

theorem list_round_trip_witness :
    ∃ L st1 st2, make_list 0 1 oneValue = .ok L st1 ∧ copy_list L 4 1 st1 = .ok 1 st2 ∧
      storedIds st2.mem 4 1 = List.range' st1.values.length 1 ∧
      (∀ i ∈ storedIds st2.mem 4 1, st1.values[i]? = none) ∧
      (storedIds st2.mem 4 1).Nodup ∧
      (storedIds st2.mem 4 1).map (fun i => st2.values[i]?) =
        (storedIds oneValue.mem 0 1).map (fun i => oneValue.values[i]?) ∧
      ∀ i ∈ storedIds oneValue.mem 0 1, ∃ v, oneValue.values[i]? = some v :=
  list_round_trip oneValue 0 1 4 1 (by decide) (by decide) (by decide) (by decide) (by decide)
    (by decide)

theorem copy_string_sufficient_buffer_witness :
    ∃ st2, copy_string 0 1 2 oneString = .ok 2 st2 ∧
      st2.mem.length = oneString.mem.length ∧
      (∀ i, i < 2 → st2.mem[1 + i]? = [(104 : Byte), 105][i]?) ∧
      (∀ i, i < 1 ∨ 1 + 2 ≤ i → st2.mem[i]? = oneString.mem[i]?) ∧
      st2.values = oneString.values :=
  copy_string_sufficient_buffer.1 oneString oneString 0 1 2 (.cell 0) [104, 105] rfl rfl
    (by decide) (by decide) (by decide)

theorem make_list_wraps (st : Instance) (ptr n : Nat) (hlen : st.values.length = U32)
    (h0 : st.values[0]? = some .vNull)
    (hsrc : ptr + 4 * n ≤ st.mem.length)
    (hvalid : ∀ i ∈ storedIds st.mem ptr n, i < st.values.length) (out maxLen : Nat) :
    ∃ st1, make_list ptr n st = .ok 0 st1 ∧
      copy_list 0 out maxLen st1 =
        .error ⟨.TypeError, "expected a list: while getting a list from WASM", []⟩ st1 := by
  obtain ⟨ps, hmake, _⟩ := make_list_ok st ptr n hsrc hvalid
  rw [hlen, Nat.mod_self] at hmake
  refine ⟨_, hmake, ?_⟩
  have hfirst : (st.values ++ [Ptr.cell st.heap.length])[0]? = some .vNull := by
    rw [List.getElem?_append_left (by rw [hlen]; exact U32_pos)]
    exact h0
  simp only [copy_list, valuesAt, bind_apply, M.bind, hfirst, forceList, forceValue,
    Instance.deref]
  rfl

/-- C4, as stated, fails on an arena that already holds 2^32 entries: memory holds the valid
id 0, `make_list 0 1` returns the id 0, which still names the first entry (a null), and
`copy_list` on the returned id raises a type error instead of returning 1. -/
theorem list_round_trip_fails_on_full_arena :
    (∀ i ∈ storedIds fullArena.mem 0 1, i < fullArena.values.length) ∧
    0 + 4 * 1 ≤ fullArena.mem.length ∧
    ∃ st1, make_list 0 1 fullArena = .ok 0 st1 ∧
      copy_list 0 0 1 st1 =
        .error ⟨.TypeError, "expected a list: while getting a list from WASM", []⟩ st1 := by
  have hvalid : ∀ i ∈ storedIds fullArena.mem 0 1, i < fullArena.values.length := by
    intro i hi
    rw [fullArena_length]
    have : storedIds fullArena.mem 0 1 = [0] := by decide
    rw [this] at hi
    simp at hi
    rw [hi]; exact U32_pos
  exact ⟨hvalid, by decide,
    make_list_wraps fullArena 0 1 fullArena_length fullArena_first (by decide) hvalid 0 1⟩

theorem decodeLE_lt (bs : List Byte) : decodeLE bs < 256 ^ bs.length := by
  induction bs with
  | nil => simp [decodeLE]
  | cons b bs ih =>
    have hb : b.toNat < 256 := b.val.isLt
    simp only [decodeLE, List.length_cons, pow_succ]
    omega

theorem readU32_lt (mem : List Byte) (off : Nat) : readU32 mem off < U32 := by
  unfold readU32
  have h1 := decodeLE_lt ((mem.drop off).take 4)
  have h2 : ((mem.drop off).take 4).length ≤ 4 := by simp
  have h3 : 256 ^ ((mem.drop off).take 4).length ≤ 256 ^ 4 :=
    Nat.pow_le_pow_right (by decide) h2
  have h4 : (256 : Nat) ^ 4 = U32 := by decide
  omega

theorem readAttrs_ok : ∀ (count off : Nat) (st : Instance),
    off + 12 * count ≤ st.mem.length →
    (∀ r ∈ storedAttrs st.mem off count,
      r.1 + r.2.1 ≤ st.mem.length ∧ r.2.2 < st.values.length) →
    ∃ bs, readAttrs ⟨0, st.mem.length⟩ off count st = .ok bs st ∧
      bs.map (fun b => (b.1, some b.2)) =
        (storedAttrs st.mem off count).map
          (fun r => (slice st.mem r.1 r.2.1, st.values[r.2.2]?)) := by
  intro count
  induction count with
  | zero =>
    intro off st _ _
    exact ⟨[], rfl, rfl⟩
  | succ n ih =>
    intro off st hmem hvalid
    have ha : off + 4 ≤ st.mem.length := by omega
    have hb : off + 4 + 4 ≤ st.mem.length := by omega
    have hc : off + 8 + 4 ≤ st.mem.length := by omega
    obtain ⟨hname, hid⟩ := hvalid (readU32 st.mem off, readU32 st.mem (off + 4),
      readU32 st.mem (off + 8)) (by simp [storedAttrs])
    simp only at hname hid
    obtain ⟨bs, hrun, hbs⟩ := ih (off + 12) st (by omega)
      (fun r hr => hvalid r (by simp [storedAttrs, hr]))
    have h1 : readU32 st.mem off ≤ st.mem.length ∧
        readU32 st.mem (off + 4) ≤ st.mem.length - readU32 st.mem off := by omega
    refine ⟨(slice st.mem (readU32 st.mem off) (readU32 st.mem (off + 4)),
      st.values[readU32 st.mem (off + 8)]) :: bs, ?_, ?_⟩
    · simp only [readAttrs, bind_apply, M.bind, loadU32_eq off st ha,
        loadU32_eq (off + 4) st hb, loadU32_eq (off + 8) st hc, Span.subspan, h1, and_self,
        if_true, loadBytes, Nat.zero_add, hname, valuesAt, List.getElem?_eq_getElem hid, hrun,
        pure_apply, slice]
    · simp only [storedAttrs, List.map_cons, hbs, List.getElem?_eq_getElem hid]

theorem make_attrset_ok (ev : Evaluator) (st : Instance) (ptr len : Nat)
    (hsrc : ptr + 12 * len ≤ st.mem.length)
    (hvalid : ∀ r ∈ storedAttrs st.mem ptr len,
      r.1 + r.2.1 ≤ st.mem.length ∧ r.2.2 < st.values.length) :
    ∃ bs, make_attrset ev ptr len st = .ok (st.values.length % U32)
        { st with heap := st.heap ++ [.forced (.attrs (ev.sortBindings bs))],
                  values := st.values ++ [.cell st.heap.length] } ∧
      bs.map (fun b => (b.1, some b.2)) =
        (storedAttrs st.mem ptr len).map
          (fun r => (slice st.mem r.1 r.2.1, st.values[r.2.2]?)) := by
  obtain ⟨bs, hrun, hbs⟩ := readAttrs_ok len ptr
    { st with heap := st.heap ++ [.uninitialized],
              values := st.values ++ [.cell st.heap.length] }
    hsrc (fun r hr => by have := hvalid r hr; simp; omega)
  refine ⟨bs, ?_, ?_⟩
  · have h1 : ptr ≤ st.mem.length := by omega
    have h2 : len * 12 ≤ st.mem.length - ptr := by omega
    simp [make_attrset, memory, Span.subspanFrom, subspanT, M.bind, h1, h2, allocValue,
      stateAllocValue, addValue, hrun, writeValue, set_append_last]
  · rw [hbs]
    apply List.map_congr_left
    intro r hr
    simp only [Prod.mk.injEq, true_and]
    exact List.getElem?_append_left (hvalid r hr).2

theorem writeAttrs_ok : ∀ (bs : List (List Byte × Ptr)) (off : Nat) (st : Instance),
    off + 8 * bs.length ≤ st.mem.length → st.values.length + bs.length ≤ U32 →
    (∀ b ∈ bs, b.1.length < U32) →
    ∃ st1, writeAttrs off bs st = .ok () st1 ∧ st1.values = st.values ++ bs.map (fun b => b.2) ∧
      st1.heap = st.heap ∧ st1.mem.length = st.mem.length ∧
      (∀ i, i < off ∨ off + 8 * bs.length ≤ i → st1.mem[i]? = st.mem[i]?) ∧
      storedPairs st1.mem off bs.length =
        List.zipWith (fun i b => (i, b.1.length)) (List.range' st.values.length bs.length) bs := by
  intro bs
  induction bs with
  | nil =>
    intro off st _ _ _
    exact ⟨st, rfl, by simp, rfl, rfl, fun _ _ => rfl, rfl⟩
  | cons b rest ih =>
    intro off st hmem hfit hnames
    simp only [List.length_cons] at hmem hfit
    have hlt : st.values.length % U32 = st.values.length := Nat.mod_eq_of_lt (by omega)
    have hnl : b.1.length % U32 = b.1.length := Nat.mod_eq_of_lt (hnames b (by simp))
    have h4 : off + 4 ≤ st.mem.length := by omega
    have h8 : off + 4 + 4 ≤ st.mem.length := by omega
    have hw1 := writeAt_length st.mem off (encodeLE 4 st.values.length)
      (by rw [encodeLE_length]; exact h4)
    have hw2 := writeAt_length (writeAt st.mem off (encodeLE 4 st.values.length)) (off + 4)
      (encodeLE 4 b.1.length) (by rw [encodeLE_length, hw1]; exact h8)
    obtain ⟨st1, hrun, hvals, hheap, hlen, hframe, hids⟩ :=
      ih (off + 8)
        { st with values := st.values ++ [b.2],
                  mem := writeAt (writeAt st.mem off (encodeLE 4 st.values.length)) (off + 4)
                    (encodeLE 4 b.1.length) }
        (by simp only [hw2, hw1]; omega) (by simp; omega)
        (fun x hx => hnames x (by simp [hx]))
    refine ⟨st1, ?_, ?_, hheap, by rw [hlen]; simp only [hw2, hw1], ?_, ?_⟩
    · simp only [writeAttrs, bind_apply, M.bind, addValue, hlt, hnl]
      rw [storeU32_eq]
      · simp only
        rw [storeU32_eq]
        · exact hrun
        · simp only [hw1]; exact h8
      · exact h4
    · rw [hvals]; simp
    · intro i hi
      simp only [List.length_cons] at hi
      rw [hframe i (by omega)]
      simp only
      rw [writeAt_outside _ _ _ (by rw [encodeLE_length, hw1]; exact h8) i
        (by rw [encodeLE_length]; omega)]
      exact writeAt_outside _ _ _ (by rw [encodeLE_length]; exact h4) i
        (by rw [encodeLE_length]; omega)
    · simp only [List.length_cons, storedPairs, List.range'_succ, List.zipWith_cons_cons]
      rw [hids]
      congr 1
      · congr 1
        · rw [readU32_congr st1.mem _ off (fun i hi => hframe i (Or.inl (by omega)))]
          simp only
          rw [readU32_congr_range _ (writeAt st.mem off (encodeLE 4 st.values.length)) off
            (fun i h1 h2 => writeAt_outside _ _ _ (by rw [encodeLE_length, hw1]; exact h8) i
              (Or.inl (by omega)))]
          rw [readU32_writeAt _ _ _ h4, hlt]
        · rw [readU32_congr st1.mem _ (off + 4) (fun i hi => hframe i (Or.inl (by omega)))]
          simp only
          rw [readU32_writeAt _ _ _ (by rw [hw1]; exact h8), hnl]
      · simp

theorem copy_attrset_fits (st st1 : Instance) (id buf maxLen : Nat) (v : Ptr)
    (bs : List (List Byte × Ptr))
    (hid : st.values[id]? = some v) (hs : forceValue v st = .ok (.attrs bs) st1)
    (hlen : bs.length ≤ maxLen) (hmax : maxLen < U32)
    (hbuf : buf + 8 * maxLen ≤ st.mem.length)
    (hroom : st.values.length + bs.length ≤ U32)
    (hnames : ∀ b ∈ bs, b.1.length < U32) :
    ∃ st2, copy_attrset id buf maxLen st = .ok bs.length st2 ∧
      st2.values = st.values ++ bs.map (fun b => b.2) ∧ st2.heap = st1.heap ∧
      st2.mem.length = st.mem.length ∧
      storedPairs st2.mem buf bs.length =
        List.zipWith (fun i b => (i, b.1.length)) (List.range' st.values.length bs.length) bs := by
  obtain ⟨hv, hm, _, _⟩ := forceValue_frame v st st1 _ hs
  obtain ⟨st2, hrun, h1, h2, h3, _, h5⟩ := writeAttrs_ok bs buf st1
    (by rw [hm]; omega) (by rw [hv]; exact hroom) hnames
  refine ⟨st2, ?_, by rw [h1, hv], h2, by rw [h3, hm], by rw [h5, hv]⟩
  have hmod : bs.length % U32 = bs.length := Nat.mod_eq_of_lt (by omega)
  have ha : buf ≤ st.mem.length := by omega
  have hb : maxLen * 8 ≤ st.mem.length - buf := by omega
  simp [copy_attrset, valuesAt, hid, M.bind, forceAttrs, hs, hlen, memory, Span.subspanFrom,
    subspanT, hm, ha, hb, hrun, hmod]

theorem copy_attrname_ok (st : Instance) (id k p : Nat) (v q : Ptr)
    (bs : List (List Byte × Ptr)) (name : List Byte)
    (hid : st.values[id]? = some v) (hs : st.deref v = some (.forced (.attrs bs)))
    (hk : bs[k]? = some (name, q)) (hp : p + name.length ≤ st.mem.length) :
    copy_attrname id k p name.length st = .ok () { st with mem := writeAt st.mem p name } := by
  have hlt : k < bs.length := (List.getElem?_eq_some.1 hk).1
  have hget : bs[k] = (name, q) := by
    have := List.getElem?_eq_getElem hlt
    rw [this] at hk
    exact Option.some.inj hk
  have h1 : p ≤ st.mem.length ∧ name.length ≤ st.mem.length - p := by omega
  simp [copy_attrname, valuesAt, hid, M.bind, forceAttrs, forceValue_of_forced v st _ hs,
    assert, hlt, hget, memory, Span.subspan, h1, memcpy, hp]

theorem zipWith_range'_resolve {α β : Type} (l : List α) (bs : List (β × α)) :
    (List.zipWith (fun i b => (b.1, i)) (List.range' l.length bs.length) bs).map
      (fun r => (r.1, (l ++ bs.map (fun b => b.2))[r.2]?)) =
    bs.map (fun b => (b.1, some b.2)) := by
  induction bs generalizing l with
  | nil => rfl
  | cons b rest ih =>
    simp only [List.length_cons, List.range'_succ, List.zipWith_cons_cons, List.map_cons]
    congr 1
    · have : (l ++ b.2 :: List.map (fun b => b.2) rest)[l.length]? = some b.2 := by
        rw [List.getElem?_append_right (le_refl _)]
        simp
      simp only [this]
    · have := ih (l ++ [b.2])
      simp only [List.length_append, List.length_singleton, List.append_assoc,
        List.singleton_append] at this
      exact this

theorem storedAttrs_nameLen_lt (mem : List Byte) (count off : Nat) :
    ∀ r ∈ storedAttrs mem off count, r.2.1 < U32 := by
  induction count generalizing off with
  | zero => intro r hr; simp [storedAttrs] at hr
  | succ n ih =>
    intro r hr
    simp only [storedAttrs, List.mem_cons] at hr
    rcases hr with rfl | hr
    · exact readU32_lt _ _
    · exact ih _ r hr

theorem storedAttrs_length (mem : List Byte) (count off : Nat) :
    (storedAttrs mem off count).length = count := by
  induction count generalizing off with
  | zero => rfl
  | succ n ih => simp [storedAttrs, ih]

theorem zipWith_range'_getElem? {β : Type} (s : Nat) (bs : List (β × Ptr)) (k id : Nat)
    (name : β)
    (h : (List.zipWith (fun i b => (b.1, i)) (List.range' s bs.length) bs)[k]? =
      some (name, id)) :
    ∃ q, bs[k]? = some (name, q) := by
  induction bs generalizing s k with
  | nil => simp at h
  | cons b rest ih =>
    simp only [List.length_cons, List.range'_succ, List.zipWith_cons_cons] at h
    cases k with
    | zero =>
      simp only [List.getElem?_cons_zero, Option.some.injEq, Prod.mk.injEq] at h
      exact ⟨b.2, by simp [← h.1]⟩
    | succ k =>
      simp only [List.getElem?_cons_succ] at h
      obtain ⟨q, hq⟩ := ih (s + 1) k h
      exact ⟨q, by simpa using hq⟩

/-- C5 (amended). Attribute-set round trip, while the ids fit in 32 bits. Memory holds `len`
construct records with names in range and valid value ids, the arena has room for `len + 1`
more entries below 2^32, and the evaluator keeps every inserted binding (in some order). Then
`make_attrset` returns an id `A`; `copy_attrset A` with a buffer of `maxLen ≥ len` records
(`maxLen` a `uint32_t`) in range returns `len` and writes records `{id, nameLen}`; for every index `k`, `copy_attrname A k`
with the `nameLen` of record `k` writes a name of exactly that length; and the (name, value)
pairs so retrieved are, up to order, the pairs given to `make_attrset`. -/
theorem attrset_round_trip (ev : Evaluator) (hev : ∀ l, (ev.sortBindings l).Perm l)
    (st : Instance) (ptr len buf maxLen : Nat)
    (hsrc : ptr + 12 * len ≤ st.mem.length)
    (hvalid : ∀ r ∈ storedAttrs st.mem ptr len,
      r.1 + r.2.1 ≤ st.mem.length ∧ r.2.2 < st.values.length)
    (hmax : len ≤ maxLen) (hmax32 : maxLen < U32)
    (hbuf : buf + 8 * maxLen ≤ st.mem.length)
    (hroom : st.values.length + 1 + len ≤ U32) :
    ∃ (A : Nat) (st1 st2 : Instance) (got : List (List Byte × Nat)),
      make_attrset ev ptr len st = .ok A st1 ∧
      copy_attrset A buf maxLen st1 = .ok len st2 ∧
      storedPairs st2.mem buf len = got.map (fun g => (g.2, g.1.length)) ∧
      (∀ k name id, got[k]? = some (name, id) →
        ∀ (st3 : Instance) (p : Nat), st3.heap = st2.heap → st3.values = st2.values →
          p + name.length ≤ st3.mem.length →
          ∃ st4, copy_attrname A k p name.length st3 = .ok () st4 ∧
            slice st4.mem p name.length = name ∧
            st4.heap = st3.heap ∧ st4.values = st3.values ∧
            st4.mem.length = st3.mem.length) ∧
      (got.map (fun g => (g.1, st2.values[g.2]?))).Perm
        ((storedAttrs st.mem ptr len).map
          (fun r => (slice st.mem r.1 r.2.1, st.values[r.2.2]?))) := by
  obtain ⟨bs, hmake, hbs⟩ := make_attrset_ok ev st ptr len hsrc hvalid
  have hperm := hev bs
  have hbl : bs.length = len := by
    have := congrArg List.length hbs
    simpa [storedAttrs_length] using this
  have hsl : (ev.sortBindings bs).length = len := by rw [hperm.length_eq, hbl]
  have hA : st.values.length % U32 = st.values.length := Nat.mod_eq_of_lt (by omega)
  rw [hA] at hmake
  have hnames : ∀ b ∈ ev.sortBindings bs, b.1.length < U32 := by
    intro b hb
    have hb1 : b ∈ bs := hperm.mem_iff.1 hb
    have hb2 : (b.1, some b.2) ∈ bs.map (fun b => (b.1, some b.2)) :=
      List.mem_map.2 ⟨b, hb1, rfl⟩
    rw [hbs] at hb2
    obtain ⟨r, hr, heq⟩ := List.mem_map.1 hb2
    have h1 := storedAttrs_nameLen_lt _ _ _ r hr
    have h2 : b.1 = slice st.mem r.1 r.2.1 := (congrArg Prod.fst heq).symm
    have h3 : (slice st.mem r.1 r.2.1).length ≤ r.2.1 := by simp [slice]
    rw [h2]; omega
  obtain ⟨st2, hcopy, hvals, hheap, hlen2, hpairs⟩ := copy_attrset_fits
    { st with heap := st.heap ++ [.forced (.attrs (ev.sortBindings bs))],
              values := st.values ++ [.cell st.heap.length] }
    _ st.values.length buf maxLen (.cell st.heap.length) (ev.sortBindings bs) (by simp)
    (forceValue_of_forced _ _ _ (by simp [Instance.deref])) (by omega) hmax32
    hbuf (by simp; omega) hnames
  rw [hsl] at hcopy hpairs
  refine ⟨_, _, st2, List.zipWith (fun i b => (b.1, i))
    (List.range' (st.values.length + 1) len) (ev.sortBindings bs), hmake, hcopy, ?_, ?_, ?_⟩
  · rw [hpairs, List.map_zipWith]
    simp
  · intro k name id hk st3 p hh hv hp
    rw [← hsl] at hk
    obtain ⟨q, hq⟩ := zipWith_range'_getElem? _ _ k id name hk
    have hidA : st3.values[st.values.length]? = some (.cell st.heap.length) := by
      rw [hv, hvals]
      simp only [List.append_assoc]
      rw [List.getElem?_append_right (le_refl _)]
      simp
    have hderef : st3.deref (.cell st.heap.length) =
        some (.forced (.attrs (ev.sortBindings bs))) := by
      simp [Instance.deref, hh, hheap]
    refine ⟨_, copy_attrname_ok st3 _ k p _ q _ name hidA hderef hq hp, ?_, rfl, rfl, ?_⟩
    · exact writeAt_slice _ _ _ hp
    · exact writeAt_length _ _ _ hp
  · have h1 := zipWith_range'_resolve (st.values ++ [Ptr.cell st.heap.length])
      (ev.sortBindings bs)
    simp only [List.length_append, List.length_singleton] at h1
    rw [hsl] at h1
    rw [hvals, h1, ← hbs]
    exact hperm.map _

theorem attrset_round_trip_witness :
    ∃ (A : Nat) (st1 st2 : Instance) (got : List (List Byte × Nat)),
      make_attrset plainEvaluator 0 1 oneAttr = .ok A st1 ∧
      copy_attrset A 16 1 st1 = .ok 1 st2 ∧
      storedPairs st2.mem 16 1 = got.map (fun g => (g.2, g.1.length)) ∧
      (∀ k name id, got[k]? = some (name, id) →
        ∀ (st3 : Instance) (p : Nat), st3.heap = st2.heap → st3.values = st2.values →
          p + name.length ≤ st3.mem.length →
          ∃ st4, copy_attrname A k p name.length st3 = .ok () st4 ∧
            slice st4.mem p name.length = name ∧
            st4.heap = st3.heap ∧ st4.values = st3.values ∧
            st4.mem.length = st3.mem.length) ∧
      (got.map (fun g => (g.1, st2.values[g.2]?))).Perm
        ((storedAttrs oneAttr.mem 0 1).map
          (fun r => (slice oneAttr.mem r.1 r.2.1, oneAttr.values[r.2.2]?))) :=
  attrset_round_trip plainEvaluator (fun l => List.Perm.refl l) oneAttr 0 1 16 1
    (by decide) (by decide) (by decide) (by decide) (by decide) (by decide)

theorem make_attrset_wraps (ev : Evaluator) (st : Instance) (ptr : Nat)
    (hlen : st.values.length = U32) (h0 : st.values[0]? = some .vNull)
    (hsrc : ptr ≤ st.mem.length) (buf maxLen : Nat) :
    ∃ st1, make_attrset ev ptr 0 st = .ok 0 st1 ∧
      copy_attrset 0 buf maxLen st1 =
        .error ⟨.TypeError, "expected a set: while copying an attrset into WASM", []⟩ st1 := by
  obtain ⟨bs, hmake, _⟩ := make_attrset_ok ev st ptr 0 (by omega)
    (fun r hr => by simp [storedAttrs] at hr)
  rw [hlen, Nat.mod_self] at hmake
  refine ⟨_, hmake, ?_⟩
  have hfirst : (st.values ++ [Ptr.cell st.heap.length])[0]? = some .vNull := by
    rw [List.getElem?_append_left (by rw [hlen]; exact U32_pos)]
    exact h0
  simp only [copy_attrset, valuesAt, bind_apply, M.bind, hfirst, forceAttrs, forceValue,
    Instance.deref]
  rfl

/-- C5, as stated, fails on an arena that already holds 2^32 entries: `make_attrset` of an
empty record list returns the id 0, which still names the first entry (a null), and
`copy_attrset` on the returned id raises a type error instead of returning the count. -/
theorem attrset_round_trip_fails_on_full_arena :
    ∃ st1, make_attrset plainEvaluator 0 0 fullArena = .ok 0 st1 ∧
      copy_attrset 0 0 0 st1 =
        .error ⟨.TypeError, "expected a set: while copying an attrset into WASM", []⟩ st1 :=
  make_attrset_wraps plainEvaluator fullArena 0 fullArena_length fullArena_first (by decide) 0 0

/-! ## Frame properties of the callbacks -/

theorem ArenaKept.refl (st : Instance) : ArenaKept st st := ⟨[], by simp⟩

theorem ArenaKept.trans {a b c : Instance} (h1 : ArenaKept a b) (h2 : ArenaKept b c) :
    ArenaKept a c := by
  obtain ⟨x, hx⟩ := h1
  obtain ⟨y, hy⟩ := h2
  exact ⟨x ++ y, by rw [hy, hx, List.append_assoc]⟩

theorem related_trans {α : Type} {R : Instance → Instance → Prop} (hR : FrameRel R)
    {a b : Instance} (h1 : R a b) (o : Outcome α) (h2 : o.related R b) : o.related R a := by
  cases o <;> simp only [Outcome.related] at * <;> exact hR.trans _ _ _ h1 h2

theorem frame_pure {R : Instance → Instance → Prop} (hR : FrameRel R)
    {α : Type} (a : α) : Frame R (pure a : M α) :=
  fun st => hR.refl st

theorem frame_bind {R : Instance → Instance → Prop} (hR : FrameRel R)
    {α β : Type} (m : M α) (f : α → M β) (hm : Frame R m)
    (hf : ∀ a, Frame R (f a)) : Frame R (m >>= f) := by
  intro st
  have h := hm st
  show (M.bind m f st).related R st
  unfold M.bind
  cases hms : m st with
  | ok a st1 =>
    rw [hms] at h
    exact related_trans hR h _ (hf a st1)
  | error e st1 => rw [hms] at h; exact h
  | stdException w st1 => rw [hms] at h; exact h
  | abort => trivial
  | undefined => trivial

theorem frame_ite {R : Instance → Instance → Prop} (_hR : FrameRel R)
    {α : Type} (c : Prop) [Decidable c] (m1 m2 : M α) (h1 : Frame R m1)
    (h2 : Frame R m2) : Frame R (if c then m1 else m2) := by
  split <;> assumption

theorem frame_raise {R : Instance → Instance → Prop} (hR : FrameRel R)
    {α : Type} (k : ErrorKind) (msg : String) : Frame R (raise k msg : M α) :=
  fun st => hR.refl st

theorem frame_valuesAt {R : Instance → Instance → Prop} (hR : FrameRel R)
    (id : Nat) : Frame R (valuesAt id) := by
  intro st
  unfold valuesAt
  split <;> exact hR.refl st

theorem frame_addValue {R : Instance → Instance → Prop} (hR : FrameRel R)
    (v : Ptr) : Frame R (addValue v) :=
  fun st => hR.push st v

theorem frame_stateAllocValue {R : Instance → Instance → Prop} (hR : FrameRel R) :
    Frame R stateAllocValue :=
  fun st => hR.heap st _

theorem frame_writeValue {R : Instance → Instance → Prop} (hR : FrameRel R)
    (p : Ptr) (v : Value) : Frame R (writeValue p v) := by
  intro st
  unfold writeValue
  split
  · split
    · exact hR.heap st _
    · trivial
  · trivial

theorem frame_forceValue {R : Instance → Instance → Prop} (hR : FrameRel R)
    (p : Ptr) : Frame R (forceValue p) := by
  intro st
  unfold forceValue
  split
  · trivial
  · exact hR.refl st
  · exact frame_bind hR _ _ (frame_writeValue hR _ _) (fun _ => frame_pure hR _) st
  · exact hR.refl st
  · trivial

theorem frame_memory {R : Instance → Instance → Prop} (hR : FrameRel R)
    : Frame R memory := fun st => hR.refl st

theorem frame_subspan {R : Instance → Instance → Prop} (hR : FrameRel R)
    (s : Span) (a b : Nat) : Frame R (s.subspan a b) := by
  intro st; unfold Span.subspan; split
  · exact hR.refl st
  · trivial

theorem frame_subspanFrom {R : Instance → Instance → Prop} (hR : FrameRel R)
    (s : Span) (a : Nat) : Frame R (s.subspanFrom a) := by
  intro st; unfold Span.subspanFrom; split
  · exact hR.refl st
  · trivial

theorem frame_subspanT {R : Instance → Instance → Prop} (hR : FrameRel R)
    (k : Nat) (s : Span) (a : Nat) : Frame R (subspanT k s a) := by
  intro st; unfold subspanT; split
  · exact hR.refl st
  · trivial

theorem frame_loadBytes {R : Instance → Instance → Prop} (hR : FrameRel R)
    (a b : Nat) : Frame R (loadBytes a b) := by
  intro st; unfold loadBytes; split
  · exact hR.refl st
  · trivial

theorem frame_memcpy {R : Instance → Instance → Prop} (hR : FrameRel R)
    (a : Nat) (bs : List Byte) : Frame R (memcpy a bs) := by
  intro st; unfold memcpy; split
  · exact hR.mem st _
  · trivial

theorem frame_assert {R : Instance → Instance → Prop} (hR : FrameRel R)
    (c : Bool) : Frame R (assert c) := by
  intro st; unfold assert; split
  · exact hR.refl st
  · trivial

theorem frame_loadU32 {R : Instance → Instance → Prop} (hR : FrameRel R)
    (a : Nat) : Frame R (loadU32 a) :=
  frame_bind hR _ _ (frame_loadBytes hR _ _) (fun _ => frame_pure hR _)

theorem frame_storeU32 {R : Instance → Instance → Prop} (hR : FrameRel R)
    (a v : Nat) : Frame R (storeU32 a v) := frame_memcpy hR _ _

theorem frame_force {R : Instance → Instance → Prop} (hR : FrameRel R) (p : Ptr) (ctx : String) :
    Frame R (forceInt p ctx) ∧ Frame R (forceFloat p ctx) ∧ Frame R (forceBool p ctx) ∧
    Frame R (forceString p ctx) ∧ Frame R (forceList p ctx) ∧ Frame R (forceAttrs p ctx) ∧
    Frame R (forceFunction p ctx) := by
  refine ⟨?_, ?_, ?_, ?_, ?_, ?_, ?_⟩ <;>
  · refine frame_bind hR _ _ (frame_forceValue hR p) (fun w => ?_)
    cases w <;> first | exact frame_pure hR _ | exact frame_raise hR _ _

theorem frame_allocValue {R : Instance → Instance → Prop} (hR : FrameRel R) : Frame R allocValue :=
  frame_bind hR _ _ (frame_stateAllocValue hR)
    (fun _ => frame_bind hR _ _ (frame_addValue hR _) (fun _ => frame_pure hR _))

theorem frame_readValues {R : Instance → Instance → Prop} (hR : FrameRel R)
    (count off : Nat) : Frame R (readValues off count) := by
  induction count generalizing off with
  | zero => exact frame_pure hR _
  | succ n ih =>
    exact frame_bind hR _ _ (frame_loadU32 hR _) (fun _ => frame_bind hR _ _ (frame_valuesAt hR _)
      (fun _ => frame_bind hR _ _ (ih _) (fun _ => frame_pure hR _)))

theorem frame_writeIds {R : Instance → Instance → Prop} (hR : FrameRel R)
    (elems : List Ptr) (off : Nat) : Frame R (writeIds off elems) := by
  induction elems generalizing off with
  | nil => exact frame_pure hR _
  | cons e rest ih =>
    exact frame_bind hR _ _ (frame_addValue hR _) (fun _ => frame_bind hR _ _ (frame_storeU32 hR _ _)
      (fun _ => ih _))

theorem frame_readAttrs {R : Instance → Instance → Prop} (hR : FrameRel R)
    (mem : Span) (count off : Nat) : Frame R (readAttrs mem off count) := by
  induction count generalizing off with
  | zero => exact frame_pure hR _
  | succ n ih =>
    exact frame_bind hR _ _ (frame_loadU32 hR _) (fun _ => frame_bind hR _ _ (frame_loadU32 hR _)
      (fun _ => frame_bind hR _ _ (frame_loadU32 hR _) (fun _ => frame_bind hR _ _ (frame_subspan hR _ _ _)
        (fun _ => frame_bind hR _ _ (frame_loadBytes hR _ _) (fun _ => frame_bind hR _ _
          (frame_valuesAt hR _) (fun _ => frame_bind hR _ _ (ih _) (fun _ => frame_pure hR _)))))))

theorem frame_writeAttrs {R : Instance → Instance → Prop} (hR : FrameRel R)
    (bs : List (List Byte × Ptr)) (off : Nat) :
    Frame R (writeAttrs off bs) := by
  induction bs generalizing off with
  | nil => exact frame_pure hR _
  | cons b rest ih =>
    exact frame_bind hR _ _ (frame_addValue hR _) (fun _ => frame_bind hR _ _ (frame_storeU32 hR _ _)
      (fun _ => frame_bind hR _ _ (frame_storeU32 hR _ _) (fun _ => ih _)))

theorem frame_panic {R : Instance → Instance → Prop} (hR : FrameRel R)
    (ptr len : Nat) : Frame R (panic ptr len) :=
  frame_bind hR _ _ (frame_memory hR) (fun _ => frame_bind hR _ _ (frame_subspan hR _ _ _)
    (fun _ => frame_bind hR _ _ (frame_loadBytes hR _ _) (fun _ => frame_raise hR _ _)))

theorem frame_warn {R : Instance → Instance → Prop} (hR : FrameRel R)
    (ptr len : Nat) : Frame R (warn ptr len) :=
  frame_bind hR _ _ (frame_memory hR) (fun _ => frame_bind hR _ _ (frame_subspan hR _ _ _)
    (fun _ => frame_bind hR _ _ (frame_loadBytes hR _ _) (fun _ => fun st => by
      simpa [getState, setState, M.bind, Outcome.related] using hR.warnings st _)))

theorem frame_get_type {R : Instance → Instance → Prop} (hR : FrameRel R)
    (id : Nat) : Frame R (get_type id) := by
  refine frame_bind hR _ _ (frame_valuesAt hR _) (fun _ => frame_bind hR _ _ (frame_forceValue hR _)
    (fun w => ?_))
  cases w <;> first | exact frame_pure hR _ | exact frame_raise hR _ _

theorem frame_make_int {R : Instance → Instance → Prop} (hR : FrameRel R)
    (n : Int) : Frame R (make_int n) :=
  frame_bind hR _ _ (frame_allocValue hR) (fun _ => frame_bind hR _ _ (frame_writeValue hR _ _)
    (fun _ => frame_pure hR _))

theorem frame_make_float {R : Instance → Instance → Prop} (hR : FrameRel R)
    (x : Nat) : Frame R (make_float x) :=
  frame_bind hR _ _ (frame_allocValue hR) (fun _ => frame_bind hR _ _ (frame_writeValue hR _ _)
    (fun _ => frame_pure hR _))

theorem frame_get_int {R : Instance → Instance → Prop} (hR : FrameRel R)
    (id : Nat) : Frame R (get_int id) :=
  frame_bind hR _ _ (frame_valuesAt hR _) (fun _ => (frame_force hR _ _).1)

theorem frame_get_float {R : Instance → Instance → Prop} (hR : FrameRel R)
    (id : Nat) : Frame R (get_float id) :=
  frame_bind hR _ _ (frame_valuesAt hR _) (fun _ => (frame_force hR _ _).2.1)

theorem frame_get_bool {R : Instance → Instance → Prop} (hR : FrameRel R)
    (id : Nat) : Frame R (get_bool id) :=
  frame_bind hR _ _ (frame_valuesAt hR _) (fun _ => frame_bind hR _ _ (frame_force hR _ _).2.2.1
    (fun _ => frame_pure hR _))

theorem frame_make_string {R : Instance → Instance → Prop} (hR : FrameRel R)
    (ptr len : Nat) : Frame R (make_string ptr len) :=
  frame_bind hR _ _ (frame_allocValue hR) (fun _ => frame_bind hR _ _ (frame_memory hR)
    (fun _ => frame_bind hR _ _ (frame_subspan hR _ _ _) (fun _ => frame_bind hR _ _
      (frame_loadBytes hR _ _) (fun _ => frame_bind hR _ _ (frame_writeValue hR _ _)
        (fun _ => frame_pure hR _)))))

theorem frame_copy_string {R : Instance → Instance → Prop} (hR : FrameRel R)
    (id ptr maxLen : Nat) : Frame R (copy_string id ptr maxLen) := by
  refine frame_bind hR _ _ (frame_valuesAt hR _) (fun _ => frame_bind hR _ _ (frame_force hR _ _).2.2.2.1
    (fun s => ?_))
  show Frame R (if s.length ≤ maxLen then _ else _)
  exact frame_ite hR _ _ _
    (frame_bind hR _ _ (frame_memory hR) (fun _ => frame_bind hR _ _ (frame_subspan hR _ _ _)
      (fun _ => frame_bind hR _ _ (frame_memcpy hR _ _) (fun _ => frame_pure hR _))))
    (frame_bind hR _ _ (frame_pure hR _) (fun _ => frame_pure hR _))

theorem frame_make_list {R : Instance → Instance → Prop} (hR : FrameRel R)
    (ptr len : Nat) : Frame R (make_list ptr len) :=
  frame_bind hR _ _ (frame_memory hR) (fun _ => frame_bind hR _ _ (frame_subspanFrom hR _ _)
    (fun _ => frame_bind hR _ _ (frame_subspanT hR _ _ _) (fun _ => frame_bind hR _ _ (frame_allocValue hR)
      (fun _ => frame_bind hR _ _ (frame_readValues hR _ _) (fun _ => frame_bind hR _ _
        (frame_writeValue hR _ _) (fun _ => frame_pure hR _))))))

theorem frame_copy_list {R : Instance → Instance → Prop} (hR : FrameRel R)
    (id ptr maxLen : Nat) : Frame R (copy_list id ptr maxLen) := by
  refine frame_bind hR _ _ (frame_valuesAt hR _) (fun _ => frame_bind hR _ _ (frame_force hR _ _).2.2.2.2.1
    (fun elems => ?_))
  show Frame R (if elems.length ≤ maxLen then _ else _)
  exact frame_ite hR _ _ _
    (frame_bind hR _ _ (frame_memory hR) (fun _ => frame_bind hR _ _ (frame_subspanFrom hR _ _)
      (fun _ => frame_bind hR _ _ (frame_subspanT hR _ _ _) (fun _ => frame_bind hR _ _
        (frame_writeIds hR _ _) (fun _ => frame_pure hR _)))))
    (frame_bind hR _ _ (frame_pure hR _) (fun _ => frame_pure hR _))

theorem frame_make_attrset {R : Instance → Instance → Prop} (hR : FrameRel R)
    (ev : Evaluator) (ptr len : Nat) :
    Frame R (make_attrset ev ptr len) :=
  frame_bind hR _ _ (frame_memory hR) (fun _ => frame_bind hR _ _ (frame_subspanFrom hR _ _)
    (fun _ => frame_bind hR _ _ (frame_subspanT hR _ _ _) (fun _ => frame_bind hR _ _ (frame_allocValue hR)
      (fun _ => frame_bind hR _ _ (frame_readAttrs hR _ _ _) (fun _ => frame_bind hR _ _
        (frame_writeValue hR _ _) (fun _ => frame_pure hR _))))))

theorem frame_copy_attrset {R : Instance → Instance → Prop} (hR : FrameRel R)
    (id ptr maxLen : Nat) : Frame R (copy_attrset id ptr maxLen) := by
  refine frame_bind hR _ _ (frame_valuesAt hR _) (fun _ => frame_bind hR _ _
    (frame_force hR _ _).2.2.2.2.2.1 (fun bs => ?_))
  show Frame R (if bs.length ≤ maxLen then _ else _)
  exact frame_ite hR _ _ _
    (frame_bind hR _ _ (frame_memory hR) (fun _ => frame_bind hR _ _ (frame_subspanFrom hR _ _)
      (fun _ => frame_bind hR _ _ (frame_subspanT hR _ _ _) (fun _ => frame_bind hR _ _
        (frame_writeAttrs hR _ _) (fun _ => frame_pure hR _)))))
    (frame_bind hR _ _ (frame_pure hR _) (fun _ => frame_pure hR _))

theorem frame_copy_attrname {R : Instance → Instance → Prop} (hR : FrameRel R)
    (id idx ptr len : Nat) : Frame R (copy_attrname id idx ptr len) :=
  frame_bind hR _ _ (frame_valuesAt hR _) (fun _ => frame_bind hR _ _ (frame_force hR _ _).2.2.2.2.2.1
    (fun _ => frame_bind hR _ _ (frame_assert hR _) (fun _ => frame_bind hR _ _ (frame_assert hR _)
      (fun _ => frame_bind hR _ _ (frame_memory hR) (fun _ => frame_bind hR _ _ (frame_subspan hR _ _ _)
        (fun _ => frame_memcpy hR _ _))))))

theorem frame_call_function {R : Instance → Instance → Prop} (hR : FrameRel R) (ev : Evaluator)
    (hcall : ∀ f args value, Frame R (ev.callFunction f args value)) (funId ptr len : Nat) :
    Frame R (call_function ev funId ptr len) :=
  frame_bind hR _ _ (frame_valuesAt hR _) (fun _ => frame_bind hR _ _ (frame_force hR _ _).2.2.2.2.2.2
    (fun _ => frame_bind hR _ _ (frame_memory hR) (fun _ => frame_bind hR _ _ (frame_subspanFrom hR _ _)
      (fun _ => frame_bind hR _ _ (frame_subspanT hR _ _ _) (fun _ => frame_bind hR _ _
        (frame_readValues hR _ _) (fun _ => frame_bind hR _ _ (frame_allocValue hR)
          (fun _ => frame_bind hR _ _ (hcall _ _ _) (fun _ => frame_pure hR _))))))))

theorem frame_run {R : Instance → Instance → Prop} (hR : FrameRel R) (ev : Evaluator)
    (hcall : ∀ f args value, Frame R (ev.callFunction f args value)) (c : Call) :
    Frame R (c.run ev) := by
  cases c with
  | panic ptr len => exact frame_bind hR _ _ (frame_panic hR _ _) (fun _ => frame_pure hR _)
  | warn ptr len => exact frame_bind hR _ _ (frame_warn hR _ _) (fun _ => frame_pure hR _)
  | get_type id => exact frame_bind hR _ _ (frame_get_type hR _) (fun _ => frame_pure hR _)
  | make_int n => exact frame_bind hR _ _ (frame_make_int hR _) (fun _ => frame_pure hR _)
  | get_int id => exact frame_bind hR _ _ (frame_get_int hR _) (fun _ => frame_pure hR _)
  | make_float x => exact frame_bind hR _ _ (frame_make_float hR _) (fun _ => frame_pure hR _)
  | get_float id => exact frame_bind hR _ _ (frame_get_float hR _) (fun _ => frame_pure hR _)
  | make_string ptr len => exact frame_bind hR _ _ (frame_make_string hR _ _) (fun _ => frame_pure hR _)
  | copy_string id ptr maxLen =>
    exact frame_bind hR _ _ (frame_copy_string hR _ _ _) (fun _ => frame_pure hR _)
  | make_bool b => exact frame_bind hR _ _ (frame_addValue hR _) (fun _ => frame_pure hR _)
  | get_bool id => exact frame_bind hR _ _ (frame_get_bool hR _) (fun _ => frame_pure hR _)
  | make_null => exact frame_bind hR _ _ (frame_addValue hR _) (fun _ => frame_pure hR _)
  | make_list ptr len => exact frame_bind hR _ _ (frame_make_list hR _ _) (fun _ => frame_pure hR _)
  | copy_list id ptr maxLen =>
    exact frame_bind hR _ _ (frame_copy_list hR _ _ _) (fun _ => frame_pure hR _)
  | make_attrset ptr len =>
    exact frame_bind hR _ _ (frame_make_attrset hR _ _ _) (fun _ => frame_pure hR _)
  | copy_attrset id ptr maxLen =>
    exact frame_bind hR _ _ (frame_copy_attrset hR _ _ _) (fun _ => frame_pure hR _)
  | copy_attrname id idx ptr len =>
    exact frame_bind hR _ _ (frame_copy_attrname hR _ _ _ _) (fun _ => frame_pure hR _)
  | call_function funId ptr len =>
    exact frame_bind hR _ _ (frame_call_function hR ev hcall _ _ _) (fun _ => frame_pure hR _)

theorem arenaKept_frameRel : FrameRel ArenaKept where
  refl := ArenaKept.refl
  trans := fun _ _ _ h1 h2 => h1.trans h2
  heap := fun _ _ => ⟨[], by simp⟩
  mem := fun _ _ => ⟨[], by simp⟩
  warnings := fun _ _ => ⟨[], by simp⟩
  push := fun _ v => ⟨[v], rfl⟩

theorem afterMakeNulls_eq (n : Nat) (st : Instance) :
    afterMakeNulls n st = { st with values := st.values ++ List.replicate n .vNull } := by
  induction n generalizing st with
  | zero => simp [afterMakeNulls]
  | succ n ih =>
    simp only [afterMakeNulls, make_null, addValue]
    rw [ih]
    simp [List.replicate_succ]

/-- The full arena is what 2^32 calls of `make_null` make of a fresh instance. -/
theorem fullArena_reached : afterMakeNulls U32 freshInstance = fullArena := by
  rw [afterMakeNulls_eq]
  simp only [freshInstance, fullArena, List.nil_append]

theorem ArenaKept.entries {st st1 : Instance} (h : ArenaKept st st1) :
    st.values.length ≤ st1.values.length ∧
      ∀ (id : Nat) (p : Ptr), st.values[id]? = some p → st1.values[id]? = some p := by
  obtain ⟨added, h⟩ := h
  refine ⟨by rw [h]; simp, fun id p hp => ?_⟩
  rw [h, List.getElem?_append_left (List.getElem?_eq_some.1 hp).1]
  exact hp

/-- C6 (amended). The arena is append-only with dense ids, never reused while they fit in 32
bits. (a) `addValue` on an arena of size `n < 2^32` returns the id `n` and leaves an arena of
size `n + 1` whose entry `n` is the added value. (b) Every callback of the table, whenever it
returns or throws, leaves every previously assigned (id, value) entry unchanged and does not
decrease the arena size; `callFunction`, the evaluator's, is assumed to do the same, since it
reaches the arena only through these callbacks. (c) An id handed out by `addValue` is not
handed out again by a later `addValue` as long as the arena is below 2^32 entries. -/
theorem arena_append_only (ev : Evaluator)
    (hcall : ∀ f args value, Frame ArenaKept (ev.callFunction f args value)) :
    (∀ (st : Instance) (v : Ptr), st.values.length < U32 →
      ∃ st1, addValue v st = .ok st.values.length st1 ∧
        st1.values.length = st.values.length + 1 ∧
        st1.values[st.values.length]? = some v ∧ ArenaKept st st1) ∧
    (∀ (c : Call) (st : Instance), (c.run ev st).related ArenaKept st) ∧
    (∀ st st1 : Instance, ArenaKept st st1 →
      st.values.length ≤ st1.values.length ∧
        ∀ (id : Nat) (p : Ptr), st.values[id]? = some p → st1.values[id]? = some p) ∧
    (∀ (st st1 st2 st3 : Instance) (v w : Ptr) (id1 id2 : Nat),
      addValue v st = .ok id1 st1 → ArenaKept st1 st2 → st2.values.length < U32 →
      addValue w st2 = .ok id2 st3 → id1 ≠ id2) := by
  refine ⟨?_, fun c st => frame_run arenaKept_frameRel ev hcall c st,
    fun st st1 h => h.entries, ?_⟩
  · intro st v hfit
    refine ⟨{ st with values := st.values ++ [v] }, ?_, ?_, ?_, ⟨[v], rfl⟩⟩
    · simp [addValue, Nat.mod_eq_of_lt hfit]
    · simp
    · simp
  · intro st st1 st2 st3 v w id1 id2 h1 hk hfit h2
    simp only [addValue, Outcome.ok.injEq] at h1 h2
    obtain ⟨rfl, rfl⟩ := h1
    obtain ⟨rfl, rfl⟩ := h2
    have hle := hk.entries.1
    simp only [List.length_append, List.length_singleton] at hle
    rw [Nat.mod_eq_of_lt hfit, Nat.mod_eq_of_lt (by omega)]
    omega

theorem arena_append_only_witness :
    (∀ (st : Instance) (v : Ptr), st.values.length < U32 →
      ∃ st1, addValue v st = .ok st.values.length st1 ∧
        st1.values.length = st.values.length + 1 ∧
        st1.values[st.values.length]? = some v ∧ ArenaKept st st1) ∧
    (∀ (c : Call) (st : Instance), (c.run plainEvaluator st).related ArenaKept st) ∧
    (∀ st st1 : Instance, ArenaKept st st1 →
      st.values.length ≤ st1.values.length ∧
        ∀ (id : Nat) (p : Ptr), st.values[id]? = some p → st1.values[id]? = some p) ∧
    (∀ (st st1 st2 st3 : Instance) (v w : Ptr) (id1 id2 : Nat),
      addValue v st = .ok id1 st1 → ArenaKept st1 st2 → st2.values.length < U32 →
      addValue w st2 = .ok id2 st3 → id1 ≠ id2) :=
  arena_append_only plainEvaluator
    (fun _ _ value => frame_writeValue arenaKept_frameRel value _)

/-- C6, as stated, fails once the arena holds 2^32 entries: `make_null` on a fresh instance
hands out the id 0, and after 2^32 calls of `make_null` (arena size 2^32) the next call hands
out the id 0 again instead of 2^32. -/
theorem id_reused_on_full_arena :
    (∃ st1, make_null freshInstance = .ok 0 st1) ∧
    afterMakeNulls U32 freshInstance = fullArena ∧
    fullArena.values.length = U32 ∧
    (∃ st2, make_null fullArena = .ok 0 st2) := by
  refine ⟨⟨{ freshInstance with values := [.vNull] }, rfl⟩, fullArena_reached, fullArena_length,
    ⟨{ fullArena with values := fullArena.values ++ [.vNull] }, ?_⟩⟩
  simp only [make_null, addValue, fullArena_length, Nat.mod_self]

/-! ## Out-of-range ids -/

theorem valuesAt_out_of_range (st : Instance) (id : Nat) (h : st.values.length ≤ id) :
    valuesAt id st = .stdException "vector::_M_range_check" st := by
  simp [valuesAt, List.getElem?_eq_none h]

/-- C7 (the code at out-of-range ids). For each callback that takes an arena id directly, an id
that is not below the arena size makes `values.at` throw `std::out_of_range`; that is no
`nix::Error`, so the `catch (Error &)` of `regFun` does not turn it into a trap and the
exception leaves the callback. The same happens for an id read from memory: `make_list` of one
stored id above the arena size lets the exception escape, with the new value already
registered. -/
theorem out_of_range_id_escapes (ev : Evaluator) (st : Instance) (id : Nat)
    (h : st.values.length ≤ id) (ptr len idx : Nat) :
    hostCall ev (.get_type id) st = .escaped "vector::_M_range_check" st ∧
    hostCall ev (.get_int id) st = .escaped "vector::_M_range_check" st ∧
    hostCall ev (.get_float id) st = .escaped "vector::_M_range_check" st ∧
    hostCall ev (.get_bool id) st = .escaped "vector::_M_range_check" st ∧
    hostCall ev (.copy_string id ptr len) st = .escaped "vector::_M_range_check" st ∧
    hostCall ev (.copy_list id ptr len) st = .escaped "vector::_M_range_check" st ∧
    hostCall ev (.copy_attrset id ptr len) st = .escaped "vector::_M_range_check" st ∧
    hostCall ev (.copy_attrname id idx ptr len) st = .escaped "vector::_M_range_check" st ∧
    hostCall ev (.call_function id ptr len) st = .escaped "vector::_M_range_check" st ∧
    (ptr + 4 ≤ st.mem.length → st.values.length < readU32 st.mem ptr →
      hostCall ev (.make_list ptr 1) st = .escaped "vector::_M_range_check"
        { st with heap := st.heap ++ [.uninitialized],
                  values := st.values ++ [.cell st.heap.length] }) := by
  have hat := valuesAt_out_of_range st id h
  refine ⟨?_, ?_, ?_, ?_, ?_, ?_, ?_, ?_, ?_, ?_⟩
  on_goal 10 =>
    intro hmem hbig
    have h1 : ptr ≤ st.mem.length := by omega
    have h2 : 4 ≤ st.mem.length - ptr := by omega
    have h3 : (st.values ++ [Ptr.cell st.heap.length])[readU32 st.mem ptr]? = none :=
      List.getElem?_eq_none (by simp; omega)
    simp [hostCall, regFun, Call.run, M.bind, make_list, memory, Span.subspanFrom, subspanT,
      h1, h2, allocValue, stateAllocValue, addValue, readValues, loadU32, loadBytes, hmem,
      valuesAt]
    simp only [readU32] at h3
    simp [h3]
  all_goals
    simp [hostCall, regFun, Call.run, M.bind, hat, get_type, get_int, get_float, get_bool,
      copy_string, copy_list, copy_attrset, copy_attrname, call_function]

theorem out_of_range_id_escapes_witness :
    hostCall plainEvaluator (.get_type 5) oneValue = .escaped "vector::_M_range_check" oneValue ∧
    hostCall plainEvaluator (.get_int 5) oneValue = .escaped "vector::_M_range_check" oneValue ∧
    hostCall plainEvaluator (.get_float 5) oneValue =
      .escaped "vector::_M_range_check" oneValue ∧
    hostCall plainEvaluator (.get_bool 5) oneValue = .escaped "vector::_M_range_check" oneValue ∧
    hostCall plainEvaluator (.copy_string 5 0 4) oneValue =
      .escaped "vector::_M_range_check" oneValue ∧
    hostCall plainEvaluator (.copy_list 5 0 4) oneValue =
      .escaped "vector::_M_range_check" oneValue ∧
    hostCall plainEvaluator (.copy_attrset 5 0 4) oneValue =
      .escaped "vector::_M_range_check" oneValue ∧
    hostCall plainEvaluator (.copy_attrname 5 0 0 4) oneValue =
      .escaped "vector::_M_range_check" oneValue ∧
    hostCall plainEvaluator (.call_function 5 0 4) oneValue =
      .escaped "vector::_M_range_check" oneValue ∧
    hostCall plainEvaluator (.make_list 4 1) oneValue = .escaped "vector::_M_range_check"
      { oneValue with heap := [.uninitialized], values := [.vTrue, .cell 0] } := by
  have h := out_of_range_id_escapes plainEvaluator oneValue 5 (by decide) 4 1 0
  have h2 := out_of_range_id_escapes plainEvaluator oneValue 5 (by decide) 0 4 0
  exact ⟨h2.1, h2.2.1, h2.2.2.1, h2.2.2.2.1, h2.2.2.2.2.1, h2.2.2.2.2.2.1, h2.2.2.2.2.2.2.1,
    h2.2.2.2.2.2.2.2.1, h2.2.2.2.2.2.2.2.2.1, h.2.2.2.2.2.2.2.2.2 (by decide) (by decide)⟩

/-! ## Out-of-range memory accesses -/

/-- C8 (the code at out-of-range memory accesses). No callback turns an out-of-range offset and
length into a trap. Where the code takes `memory().subspan(ptr, len)` (`panic`, `warn`,
`make_string`, `copy_string`, `copy_attrname`) nothing is checked and the access is undefined
behaviour; where it goes through `subspan<T>` (`make_list`, `make_attrset`, `copy_list`,
`copy_attrset`, `call_function`) a start inside memory with too many elements fails the
`assert` and aborts, and a start beyond memory is undefined behaviour. -/
theorem out_of_range_memory_not_trapped (ev : Evaluator) :
    (∀ (st : Instance) (ptr len : Nat), st.mem.length < ptr + len →
      hostCall ev (.panic ptr len) st = .undefined ∧
      hostCall ev (.warn ptr len) st = .undefined ∧
      hostCall ev (.make_string ptr len) st = .undefined) ∧
    (∀ (st st1 : Instance) (id ptr maxLen : Nat) (v : Ptr) (s : List Byte),
      st.values[id]? = some v → forceValue v st = .ok (.string s) st1 →
      s.length ≤ maxLen → st.mem.length < ptr + maxLen →
      hostCall ev (.copy_string id ptr maxLen) st = .undefined) ∧
    (∀ (st st1 : Instance) (id k ptr : Nat) (v q : Ptr) (bs : List (List Byte × Ptr))
      (name : List Byte),
      st.values[id]? = some v → forceValue v st = .ok (.attrs bs) st1 →
      bs[k]? = some (name, q) → st.mem.length < ptr + name.length →
      hostCall ev (.copy_attrname id k ptr name.length) st = .undefined) ∧
    (∀ (st : Instance) (ptr n : Nat), st.mem.length < ptr + 4 * n →
      hostCall ev (.make_list ptr n) st =
        if ptr ≤ st.mem.length then .abort else .undefined) ∧
    (∀ (st : Instance) (ptr n : Nat), st.mem.length < ptr + 12 * n →
      hostCall ev (.make_attrset ptr n) st =
        if ptr ≤ st.mem.length then .abort else .undefined) ∧
    (∀ (st st1 : Instance) (id ptr maxLen : Nat) (v : Ptr) (elems : List Ptr),
      st.values[id]? = some v → forceValue v st = .ok (.list elems) st1 →
      elems.length ≤ maxLen → st.mem.length < ptr + 4 * elems.length →
      hostCall ev (.copy_list id ptr maxLen) st =
        if ptr ≤ st.mem.length then .abort else .undefined) ∧
    (∀ (st st1 : Instance) (id ptr maxLen : Nat) (v : Ptr) (bs : List (List Byte × Ptr)),
      st.values[id]? = some v → forceValue v st = .ok (.attrs bs) st1 →
      bs.length ≤ maxLen → st.mem.length < ptr + 8 * maxLen →
      hostCall ev (.copy_attrset id ptr maxLen) st =
        if ptr ≤ st.mem.length then .abort else .undefined) ∧
    (∀ (st st1 : Instance) (funId ptr len code : Nat) (v : Ptr),
      st.values[funId]? = some v → forceValue v st = .ok (.function code) st1 →
      st.mem.length < ptr + 4 * len →
      hostCall ev (.call_function funId ptr len) st =
        if ptr ≤ st.mem.length then .abort else .undefined) := by
  refine ⟨?_, ?_, ?_, ?_, ?_, ?_, ?_, ?_⟩
  · intro st ptr len h
    have hneg : ¬ (ptr ≤ st.mem.length ∧ len ≤ st.mem.length - ptr) := by omega
    refine ⟨?_, ?_, ?_⟩
    · simp [hostCall, regFun, Call.run, panic, M.bind, memory, Span.subspan, hneg]
    · simp [hostCall, regFun, Call.run, warn, M.bind, memory, Span.subspan, hneg]
    · simp [hostCall, regFun, Call.run, make_string, allocValue, stateAllocValue, addValue,
        M.bind, memory, Span.subspan, hneg]
  · intro st st1 id ptr maxLen v s hid hf hlen h
    obtain ⟨_, hm, _, _⟩ := forceValue_frame v st st1 _ hf
    have hneg : ¬ (ptr ≤ st.mem.length ∧ maxLen ≤ st.mem.length - ptr) := by omega
    simp [hostCall, regFun, Call.run, copy_string, valuesAt, hid, M.bind, forceString, hf, hlen,
      memory, Span.subspan, hm, hneg]
  · intro st st1 id k ptr v q bs name hid hf hk h
    obtain ⟨_, hm, _, _⟩ := forceValue_frame v st st1 _ hf
    have hneg : ¬ (ptr ≤ st.mem.length ∧ name.length ≤ st.mem.length - ptr) := by omega
    have hlt : k < bs.length := (List.getElem?_eq_some.1 hk).1
    have hget : bs[k] = (name, q) := by
      have := List.getElem?_eq_getElem hlt
      rw [this] at hk
      exact Option.some.inj hk
    simp [hostCall, regFun, Call.run, copy_attrname, valuesAt, hid, M.bind, forceAttrs, hf,
      assert, hlt, hget, memory, Span.subspan, hm, hneg]
  · intro st ptr n h
    by_cases hp : ptr ≤ st.mem.length
    · have hneg : ¬ (n * 4 ≤ st.mem.length - ptr) := by omega
      simp [hostCall, regFun, Call.run, make_list, M.bind, memory, Span.subspanFrom, subspanT,
        hp, hneg]
    · simp [hostCall, regFun, Call.run, make_list, M.bind, memory, Span.subspanFrom, hp]
  · intro st ptr n h
    by_cases hp : ptr ≤ st.mem.length
    · have hneg : ¬ (n * 12 ≤ st.mem.length - ptr) := by omega
      simp [hostCall, regFun, Call.run, make_attrset, M.bind, memory, Span.subspanFrom,
        subspanT, hp, hneg]
    · simp [hostCall, regFun, Call.run, make_attrset, M.bind, memory, Span.subspanFrom, hp]
  · intro st st1 id ptr maxLen v elems hid hf hlen h
    obtain ⟨_, hm, _, _⟩ := forceValue_frame v st st1 _ hf
    by_cases hp : ptr ≤ st.mem.length
    · have hneg : ¬ (elems.length * 4 ≤ st.mem.length - ptr) := by omega
      simp [hostCall, regFun, Call.run, copy_list, valuesAt, hid, M.bind, forceList, hf, hlen,
        memory, Span.subspanFrom, subspanT, hm, hp, hneg]
    · simp [hostCall, regFun, Call.run, copy_list, valuesAt, hid, M.bind, forceList, hf, hlen,
        memory, Span.subspanFrom, hm, hp]
  · intro st st1 id ptr maxLen v bs hid hf hlen h
    obtain ⟨_, hm, _, _⟩ := forceValue_frame v st st1 _ hf
    by_cases hp : ptr ≤ st.mem.length
    · have hneg : ¬ (maxLen * 8 ≤ st.mem.length - ptr) := by omega
      simp [hostCall, regFun, Call.run, copy_attrset, valuesAt, hid, M.bind, forceAttrs, hf,
        hlen, memory, Span.subspanFrom, subspanT, hm, hp, hneg]
    · simp [hostCall, regFun, Call.run, copy_attrset, valuesAt, hid, M.bind, forceAttrs, hf,
        hlen, memory, Span.subspanFrom, hm, hp]
  · intro st st1 funId ptr len code v hid hf h
    obtain ⟨_, hm, _, _⟩ := forceValue_frame v st st1 _ hf
    by_cases hp : ptr ≤ st.mem.length
    · have hneg : ¬ (len * 4 ≤ st.mem.length - ptr) := by omega
      simp [hostCall, regFun, Call.run, call_function, valuesAt, hid, M.bind, forceFunction, hf,
        memory, Span.subspanFrom, subspanT, hm, hp, hneg]
    · simp [hostCall, regFun, Call.run, call_function, valuesAt, hid, M.bind, forceFunction, hf,
        memory, Span.subspanFrom, hm, hp]

theorem out_of_range_memory_not_trapped_witness :
    hostCall plainEvaluator (.panic 6 4) oneValue = .undefined ∧
    hostCall plainEvaluator (.warn 6 4) oneValue = .undefined ∧
    hostCall plainEvaluator (.make_string 6 4) oneValue = .undefined :=
  (out_of_range_memory_not_trapped plainEvaluator).1 oneValue 6 4 (by decide)

/-! ## `call_function` on a value that is no function -/

/-- C9. `call_function` on a non-callable. For every valid `funId` whose forced value is not a
function, `call_function` raises a type error, which the wrapper hands to the sandbox as a
trap, and nothing else has happened: the state is the one forcing left (arena and linear
memory unchanged, no result slot added), the outcome is the same for every `ptr` and `len` and
every memory content (no argument id is read), and it is the same for every evaluator, so
`callFunction` is not invoked. -/
theorem call_function_non_callable (ev : Evaluator) (st st1 : Instance) (funId ptr len : Nat)
    (v : Ptr) (w : Forced)
    (hid : st.values[funId]? = some v) (hf : forceValue v st = .ok w st1)
    (hw : ∀ code, w ≠ .function code) :
    call_function ev funId ptr len st =
      .error ⟨.TypeError, "expected a function: while calling a function from WASM", []⟩ st1 ∧
    hostCall ev (.call_function funId ptr len) st =
      .trap "expected a function: while calling a function from WASM" st1 ∧
    st1.values = st.values ∧ st1.mem = st.mem := by
  obtain ⟨hv, hm, _, _⟩ := forceValue_frame v st st1 _ hf
  have h1 : call_function ev funId ptr len st =
      .error ⟨.TypeError, "expected a function: while calling a function from WASM", []⟩ st1 := by
    simp only [call_function, valuesAt, hid, bind_apply, M.bind, forceFunction, hf]
    cases w with
    | function code => exact absurd rfl (hw code)
    | _ => rfl
  refine ⟨h1, ?_, hv, hm⟩
  simp only [hostCall, regFun, Call.run, bind_apply, M.bind, h1]
  rfl

theorem call_function_non_callable_witness :
    call_function unreachableEvaluator 0 100 7 oneValue =
      .error ⟨.TypeError, "expected a function: while calling a function from WASM", []⟩
        oneValue ∧
    hostCall unreachableEvaluator (.call_function 0 100 7) oneValue =
      .trap "expected a function: while calling a function from WASM" oneValue ∧
    oneValue.values = oneValue.values ∧ oneValue.mem = oneValue.mem :=
  call_function_non_callable unreachableEvaluator oneValue oneValue 0 100 7 .vTrue (.bool true)
    rfl rfl (fun _ h => by cases h)

/-! ## The orchestrator -/

theorem sameContext_frameRel : FrameRel SameContext where
  refl := fun _ => ⟨rfl, rfl⟩
  trans := fun _ _ _ h1 h2 => ⟨h2.1.trans h1.1, h2.2.trans h1.2⟩
  heap := fun _ _ => ⟨rfl, rfl⟩
  mem := fun _ _ => ⟨rfl, rfl⟩
  warnings := fun _ _ => ⟨rfl, rfl⟩
  push := fun _ _ => ⟨rfl, rfl⟩

theorem callResult_related_trans {R : Instance → Instance → Prop} (hR : FrameRel R)
    {a b : Instance} (h1 : R a b) (o : CallResult) (h2 : o.related R b) : o.related R a := by
  cases o <;> simp only [CallResult.related] at * <;> exact hR.trans _ _ _ h1 h2

theorem run_related {R : Instance → Instance → Prop} (hR : FrameRel R) (ev : Evaluator)
    (hcall : ∀ f args value, Frame R (ev.callFunction f args value)) (prog : Prog) :
    ∀ st, (prog.run ev st).related R st := by
  induction prog with
  | ret results => intro st; exact hR.refl st
  | trap msg => intro st; exact hR.refl st
  | host c k ih =>
    intro st
    have h := frame_run hR ev hcall c st
    simp only [Prog.run, hostCall, regFun]
    cases hc : c.run ev st with
    | ok r st1 =>
      rw [hc] at h
      exact callResult_related_trans hR h _ (ih r st1)
    | error e st1 => rw [hc] at h; exact h
    | stdException w st1 => rw [hc] at h; exact h
    | abort => trivial
    | undefined => trivial
  | load off len k ih =>
    intro st
    simp only [Prog.run]
    split
    · exact ih _ st
    · exact hR.refl st
  | store off bytes k ih =>
    intro st
    simp only [Prog.run]
    split
    · exact callResult_related_trans hR (hR.mem st _) _ (ih _)
    · exact hR.refl st

theorem bind_ok_inv {α β : Type} (m : M α) (f : α → M β) (st st2 : Instance) (b : β)
    (h : (m >>= f) st = .ok b st2) : ∃ a st1, m st = .ok a st1 ∧ f a st1 = .ok b st2 := by
  simp only [bind_apply, M.bind] at h
  cases hm : m st with
  | ok a st1 => rw [hm] at h; exact ⟨a, st1, rfl, h⟩
  | error e st1 => rw [hm] at h; cases h
  | stdException w st1 => rw [hm] at h; cases h
  | abort => rw [hm] at h; cases h
  | undefined => rw [hm] at h; cases h

theorem callExport_ok (ev : Evaluator)
    (hcall : ∀ f args value, Frame SameContext (ev.callFunction f args value))
    (name : String) (body : List Val → Prog) (args results : List Val) (st st1 : Instance)
    (h : callExport ev name body args st = .ok results st1) :
    st1.calls = st.calls ++ [(name, args)] ∧ st1.wasmPath = st.wasmPath := by
  have hr := run_related sameContext_frameRel ev hcall (body args)
    { st with calls := st.calls ++ [(name, args)] }
  simp only [callExport, funcCall, bind_apply, M.bind] at h
  cases hrun : (body args).run ev { st with calls := st.calls ++ [(name, args)] } with
  | returned rs st2 =>
    rw [hrun] at h hr
    simp only [unwrap, pure_apply, Outcome.ok.injEq] at h
    rw [← h.2]
    exact hr
  | trapped msg st2 => rw [hrun] at h; simp [unwrap, raise] at h
  | escaped w st2 => rw [hrun] at h; cases h
  | abort => rw [hrun] at h; cases h
  | undefined => rw [hrun] at h; cases h

theorem getFunction_ok (m : Module) (name : String) (st st1 : Instance)
    (f : List Val → Prog) (h : getFunction m name st = .ok f st1) :
    m.get name = some (.func f) ∧ st1 = st := by
  unfold getFunction at h
  cases hget : m.get name with
  | none => simp [hget, M.bind, getState, raise] at h
  | some e =>
    cases e with
    | func body =>
      simp only [hget, pure_apply, Outcome.ok.injEq] at h
      exact ⟨by rw [h.1], h.2.symm⟩
    | memory initial => simp [hget, M.bind, getState, raise] at h
    | global v => simp [hget, M.bind, getState, raise] at h
    | table => simp [hget, M.bind, getState, raise] at h

theorem runFunction_ok (ev : Evaluator) (m : Module) (name : String) (args results : List Val)
    (st st1 : Instance) (h : runFunction ev m name args st = .ok results st1) :
    ∃ f, m.get name = some (.func f) ∧
      callExport ev name f args { st with functionName := some name } = .ok results st1 := by
  unfold runFunction at h
  simp only [bind_apply, M.bind, getState, setState] at h
  cases hg : getFunction m name { st with functionName := some name } with
  | ok f st2 =>
    rw [hg] at h
    obtain ⟨h1, rfl⟩ := getFunction_ok m name _ _ f hg
    exact ⟨f, h1, h⟩
  | error e st2 => rw [hg] at h; cases h
  | stdException w st2 => rw [hg] at h; cases h
  | abort => rw [hg] at h; cases h
  | undefined => rw [hg] at h; cases h

theorem hsInitStep_skipped (ev : Evaluator) (m : Module) (st : Instance)
    (h : ∀ f, m.get "hs_init" ≠ some (.func f)) : hsInitStep ev m st = .ok () st := by
  unfold hsInitStep
  cases hget : m.get "hs_init" with
  | none => rfl
  | some e =>
    cases e with
    | func body => exact absurd hget (h body)
    | memory initial => rfl
    | global v => rfl
    | table => rfl

theorem hsInitStep_ok (ev : Evaluator)
    (hcall : ∀ f args value, Frame SameContext (ev.callFunction f args value))
    (m : Module) (st st1 : Instance) (h : hsInitStep ev m st = .ok () st1) :
    st1.calls = st.calls ++
      (match m.get "hs_init" with
        | some (.func _) => [("hs_init", [.i32 0, .i32 0])]
        | _ => []) ∧ st1.wasmPath = st.wasmPath := by
  unfold hsInitStep at h
  cases hget : m.get "hs_init" with
  | none =>
    simp only [hget, pure_apply, Outcome.ok.injEq, true_and] at h
    subst h
    simp
  | some e =>
    cases e with
    | func body =>
      simp only [hget] at h
      obtain ⟨rs, st2, h1, h2⟩ := bind_ok_inv _ _ _ _ _ h
      simp only [pure_apply, Outcome.ok.injEq, true_and] at h2
      subst h2
      exact callExport_ok ev hcall _ _ _ _ _ _ h1
    | memory initial =>
      simp only [hget, pure_apply, Outcome.ok.injEq, true_and] at h
      subst h; simp
    | global v =>
      simp only [hget, pure_apply, Outcome.ok.injEq, true_and] at h
      subst h; simp
    | table =>
      simp only [hget, pure_apply, Outcome.ok.injEq, true_and] at h
      subst h; simp

theorem newInstance_ok (rt : Runtime) (m : Module) (st st1 : Instance)
    (h : newInstance rt m st = .ok () st1) :
    st1.calls = st.calls ∧ st1.wasmPath = st.wasmPath ∧ st1.values = st.values := by
  unfold newInstance at h
  cases h1 : rt.wasiConfigError <;> cases h2 : rt.defineWasiError <;>
    cases h3 : m.instantiateError <;> cases h4 : m.get "memory" <;>
    simp [h1, h2, h3, h4, M.bind, raise, unwrap, getState, setState] at h
  rename_i e
  cases e <;> simp [getState, setState, M.bind] at h
  subst h
  exact ⟨rfl, rfl, rfl⟩

theorem prim_wasm_ok_inv (ev : Evaluator) (rt : Runtime) (loaded : Loaded) (heap : List Value)
    (path name : String) (arg : Ptr) (val : Value) (st : Instance)
    (h : prim_wasm ev rt loaded heap path name arg = .ok val st) :
    prim_wasm_body ev rt loaded name arg
      { heap := heap, values := [], mem := [], wasmPath := path, functionName := none,
        warnings := [] } = .ok val st := by
  unfold prim_wasm at h
  split at h
  · cases h
  · exact h

theorem prim_wasm_success (ev : Evaluator)
    (hcall : ∀ f args value, Frame SameContext (ev.callFunction f args value))
    (rt : Runtime) (loaded : Loaded) (heap : List Value) (path name : String) (arg : Ptr)
    (val : Value) (st : Instance)
    (h : prim_wasm ev rt loaded heap path name arg = .ok val st) :
    ∃ m fi fn fu argId, loaded = .compiled m ∧
      m.get "_initialize" = some (.func fi) ∧
      m.get "nix_wasm_init_v1" = some (.func fn) ∧
      m.get name = some (.func fu) ∧
      st.calls = expectedCalls m name argId := by
  have hb := prim_wasm_ok_inv ev rt loaded heap path name arg val st h
  unfold prim_wasm_body at hb
  obtain ⟨m, s0, hload, hb⟩ := bind_ok_inv _ _ _ _ _ hb
  have hm : loaded = .compiled m ∧ s0.calls = [] := by
    unfold loadModule at hload
    cases loaded with
    | unreadable e => cases hload
    | invalid msg => simp [unwrap, raise] at hload
    | compiled m1 =>
      simp only [pure_apply, Outcome.ok.injEq] at hload
      obtain ⟨rfl, rfl⟩ := hload
      exact ⟨rfl, rfl⟩
  obtain ⟨_, s1, hnew, hb⟩ := bind_ok_inv _ _ _ _ _ hb
  obtain ⟨_, s2, hinit, hb⟩ := bind_ok_inv _ _ _ _ _ hb
  obtain ⟨_, s3, hhs, hb⟩ := bind_ok_inv _ _ _ _ _ hb
  obtain ⟨_, s4, hnix, hb⟩ := bind_ok_inv _ _ _ _ _ hb
  obtain ⟨argId, s5, hadd, hb⟩ := bind_ok_inv _ _ _ _ _ hb
  obtain ⟨results, s6, huser, hb⟩ := bind_ok_inv _ _ _ _ _ hb
  obtain ⟨idx, s7, hidx, hb⟩ := bind_ok_inv _ _ _ _ _ hb
  obtain ⟨p, s8, hat, hb⟩ := bind_ok_inv _ _ _ _ _ hb
  -- the steps after the user call leave the state alone
  have e7 : s7 = s6 := by
    unfold resultIndex at hidx
    cases results with
    | nil => cases hidx
    | cons r rest =>
      cases r with
      | i32 bits => simp only [pure_apply, Outcome.ok.injEq] at hidx; exact hidx.2.symm
      | i64 n => cases hidx
      | f64 bits => cases hidx
  have e8 : s8 = s7 := by
    unfold valuesAt at hat
    split at hat
    · simp only [Outcome.ok.injEq] at hat; exact hat.2.symm
    · cases hat
  have e9 : st = s8 := by
    unfold readValue at hb
    split at hb
    · simp only [Outcome.ok.injEq] at hb; exact hb.2.symm
    · cases hb
  obtain ⟨fi, hfi, hci⟩ := runFunction_ok ev m _ _ _ _ _ hinit
  obtain ⟨fn, hfn, hcn⟩ := runFunction_ok ev m _ _ _ _ _ hnix
  obtain ⟨fu, hfu, hcu⟩ := runFunction_ok ev m _ _ _ _ _ huser
  have c1 := (newInstance_ok rt m _ _ hnew).1
  have c2 := (callExport_ok ev hcall _ _ _ _ _ _ hci).1
  have c3 := (hsInitStep_ok ev hcall m _ _ hhs).1
  have c4 := (callExport_ok ev hcall _ _ _ _ _ _ hcn).1
  have c5 : s5.calls = s4.calls := by
    simp only [addValue, Outcome.ok.injEq] at hadd
    rw [← hadd.2]
  have c6 := (callExport_ok ev hcall _ _ _ _ _ _ hcu).1
  refine ⟨m, fi, fn, fu, argId, hm.1, hfi, hfn, hfu, ?_⟩
  rw [e9, e8, e7, c6]
  simp only [c5, c4, c3, c2, c1, hm.2, expectedCalls, List.nil_append, List.append_assoc]
  rfl

theorem prim_wasm_without_startup (ev : Evaluator) (rt : Runtime) (m : Module)
    (heap : List Value) (path name : String) (arg : Ptr) (initial : List Byte)
    (h1 : rt.wasiConfigError = none) (h2 : rt.defineWasiError = none)
    (h3 : m.instantiateError = none) (h4 : m.get "memory" = some (.memory initial))
    (h5 : m.get "_initialize" = none) :
    prim_wasm ev rt (.compiled m) heap path name arg =
      .error ⟨.Error,
          "WASM module '" ++ path ++ "' does not export function '" ++ "_initialize" ++ "'",
          ["while executing the WASM function '" ++ name ++ "' from '" ++ path ++ "'"]⟩
        { heap := heap, values := [], mem := initial, wasmPath := path,
          functionName := some "_initialize", warnings := [] } := by
  simp [prim_wasm, prim_wasm_body, loadModule, newInstance, h1, h2, h3, h4, M.bind, getState,
    setState, runFunction, getFunction, h5, raise, NixError.addTrace]

theorem prim_wasm_without_hook (ev : Evaluator) (rt : Runtime) (m : Module)
    (heap : List Value) (path name : String) (arg : Ptr) (initial : List Byte)
    (fi : List Val → Prog) (r1 : List Val) (st1 st2 : Instance)
    (h1 : rt.wasiConfigError = none) (h2 : rt.defineWasiError = none)
    (h3 : m.instantiateError = none) (h4 : m.get "memory" = some (.memory initial))
    (hfi : m.get "_initialize" = some (.func fi))
    (hinit : callExport ev "_initialize" fi []
      { heap := heap, values := [], mem := initial, wasmPath := path,
        functionName := some "_initialize", warnings := [] } = .ok r1 st1)
    (hhs : hsInitStep ev m st1 = .ok () st2)
    (h5 : m.get "nix_wasm_init_v1" = none) :
    prim_wasm ev rt (.compiled m) heap path name arg =
      .error ⟨.Error,
          "WASM module '" ++ st2.wasmPath ++ "' does not export function '" ++ "nix_wasm_init_v1"
            ++ "'",
          ["while executing the WASM function '" ++ name ++ "' from '" ++ path ++ "'"]⟩
        { st2 with functionName := some "nix_wasm_init_v1" } := by
  simp [prim_wasm, prim_wasm_body, loadModule, newInstance, h1, h2, h3, h4, M.bind, getState,
    setState, runFunction, getFunction, hfi, hinit, hhs, h5, raise, NixError.addTrace]

theorem prim_wasm_steps (ev : Evaluator) (rt : Runtime) (m : Module)
    (heap : List Value) (path name : String) (arg : Ptr) (initial : List Byte)
    (fi fn fu : List Val → Prog) (r1 r2 rest : List Val) (rid : Nat)
    (st1 st2 st3 st4 : Instance) (p : Ptr) (val : Value)
    (h1 : rt.wasiConfigError = none) (h2 : rt.defineWasiError = none)
    (h3 : m.instantiateError = none) (h4 : m.get "memory" = some (.memory initial))
    (hfi : m.get "_initialize" = some (.func fi))
    (hfn : m.get "nix_wasm_init_v1" = some (.func fn))
    (hfu : m.get name = some (.func fu))
    (hinit : callExport ev "_initialize" fi []
      { heap := heap, values := [], mem := initial, wasmPath := path,
        functionName := some "_initialize", warnings := [] } = .ok r1 st1)
    (hhs : hsInitStep ev m st1 = .ok () st2)
    (hnix : callExport ev "nix_wasm_init_v1" fn []
      { st2 with functionName := some "nix_wasm_init_v1" } = .ok r2 st3)
    (huser : callExport ev name fu [.i32 (st3.values.length % U32)]
      { st3 with values := st3.values ++ [arg], functionName := some name } =
        .ok (.i32 rid :: rest) st4)
    (hrid : rid < 2147483648) (hp : st4.values[rid]? = some p)
    (hval : st4.deref p = some val) :
    prim_wasm ev rt (.compiled m) heap path name arg = .ok val st4 := by
  simp [prim_wasm, prim_wasm_body, loadModule, newInstance, h1, h2, h3, h4, M.bind, getState,
    setState, runFunction, getFunction, hfi, hfn, hfu, hinit, hhs, hnix, addValue, huser,
    resultIndex, hrid, valuesAt, hp, readValue, hval]

/-- C10 (amended). The initialization sequence: `_initialize` and `nix_wasm_init_v1` are
required, only `hs_init` is optional. (1) Whenever `prim_wasm` returns a value, the module
exports `_initialize`, `nix_wasm_init_v1` and the user function as functions, and the exports
entered were, in this order: `_initialize`, then `hs_init` with two zero arguments if and only
if it is an exported function, then `nix_wasm_init_v1`, then the user export with the id of the
argument. (2) On a module without `_initialize` the call fails with the not-exported error and
no export is entered. (3) If the calls of `_initialize`, of the `hs_init` step, of
`nix_wasm_init_v1` and of the user export each return, and the user export returns an id of the
arena, `prim_wasm` returns the value of that id. (4) The `hs_init` step does nothing when
`hs_init` is not an exported function, so a module lacking it is still invoked successfully.
(5) On a module without `nix_wasm_init_v1`, once `_initialize` and the `hs_init` step have
returned, the call fails with the not-exported error for `nix_wasm_init_v1`, and the exports
entered are `_initialize` and, if it is an exported function, `hs_init`: the user export is not
entered. -/
theorem init_sequence (ev : Evaluator)
    (hcall : ∀ f args value, Frame SameContext (ev.callFunction f args value)) :
    (∀ (rt : Runtime) (loaded : Loaded) (heap : List Value) (path name : String) (arg : Ptr)
        (val : Value) (st : Instance),
      prim_wasm ev rt loaded heap path name arg = .ok val st →
      ∃ m fi fn fu argId, loaded = .compiled m ∧
        m.get "_initialize" = some (.func fi) ∧
        m.get "nix_wasm_init_v1" = some (.func fn) ∧
        m.get name = some (.func fu) ∧
        st.calls = expectedCalls m name argId) ∧
    (∀ (rt : Runtime) (m : Module) (heap : List Value) (path name : String) (arg : Ptr)
        (initial : List Byte),
      rt.wasiConfigError = none → rt.defineWasiError = none →
      m.instantiateError = none → m.get "memory" = some (.memory initial) →
      m.get "_initialize" = none →
      prim_wasm ev rt (.compiled m) heap path name arg =
        .error ⟨.Error,
            "WASM module '" ++ path ++ "' does not export function '" ++ "_initialize" ++ "'",
            ["while executing the WASM function '" ++ name ++ "' from '" ++ path ++ "'"]⟩
          { heap := heap, values := [], mem := initial, wasmPath := path,
            functionName := some "_initialize", warnings := [] }) ∧
    (∀ (rt : Runtime) (m : Module) (heap : List Value) (path name : String) (arg : Ptr)
        (initial : List Byte) (fi fn fu : List Val → Prog) (r1 r2 rest : List Val) (rid : Nat)
        (st1 st2 st3 st4 : Instance) (p : Ptr) (val : Value),
      rt.wasiConfigError = none → rt.defineWasiError = none →
      m.instantiateError = none → m.get "memory" = some (.memory initial) →
      m.get "_initialize" = some (.func fi) →
      m.get "nix_wasm_init_v1" = some (.func fn) →
      m.get name = some (.func fu) →
      callExport ev "_initialize" fi []
        { heap := heap, values := [], mem := initial, wasmPath := path,
          functionName := some "_initialize", warnings := [] } = .ok r1 st1 →
      hsInitStep ev m st1 = .ok () st2 →
      callExport ev "nix_wasm_init_v1" fn []
        { st2 with functionName := some "nix_wasm_init_v1" } = .ok r2 st3 →
      callExport ev name fu [.i32 (st3.values.length % U32)]
        { st3 with values := st3.values ++ [arg], functionName := some name } =
          .ok (.i32 rid :: rest) st4 →
      rid < 2147483648 → st4.values[rid]? = some p → st4.deref p = some val →
      prim_wasm ev rt (.compiled m) heap path name arg = .ok val st4) ∧
    (∀ (m : Module) (st : Instance), (∀ f, m.get "hs_init" ≠ some (.func f)) →
      hsInitStep ev m st = .ok () st) ∧
    (∀ (rt : Runtime) (m : Module) (heap : List Value) (path name : String) (arg : Ptr)
        (initial : List Byte) (fi : List Val → Prog) (r1 : List Val) (st1 st2 : Instance),
      rt.wasiConfigError = none → rt.defineWasiError = none →
      m.instantiateError = none → m.get "memory" = some (.memory initial) →
      m.get "_initialize" = some (.func fi) →
      callExport ev "_initialize" fi []
        { heap := heap, values := [], mem := initial, wasmPath := path,
          functionName := some "_initialize", warnings := [] } = .ok r1 st1 →
      hsInitStep ev m st1 = .ok () st2 →
      m.get "nix_wasm_init_v1" = none →
      prim_wasm ev rt (.compiled m) heap path name arg =
        .error ⟨.Error,
            "WASM module '" ++ path ++ "' does not export function '" ++ "nix_wasm_init_v1"
              ++ "'",
            ["while executing the WASM function '" ++ name ++ "' from '" ++ path ++ "'"]⟩
          { st2 with functionName := some "nix_wasm_init_v1" } ∧
      st2.calls = [("_initialize", [])] ++
        (match m.get "hs_init" with
          | some (.func _) => [("hs_init", [.i32 0, .i32 0])]
          | _ => [])) :=
  ⟨fun rt loaded heap path name arg val st h =>
      prim_wasm_success ev hcall rt loaded heap path name arg val st h,
    fun rt m heap path name arg initial h1 h2 h3 h4 h5 =>
      prim_wasm_without_startup ev rt m heap path name arg initial h1 h2 h3 h4 h5,
    fun rt m heap path name arg initial fi fn fu r1 r2 rest rid st1 st2 st3 st4 p val
        h1 h2 h3 h4 hfi hfn hfu hinit hhs hnix huser hrid hp hval =>
      prim_wasm_steps ev rt m heap path name arg initial fi fn fu r1 r2 rest rid st1 st2 st3 st4
        p val h1 h2 h3 h4 hfi hfn hfu hinit hhs hnix huser hrid hp hval,
    fun m st h => hsInitStep_skipped ev m st h,
    fun rt m heap path name arg initial fi r1 st1 st2 h1 h2 h3 h4 hfi hinit hhs h5 => by
      have c1 := callExport_ok ev hcall _ _ _ _ _ _ hinit
      have c2 := hsInitStep_ok ev hcall m _ _ hhs
      have hpath : st2.wasmPath = path := by rw [c2.2, c1.2]
      have hcalls : st2.calls = [("_initialize", [])] ++
          (match m.get "hs_init" with
            | some (.func _) => [("hs_init", [.i32 0, .i32 0])]
            | _ => []) := by
        rw [c2.1, c1.1]
        rfl
      refine ⟨?_, hcalls⟩
      rw [prim_wasm_without_hook ev rt m heap path name arg initial fi r1 st1 st2 h1 h2 h3 h4
        hfi hinit hhs h5, hpath]⟩

theorem init_sequence_witness :
    prim_wasm plainEvaluator okRuntime (.compiled plainModule) [] "m.wasm" "f" .vTrue =
        .ok (.forced (.bool true)) plainDone ∧
      plainModule.get "hs_init" = none ∧
      plainDone.calls = [("_initialize", []), ("nix_wasm_init_v1", []), ("f", [.i32 2])] ∧
      hooklessModule.get "f" = some (.func (fun args => .ret args)) ∧
      prim_wasm plainEvaluator okRuntime (.compiled hooklessModule) [] "m.wasm" "f" .vTrue =
        .error ⟨.Error, "WASM module 'm.wasm' does not export function 'nix_wasm_init_v1'",
            ["while executing the WASM function 'f' from 'm.wasm'"]⟩
          { hooklessAfterInit with functionName := some "nix_wasm_init_v1" } ∧
      hooklessAfterInit.calls = [("_initialize", [])] :=
  ⟨(init_sequence plainEvaluator
      (fun _ _ value => frame_writeValue sameContext_frameRel value _)).2.2.1
      okRuntime plainModule [] "m.wasm" "f" .vTrue [0, 0, 0, 0]
      (fun _ => .host (.make_int 1) (fun _ => .ret []))
      (fun _ => .host .make_null (fun _ => .ret []))
      (fun args => .ret args) [] [] [] 2
      plainAfterInit plainAfterInit plainAfterHook plainDone .vTrue (.forced (.bool true))
      rfl rfl rfl rfl rfl rfl rfl rfl
      (hsInitStep_skipped _ _ _ (fun f h => by cases h)) rfl rfl (by decide) rfl rfl,
    rfl, rfl, rfl,
    (init_sequence plainEvaluator
      (fun _ _ value => frame_writeValue sameContext_frameRel value _)).2.2.2.2
      okRuntime hooklessModule [] "m.wasm" "f" .vTrue [0, 0, 0, 0] (fun _ => .ret []) []
      hooklessAfterInit hooklessAfterInit rfl rfl rfl rfl rfl rfl
      (hsInitStep_skipped _ _ _ (fun f h => by cases h)) rfl⟩

/-- C10, as stated, fails on a module that exports the user function `f` and a memory but no
`_initialize`: the call is not made; it fails with the not-exported error before any export
is entered. -/
theorem missing_initialize_fails :
    bareModule.get "f" = some (.func (fun args => .ret args)) ∧
    bareModule.get "_initialize" = none ∧
    prim_wasm plainEvaluator okRuntime (.compiled bareModule) [] "m.wasm" "f" .vTrue =
      .error ⟨.Error, "WASM module 'm.wasm' does not export function '_initialize'",
          ["while executing the WASM function 'f' from 'm.wasm'"]⟩
        { heap := [], values := [], mem := [0, 0, 0, 0], wasmPath := "m.wasm",
          functionName := some "_initialize", warnings := [], calls := [] } := by
  refine ⟨rfl, rfl, ?_⟩
  rw [prim_wasm_without_startup plainEvaluator okRuntime bareModule [] "m.wasm" "f" .vTrue
    [0, 0, 0, 0] rfl rfl rfl rfl rfl]
  rfl

/-! ## End to end: `addOne` -/

theorem wrap64_of_fits (n : Int) (h1 : -9223372036854775808 ≤ n)
    (h2 : n < 9223372036854775807) : wrap64 (n + 1) = n + 1 := by
  unfold wrap64
  omega

theorem addOne_run (ev : Evaluator) (st : Instance) (argId : Nat) (p : Ptr) (n : Int)
    (hid : st.values[argId]? = some p) (hp : st.deref p = some (.forced (.int n)))
    (h1 : -9223372036854775808 ≤ n) (h2 : n < 9223372036854775807) :
    (addOne [.i32 argId]).run ev st =
      .returned [.i32 (st.values.length % U32)]
        { st with heap := st.heap ++ [.forced (.int (n + 1))],
                  values := st.values ++ [.cell st.heap.length] } := by
  simp only [addOne, Prog.run, hostCall, regFun, Call.run, bind_apply, M.bind, get_int, valuesAt,
    hid, forceInt, forceValue, hp, pure_apply, make_int_eq, wrap64_of_fits n h1 h2]

theorem addOne_call (ev : Evaluator) (name : String) (st : Instance) (argId : Nat) (p : Ptr)
    (n : Int) (hid : st.values[argId]? = some p) (hp : st.deref p = some (.forced (.int n)))
    (h1 : -9223372036854775808 ≤ n) (h2 : n < 9223372036854775807) :
    callExport ev name addOne [.i32 argId] st =
      .ok [.i32 (st.values.length % U32)]
        { st with heap := st.heap ++ [.forced (.int (n + 1))],
                  values := st.values ++ [.cell st.heap.length],
                  calls := st.calls ++ [(name, [.i32 argId])] } := by
  have h := addOne_run ev { st with calls := st.calls ++ [(name, [.i32 argId])] } argId p n hid
    hp h1 h2
  simp only [callExport, funcCall, bind_apply, M.bind, h, unwrap, pure_apply]

theorem two31_lt_U32 : 2147483648 < U32 := by decide

/-- End-to-end `addOne`, while the ids stay below 2^31. On a module whose user export is
`addOne`, whatever the initialization exports did to the instance before they returned, if the
argument is the integer `n` with `-2^63 ≤ n < 2^63 - 1` and the arena holds at most 2^31 - 2
entries when the argument is registered (so that the id of the result is below 2^31),
`prim_wasm` returns the integer `n + 1`. -/
theorem addOne_end_to_end (ev : Evaluator) (rt : Runtime) (m : Module)
    (heap : List Value) (path name : String) (arg : Ptr) (initial : List Byte)
    (fi fn : List Val → Prog) (r1 r2 : List Val) (st1 st2 st3 : Instance) (n : Int)
    (h1 : rt.wasiConfigError = none) (h2 : rt.defineWasiError = none)
    (h3 : m.instantiateError = none) (h4 : m.get "memory" = some (.memory initial))
    (hfi : m.get "_initialize" = some (.func fi))
    (hfn : m.get "nix_wasm_init_v1" = some (.func fn))
    (hfu : m.get name = some (.func addOne))
    (hinit : callExport ev "_initialize" fi []
      { heap := heap, values := [], mem := initial, wasmPath := path,
        functionName := some "_initialize", warnings := [] } = .ok r1 st1)
    (hhs : hsInitStep ev m st1 = .ok () st2)
    (hnix : callExport ev "nix_wasm_init_v1" fn []
      { st2 with functionName := some "nix_wasm_init_v1" } = .ok r2 st3)
    (harg : st3.deref arg = some (.forced (.int n)))
    (hlo : -9223372036854775808 ≤ n) (hhi : n < 9223372036854775807)
    (hroom : st3.values.length + 2 ≤ 2147483648) :
    ∃ st4, prim_wasm ev rt (.compiled m) heap path name arg =
      .ok (.forced (.int (n + 1))) st4 := by
  have hU := two31_lt_U32
  have hmod : st3.values.length % U32 = st3.values.length := Nat.mod_eq_of_lt (by omega)
  have hcall := addOne_call ev name
    { st3 with values := st3.values ++ [arg], functionName := some name }
    st3.values.length arg n (by simp) (by cases arg <;> exact harg) hlo hhi
  have hrid : (st3.values.length + 1) % U32 = st3.values.length + 1 :=
    Nat.mod_eq_of_lt (by omega)
  simp only [List.length_append, List.length_singleton, hrid] at hcall
  refine ⟨_, prim_wasm_steps ev rt m heap path name arg initial fi fn addOne r1 r2 []
    (st3.values.length + 1) st1 st2 st3 _ (.cell st3.heap.length) _ h1 h2 h3 h4 hfi hfn hfu
    hinit hhs hnix (by rw [hmod]; exact hcall) (by omega) ?_ ?_⟩
  · simp only [List.append_assoc]
    rw [List.getElem?_append_right (by omega)]
    simp
  · simp [Instance.deref]

theorem addOne_end_to_end_witness :
    ∃ st4, prim_wasm plainEvaluator okRuntime (.compiled addOneModule) [.forced (.int 41)]
      "m.wasm" "addOne" (.cell 0) = .ok (.forced (.int (41 + 1))) st4 :=
  addOne_end_to_end plainEvaluator okRuntime addOneModule [.forced (.int 41)] "m.wasm" "addOne"
    (.cell 0) [0, 0, 0, 0] (fun _ => .ret []) (fun _ => .ret []) [] []
    addOneAfterInit addOneAfterInit addOneAfterHook 41 rfl rfl rfl rfl rfl rfl rfl rfl
    (hsInitStep_skipped _ _ _ (fun f h => by cases h)) rfl rfl (by decide) (by decide)
    (by decide)

theorem prim_wasm_result_out_of_range (ev : Evaluator) (rt : Runtime) (m : Module)
    (heap : List Value) (path name : String) (arg : Ptr) (initial : List Byte)
    (fi fn fu : List Val → Prog) (r1 r2 rest : List Val) (rid : Nat)
    (st1 st2 st3 st4 : Instance)
    (h1 : rt.wasiConfigError = none) (h2 : rt.defineWasiError = none)
    (h3 : m.instantiateError = none) (h4 : m.get "memory" = some (.memory initial))
    (hfi : m.get "_initialize" = some (.func fi))
    (hfn : m.get "nix_wasm_init_v1" = some (.func fn))
    (hfu : m.get name = some (.func fu))
    (hinit : callExport ev "_initialize" fi []
      { heap := heap, values := [], mem := initial, wasmPath := path,
        functionName := some "_initialize", warnings := [] } = .ok r1 st1)
    (hhs : hsInitStep ev m st1 = .ok () st2)
    (hnix : callExport ev "nix_wasm_init_v1" fn []
      { st2 with functionName := some "nix_wasm_init_v1" } = .ok r2 st3)
    (huser : callExport ev name fu [.i32 (st3.values.length % U32)]
      { st3 with values := st3.values ++ [arg], functionName := some name } =
        .ok (.i32 rid :: rest) st4)
    (hidx : st4.values.length ≤
      (if rid < 2147483648 then rid else rid + (18446744073709551616 - U32))) :
    prim_wasm ev rt (.compiled m) heap path name arg =
      .stdException "vector::_M_range_check" st4 := by
  have hnone := List.getElem?_eq_none hidx
  simp [prim_wasm, prim_wasm_body, loadModule, newInstance, h1, h2, h3, h4, M.bind, getState,
    setState, runFunction, getFunction, hfi, hfn, hfu, hinit, hhs, hnix, addValue, huser,
    resultIndex, valuesAt, hnone]

theorem nullsProg_run (ev : Evaluator) (count : Nat) (st : Instance) :
    (nullsProg count).run ev st =
      .returned [] { st with values := st.values ++ List.replicate count .vNull } := by
  induction count generalizing st with
  | zero => simp [nullsProg, Prog.run]
  | succ k ih =>
    simp only [nullsProg, Prog.run, hostCall, regFun, Call.run, bind_apply, M.bind, make_null,
      addValue, pure_apply, ih]
    simp [List.replicate_succ]

theorem addOne_result_id_beyond_int32 (ev : Evaluator) (rt : Runtime) (m : Module)
    (heap : List Value) (path name : String) (arg : Ptr) (initial : List Byte)
    (fi fn : List Val → Prog) (r1 r2 : List Val) (st1 st2 st3 : Instance) (n : Int)
    (h1 : rt.wasiConfigError = none) (h2 : rt.defineWasiError = none)
    (h3 : m.instantiateError = none) (h4 : m.get "memory" = some (.memory initial))
    (hfi : m.get "_initialize" = some (.func fi))
    (hfn : m.get "nix_wasm_init_v1" = some (.func fn))
    (hfu : m.get name = some (.func addOne))
    (hinit : callExport ev "_initialize" fi []
      { heap := heap, values := [], mem := initial, wasmPath := path,
        functionName := some "_initialize", warnings := [] } = .ok r1 st1)
    (hhs : hsInitStep ev m st1 = .ok () st2)
    (hnix : callExport ev "nix_wasm_init_v1" fn []
      { st2 with functionName := some "nix_wasm_init_v1" } = .ok r2 st3)
    (harg : st3.deref arg = some (.forced (.int n)))
    (hlo : -9223372036854775808 ≤ n) (hhi : n < 9223372036854775807)
    (hfull : st3.values.length + 1 = 2147483648) :
    ∃ st4, prim_wasm ev rt (.compiled m) heap path name arg =
      .stdException "vector::_M_range_check" st4 := by
  have hU : U32 = 4294967296 := rfl
  have hmod : st3.values.length % U32 = st3.values.length := Nat.mod_eq_of_lt (by omega)
  have hcall := addOne_call ev name
    { st3 with values := st3.values ++ [arg], functionName := some name }
    st3.values.length arg n (by simp) (by cases arg <;> exact harg) hlo hhi
  have hrid : (st3.values.length + 1) % U32 = 2147483648 := by
    rw [hfull]; exact Nat.mod_eq_of_lt (by omega)
  simp only [List.length_append, List.length_singleton, hrid] at hcall
  refine ⟨_, prim_wasm_result_out_of_range ev rt m heap path name arg initial fi fn addOne r1 r2
    [] 2147483648 st1 st2 st3 _ h1 h2 h3 h4 hfi hfn hfu hinit hhs hnix
    (by rw [hmod]; exact hcall) ?_⟩
  simp only [List.length_append, List.length_singleton, lt_irrefl, if_false]
  omega

theorem nulls_init_call (ev : Evaluator) (count : Nat) (heap : List Value) (initial : List Byte)
    (path : String) :
    callExport ev "_initialize" (fun _ => nullsProg count) []
      { heap := heap, values := [], mem := initial, wasmPath := path,
        functionName := some "_initialize", warnings := [] } =
      .ok [] { heap := heap, values := List.replicate count .vNull, mem := initial,
               wasmPath := path, functionName := some "_initialize", warnings := [],
               calls := [("_initialize", [])] } := by
  simp only [callExport, funcCall, bind_apply, M.bind, nullsProg_run, unwrap, pure_apply,
    List.nil_append]

theorem empty_hook_call (ev : Evaluator) (heap : List Value) (values : List Ptr)
    (initial : List Byte) (path : String) (calls : List (String × List Val)) :
    callExport ev "nix_wasm_init_v1" (fun _ => .ret []) []
      { heap := heap, values := values, mem := initial, wasmPath := path,
        functionName := some "nix_wasm_init_v1", warnings := [], calls := calls } =
      .ok [] { heap := heap, values := values, mem := initial, wasmPath := path,
               functionName := some "nix_wasm_init_v1", warnings := [],
               calls := calls ++ [("nix_wasm_init_v1", [])] } := by
  simp only [callExport, funcCall, bind_apply, M.bind, Prog.run, unwrap, pure_apply]

theorem busy_init_call (count : Nat) :
    callExport plainEvaluator "_initialize" (fun _ => nullsProg count) []
      { heap := [.forced (.int 41)], values := [], mem := [0, 0, 0, 0], wasmPath := "m.wasm",
        functionName := some "_initialize", warnings := [] } = .ok [] (busyAfterInit count) :=
  nulls_init_call plainEvaluator count _ _ _

theorem busy_hook_call (count : Nat) :
    callExport plainEvaluator "nix_wasm_init_v1" (fun _ => .ret []) []
      { busyAfterInit count with functionName := some "nix_wasm_init_v1" } =
        .ok [] (busyAfterHook count) :=
  empty_hook_call plainEvaluator _ (List.replicate count .vNull) _ _ _

theorem busyAfterHook_length (count : Nat) : (busyAfterHook count).values.length = count :=
  List.length_replicate _ _

theorem busyAfterHook_first (count : Nat) (h : 0 < count) :
    (busyAfterHook count).values[0]? = some .vNull := by
  show (List.replicate count Ptr.vNull)[0]? = _
  rw [List.getElem?_replicate, if_pos h]

/-- With 2^31 - 1 arena entries created by the initialization before the argument is registered,
`addOne` reads 41 and stores 42 under the id 2^31; `prim_wasm` reads the returned id as a
negative `int32_t`, and `values.at` throws `std::out_of_range`. -/
theorem addOne_fails_beyond_int32 :
    (busyAddOneModule 2147483647).get "addOne" = some (.func addOne) ∧
    (busyAfterHook 2147483647).values.length = 2147483647 ∧
    ∃ st4, prim_wasm plainEvaluator okRuntime (.compiled (busyAddOneModule 2147483647))
      [.forced (.int 41)] "m.wasm" "addOne" (.cell 0) =
        .stdException "vector::_M_range_check" st4 :=
  ⟨rfl, busyAfterHook_length _,
    addOne_result_id_beyond_int32 plainEvaluator okRuntime (busyAddOneModule 2147483647)
      [.forced (.int 41)] "m.wasm" "addOne" (.cell 0) [0, 0, 0, 0]
      (fun _ => nullsProg 2147483647) (fun _ => .ret []) [] [] (busyAfterInit 2147483647)
      (busyAfterInit 2147483647) (busyAfterHook 2147483647) 41 rfl rfl rfl rfl rfl
      rfl rfl (busy_init_call _) (hsInitStep_skipped _ _ _ (fun f h => by cases h))
      (busy_hook_call _) rfl (by decide) (by decide) (by rw [busyAfterHook_length])⟩

theorem addOne_result_id_wraps (ev : Evaluator) (rt : Runtime) (m : Module)
    (heap : List Value) (path name : String) (arg : Ptr) (initial : List Byte)
    (fi fn : List Val → Prog) (r1 r2 : List Val) (st1 st2 st3 : Instance) (n : Int)
    (h1 : rt.wasiConfigError = none) (h2 : rt.defineWasiError = none)
    (h3 : m.instantiateError = none) (h4 : m.get "memory" = some (.memory initial))
    (hfi : m.get "_initialize" = some (.func fi))
    (hfn : m.get "nix_wasm_init_v1" = some (.func fn))
    (hfu : m.get name = some (.func addOne))
    (hinit : callExport ev "_initialize" fi []
      { heap := heap, values := [], mem := initial, wasmPath := path,
        functionName := some "_initialize", warnings := [] } = .ok r1 st1)
    (hhs : hsInitStep ev m st1 = .ok () st2)
    (hnix : callExport ev "nix_wasm_init_v1" fn []
      { st2 with functionName := some "nix_wasm_init_v1" } = .ok r2 st3)
    (harg : st3.deref arg = some (.forced (.int n)))
    (hlo : -9223372036854775808 ≤ n) (hhi : n < 9223372036854775807)
    (hfull : st3.values.length + 1 = U32) (h0 : st3.values[0]? = some .vNull) :
    ∃ st4, prim_wasm ev rt (.compiled m) heap path name arg = .ok (.forced .null) st4 := by
  have hpos := U32_pos
  have hmod : st3.values.length % U32 = st3.values.length := Nat.mod_eq_of_lt (by omega)
  have hcall := addOne_call ev name
    { st3 with values := st3.values ++ [arg], functionName := some name }
    st3.values.length arg n (by simp) (by cases arg <;> exact harg) hlo hhi
  have hrid : (st3.values.length + 1) % U32 = 0 := by rw [hfull]; exact Nat.mod_self _
  simp only [List.length_append, List.length_singleton, hrid] at hcall
  have hlen : 0 < st3.values.length := by
    cases hv : st3.values with
    | nil => rw [hv] at h0; cases h0
    | cons a l => simp
  refine ⟨_, prim_wasm_steps ev rt m heap path name arg initial fi fn addOne r1 r2 []
    0 st1 st2 st3 _ .vNull _ h1 h2 h3 h4 hfi hfn hfu
    hinit hhs hnix (by rw [hmod]; exact hcall) (by omega) ?_ rfl⟩
  show (st3.values ++ [arg] ++ [Ptr.cell st3.heap.length])[0]? = _
  rw [List.append_assoc, List.getElem?_append_left hlen]
  exact h0

/-- With 2^32 - 1 arena entries created by the initialization before the argument is registered,
the argument gets the last 32-bit id, `addOne` reads 41 and stores 42, `make_int` returns the id
2^32 narrowed to 32 bits, which is 0, and `prim_wasm` returns the value of the entry 0, a null,
not 42. -/
theorem addOne_fails_on_full_arena :
    (busyAddOneModule 4294967295).get "addOne" = some (.func addOne) ∧
    (busyAfterHook 4294967295).values.length = 4294967295 ∧
    ∃ st4, prim_wasm plainEvaluator okRuntime (.compiled (busyAddOneModule 4294967295))
      [.forced (.int 41)] "m.wasm" "addOne" (.cell 0) = .ok (.forced .null) st4 :=
  ⟨rfl, busyAfterHook_length _,
    addOne_result_id_wraps plainEvaluator okRuntime (busyAddOneModule 4294967295)
      [.forced (.int 41)] "m.wasm" "addOne" (.cell 0) [0, 0, 0, 0]
      (fun _ => nullsProg 4294967295) (fun _ => .ret []) [] [] (busyAfterInit 4294967295)
      (busyAfterInit 4294967295) (busyAfterHook 4294967295) 41 rfl rfl rfl rfl rfl
      rfl rfl (busy_init_call _) (hsInitStep_skipped _ _ _ (fun f h => by cases h))
      (busy_hook_call _) rfl (by decide) (by decide)
      (by rw [busyAfterHook_length]; rfl) (busyAfterHook_first _ (by decide))⟩

/-! ## `panic` -/

theorem prim_wasm_user_error (ev : Evaluator) (rt : Runtime) (m : Module)
    (heap : List Value) (path name : String) (arg : Ptr) (initial : List Byte)
    (fi fn fu : List Val → Prog) (r1 r2 : List Val)
    (st1 st2 st3 st4 : Instance) (e : NixError)
    (h1 : rt.wasiConfigError = none) (h2 : rt.defineWasiError = none)
    (h3 : m.instantiateError = none) (h4 : m.get "memory" = some (.memory initial))
    (hfi : m.get "_initialize" = some (.func fi))
    (hfn : m.get "nix_wasm_init_v1" = some (.func fn))
    (hfu : m.get name = some (.func fu))
    (hinit : callExport ev "_initialize" fi []
      { heap := heap, values := [], mem := initial, wasmPath := path,
        functionName := some "_initialize", warnings := [] } = .ok r1 st1)
    (hhs : hsInitStep ev m st1 = .ok () st2)
    (hnix : callExport ev "nix_wasm_init_v1" fn []
      { st2 with functionName := some "nix_wasm_init_v1" } = .ok r2 st3)
    (huser : callExport ev name fu [.i32 (st3.values.length % U32)]
      { st3 with values := st3.values ++ [arg], functionName := some name } = .error e st4) :
    prim_wasm ev rt (.compiled m) heap path name arg =
      .error (e.addTrace (executingTrace name path)) st4 := by
  simp [prim_wasm, prim_wasm_body, loadModule, newInstance, h1, h2, h3, h4, M.bind, getState,
    setState, runFunction, getFunction, hfi, hfn, hfu, hinit, hhs, hnix, addValue, huser,
    executingTrace]

theorem mentions_msg (e : NixError) (a part b : String) (h : e.msg = a ++ part ++ b) :
    e.mentions part :=
  ⟨e.msg, List.mem_cons_self _ _, a, b, h⟩

theorem getFunction_found (m : Module) (name : String) (st : Instance) (f : List Val → Prog)
    (h : m.get name = some (.func f)) : getFunction m name st = .ok f st := by
  simp [getFunction, h]

theorem getFunction_absent (m : Module) (name : String) (st : Instance)
    (h : m.get name = none) :
    getFunction m name st =
      .error ⟨.Error, "WASM module '" ++ st.wasmPath ++ "' does not export function '" ++ name
        ++ "'", []⟩ st := by
  simp [getFunction, h, M.bind, getState, raise]

theorem getFunction_other (m : Module) (name : String) (st : Instance) (x : Extern)
    (h : m.get name = some x) (hx : ∀ f, x ≠ .func f) :
    getFunction m name st =
      .error ⟨.Error, "export '" ++ name ++ "' of WASM module '" ++ st.wasmPath
        ++ "' is not a function", []⟩ st := by
  cases x with
  | func f => exact absurd rfl (hx f)
  | memory initial => simp [getFunction, h, M.bind, getState, raise]
  | global v => simp [getFunction, h, M.bind, getState, raise]
  | table => simp [getFunction, h, M.bind, getState, raise]

theorem export_messages_differ (path name : String) :
    "WASM module '" ++ path ++ "' does not export function '" ++ name ++ "'" ≠
      "export '" ++ name ++ "' of WASM module '" ++ path ++ "' is not a function" := by
  intro h
  have h2 := congrArg String.data h
  simp only [String.data_append] at h2
  have h3 := congrArg List.head? h2
  simp only [List.append_assoc] at h3
  revert h3
  show ¬ (('W' :: _ : List Char).head? = ('e' :: _ : List Char).head?)
  simp

/-- C13. Export resolution. `getFunction name` returns the export exactly when the module has an
export called `name` that is a function. If no export has that name it throws the not-exported
error; if the export is something else (a memory, a global, a table) it throws the
not-a-function error; the two messages differ, and both contain the path of the module and the
name. In every case the state, and with it the record of entered exports, is left as it was:
no sandbox code runs. -/
theorem export_resolution (m : Module) (name : String) (st : Instance) :
    (∀ f, m.get name = some (.func f) → getFunction m name st = .ok f st) ∧
    (∀ f st1, getFunction m name st = .ok f st1 → m.get name = some (.func f) ∧ st1 = st) ∧
    (m.get name = none →
      ∃ e, getFunction m name st = .error e st ∧
        e = ⟨.Error, "WASM module '" ++ st.wasmPath ++ "' does not export function '" ++ name
          ++ "'", []⟩ ∧
        e.mentions st.wasmPath ∧ e.mentions name) ∧
    (∀ x, m.get name = some x → (∀ f, x ≠ .func f) →
      ∃ e, getFunction m name st = .error e st ∧
        e = ⟨.Error, "export '" ++ name ++ "' of WASM module '" ++ st.wasmPath
          ++ "' is not a function", []⟩ ∧
        e.mentions st.wasmPath ∧ e.mentions name) ∧
    "WASM module '" ++ st.wasmPath ++ "' does not export function '" ++ name ++ "'" ≠
      "export '" ++ name ++ "' of WASM module '" ++ st.wasmPath ++ "' is not a function" := by
  refine ⟨fun f h => getFunction_found m name st f h,
    fun f st1 h => getFunction_ok m name st st1 f h, fun h => ?_, fun x h hx => ?_,
    export_messages_differ st.wasmPath name⟩
  · refine ⟨_, getFunction_absent m name st h, rfl, ?_, ?_⟩
    · exact mentions_msg _ "WASM module '" _ ("' does not export function '" ++ name ++ "'")
        (by simp [String.append_assoc])
    · exact mentions_msg _ ("WASM module '" ++ st.wasmPath ++ "' does not export function '") _
        "'" rfl
  · refine ⟨_, getFunction_other m name st x h hx, rfl, ?_, ?_⟩
    · exact mentions_msg _ ("export '" ++ name ++ "' of WASM module '") _ "' is not a function"
        rfl
    · exact mentions_msg _ "export '" _
        ("' of WASM module '" ++ st.wasmPath ++ "' is not a function")
        (by simp [String.append_assoc])

theorem export_resolution_witness :
    getFunction bareModule "f" freshInstance = .ok (fun args => .ret args) freshInstance ∧
    (∃ e, getFunction bareModule "g" freshInstance = .error e freshInstance ∧
      e = ⟨.Error, "WASM module 'm.wasm' does not export function 'g'", []⟩ ∧
      e.mentions "m.wasm" ∧ e.mentions "g") ∧
    (∃ e, getFunction bareModule "memory" freshInstance = .error e freshInstance ∧
      e = ⟨.Error, "export 'memory' of WASM module 'm.wasm' is not a function", []⟩ ∧
      e.mentions "m.wasm" ∧ e.mentions "memory") :=
  ⟨(export_resolution bareModule "f" freshInstance).1 _ rfl,
    (export_resolution bareModule "g" freshInstance).2.2.1 rfl,
    (export_resolution bareModule "memory" freshInstance).2.2.2.1 (.memory [0, 0, 0, 0]) rfl
      (fun f h => by cases h)⟩

/-! ## Annotation of failures -/

theorem prim_wasm_error_inv (ev : Evaluator) (rt : Runtime) (loaded : Loaded) (heap : List Value)
    (path name : String) (arg : Ptr) (e : NixError) (st : Instance)
    (h : prim_wasm ev rt loaded heap path name arg = .error e st) :
    ∃ e0, prim_wasm_body ev rt loaded name arg
        { heap := heap, values := [], mem := [], wasmPath := path, functionName := none,
          warnings := [] } = .error e0 st ∧
      e = e0.addTrace (executingTrace name path) := by
  unfold prim_wasm at h
  split at h
  · rename_i e0 st0 hb
    simp only [Outcome.error.injEq] at h
    exact ⟨e0, by rw [hb, h.2], h.1.symm⟩
  · rename_i hne
    exact absurd h (hne e st)

theorem prim_wasm_of_error (ev : Evaluator) (rt : Runtime) (loaded : Loaded) (heap : List Value)
    (path name : String) (arg : Ptr) (e0 : NixError) (st : Instance)
    (h : prim_wasm_body ev rt loaded name arg
        { heap := heap, values := [], mem := [], wasmPath := path, functionName := none,
          warnings := [] } = .error e0 st) :
    prim_wasm ev rt loaded heap path name arg =
      .error (e0.addTrace (executingTrace name path)) st := by
  simp only [prim_wasm, h, executingTrace]

theorem prim_wasm_of_stdException (ev : Evaluator) (rt : Runtime) (loaded : Loaded)
    (heap : List Value) (path name : String) (arg : Ptr) (w : String) (st : Instance)
    (h : prim_wasm_body ev rt loaded name arg
        { heap := heap, values := [], mem := [], wasmPath := path, functionName := none,
          warnings := [] } = .stdException w st) :
    prim_wasm ev rt loaded heap path name arg = .stdException w st := by
  simp only [prim_wasm, h]

theorem callExport_error (ev : Evaluator) (name : String) (body : List Val → Prog)
    (args : List Val) (st st1 : Instance) (e : NixError)
    (h : callExport ev name body args st = .error e st1) :
    e.kind = .Error ∧ e.traces = [] ∧
      (body args).run ev { st with calls := st.calls ++ [(name, args)] } = .trapped e.msg st1 := by
  simp only [callExport, funcCall, bind_apply, M.bind] at h
  cases hrun : (body args).run ev { st with calls := st.calls ++ [(name, args)] } with
  | returned rs st2 => rw [hrun] at h; simp [unwrap] at h
  | trapped msg st2 =>
    rw [hrun] at h
    simp only [unwrap, raise, Outcome.error.injEq] at h
    obtain ⟨rfl, rfl⟩ := h
    exact ⟨rfl, rfl, rfl⟩
  | escaped w st2 => rw [hrun] at h; cases h
  | abort => rw [hrun] at h; cases h
  | undefined => rw [hrun] at h; cases h

theorem host_error_trapped (ev : Evaluator) (c : Call) (k : Ret → Prog) (st st1 : Instance)
    (e : NixError) (h : c.run ev st = .error e st1) :
    (Prog.host c k).run ev st = .trapped (cString e.msg) st1 := by
  simp only [Prog.run, hostCall, regFun, h, NixError.what]

theorem prim_wasm_no_result (ev : Evaluator) (rt : Runtime) (m : Module)
    (heap : List Value) (path name : String) (arg : Ptr) (initial : List Byte)
    (fi fn fu : List Val → Prog) (r1 r2 : List Val)
    (st1 st2 st3 st4 : Instance)
    (h1 : rt.wasiConfigError = none) (h2 : rt.defineWasiError = none)
    (h3 : m.instantiateError = none) (h4 : m.get "memory" = some (.memory initial))
    (hfi : m.get "_initialize" = some (.func fi))
    (hfn : m.get "nix_wasm_init_v1" = some (.func fn))
    (hfu : m.get name = some (.func fu))
    (hinit : callExport ev "_initialize" fi []
      { heap := heap, values := [], mem := initial, wasmPath := path,
        functionName := some "_initialize", warnings := [] } = .ok r1 st1)
    (hhs : hsInitStep ev m st1 = .ok () st2)
    (hnix : callExport ev "nix_wasm_init_v1" fn []
      { st2 with functionName := some "nix_wasm_init_v1" } = .ok r2 st3)
    (huser : callExport ev name fu [.i32 (st3.values.length % U32)]
      { st3 with values := st3.values ++ [arg], functionName := some name } = .ok [] st4) :
    prim_wasm ev rt (.compiled m) heap path name arg =
      .stdException "vector::_M_range_check" st4 := by
  simp [prim_wasm, prim_wasm_body, loadModule, newInstance, h1, h2, h3, h4, M.bind, getState,
    setState, runFunction, getFunction, hfi, hfn, hfu, hinit, hhs, hnix, addValue, huser,
    resultIndex]

theorem prim_wasm_unreadable (ev : Evaluator) (rt : Runtime) (heap : List Value)
    (path name : String) (arg : Ptr) (e0 : NixError) :
    prim_wasm ev rt (.unreadable e0) heap path name arg =
      .error (e0.addTrace (executingTrace name path))
        { heap := heap, values := [], mem := [], wasmPath := path, functionName := none,
          warnings := [] } := by
  simp [prim_wasm, prim_wasm_body, loadModule, M.bind, executingTrace]

theorem prim_wasm_invalid (ev : Evaluator) (rt : Runtime) (heap : List Value)
    (path name : String) (arg : Ptr) (msg : String) :
    prim_wasm ev rt (.invalid msg) heap path name arg =
      .error ⟨.Error, msg, [executingTrace name path]⟩
        { heap := heap, values := [], mem := [], wasmPath := path, functionName := none,
          warnings := [] } := by
  simp [prim_wasm, prim_wasm_body, loadModule, M.bind, executingTrace, unwrap, raise,
    NixError.addTrace]

/-- C14 (amended). Every `nix::Error` of the orchestration is annotated, and keeps the kind it
was thrown with in the `try` block. (1) Every error `prim_wasm` fails with is an error thrown in
the `try` block with the trace "while executing the WASM function ... from ..." added in front:
same kind, same message. (2) Every error thrown in the `try` block is rethrown so. (3) A file
that cannot be read fails with the reading error, annotated; a module that does not compile
fails with `Error(message)`, annotated. (4) An error thrown by a callback reaches the sandbox as
a trap that carries its message up to the first NUL (`what()` is a `const char *`), and an error
of an export call is the `Error` that `unwrap` makes of the trap message: whatever the kind of
the error thrown in the callback, the kind that arrives in the `try` block is `Error`. -/
theorem failures_annotated (ev : Evaluator) (rt : Runtime) (loaded : Loaded)
    (heap : List Value) (path name : String) (arg : Ptr) :
    (∀ e st, prim_wasm ev rt loaded heap path name arg = .error e st →
      ∃ e0, prim_wasm_body ev rt loaded name arg
          { heap := heap, values := [], mem := [], wasmPath := path, functionName := none,
            warnings := [] } = .error e0 st ∧
        e.traces = executingTrace name path :: e0.traces ∧ e.kind = e0.kind ∧ e.msg = e0.msg) ∧
    (∀ e0 st, prim_wasm_body ev rt loaded name arg
          { heap := heap, values := [], mem := [], wasmPath := path, functionName := none,
            warnings := [] } = .error e0 st →
      prim_wasm ev rt loaded heap path name arg =
        .error ⟨e0.kind, e0.msg, executingTrace name path :: e0.traces⟩ st) ∧
    (∀ e0, loaded = .unreadable e0 →
      prim_wasm ev rt loaded heap path name arg =
        .error ⟨e0.kind, e0.msg, executingTrace name path :: e0.traces⟩
          { heap := heap, values := [], mem := [], wasmPath := path, functionName := none,
            warnings := [] }) ∧
    (∀ msg, loaded = .invalid msg →
      prim_wasm ev rt loaded heap path name arg =
        .error ⟨.Error, msg, [executingTrace name path]⟩
          { heap := heap, values := [], mem := [], wasmPath := path, functionName := none,
            warnings := [] }) ∧
    (∀ (c : Call) (k : Ret → Prog) (st st1 : Instance) (e : NixError),
      c.run ev st = .error e st1 →
      (Prog.host c k).run ev st = .trapped (cString e.msg) st1) ∧
    (∀ (entry : String) (body : List Val → Prog) (args : List Val) (st st1 : Instance)
        (e : NixError),
      callExport ev entry body args st = .error e st1 →
      e.kind = .Error ∧ e.traces = [] ∧
        (body args).run ev { st with calls := st.calls ++ [(entry, args)] } =
          .trapped e.msg st1) := by
  refine ⟨fun e st h => ?_, fun e0 st h => prim_wasm_of_error ev rt loaded heap path name arg e0 st h,
    fun e0 h => ?_, fun msg h => ?_, fun c k st st1 e h => host_error_trapped ev c k st st1 e h,
    fun entry body args st st1 e h => callExport_error ev entry body args st st1 e h⟩
  · obtain ⟨e0, hb, rfl⟩ := prim_wasm_error_inv ev rt loaded heap path name arg e st h
    exact ⟨e0, hb, rfl, rfl, rfl⟩
  · subst h
    exact prim_wasm_unreadable ev rt heap path name arg e0
  · subst h
    exact prim_wasm_invalid ev rt heap path name arg msg

theorem readInt_call_fails :
    prim_wasm plainEvaluator okRuntime (.compiled readIntModule) [] "m.wasm" "f" .vTrue =
      .error ⟨.Error, "expected an integer: while evaluating a value from WASM",
          ["while executing the WASM function 'f' from 'm.wasm'"]⟩ emptyDone :=
  prim_wasm_user_error plainEvaluator okRuntime readIntModule [] "m.wasm" "f" .vTrue
    [0, 0, 0, 0] (fun _ => .ret []) (fun _ => .ret [])
    (fun _ => .host (.get_int 0) (fun _ => .ret [.i32 0])) [] []
    emptyAfterInit emptyAfterInit emptyAfterHook emptyDone
    ⟨.Error, "expected an integer: while evaluating a value from WASM", []⟩
    rfl rfl rfl rfl rfl rfl rfl rfl
    (hsInitStep_skipped _ _ _ (fun f h => by cases h)) rfl rfl

theorem failures_annotated_witness :
    ∃ e0, prim_wasm_body plainEvaluator okRuntime (.compiled readIntModule) "f" .vTrue
        { heap := [], values := [], mem := [], wasmPath := "m.wasm", functionName := none,
          warnings := [] } = .error e0 emptyDone ∧
      ["while executing the WASM function 'f' from 'm.wasm'"] =
        executingTrace "f" "m.wasm" :: e0.traces ∧
      ErrorKind.Error = e0.kind ∧
      "expected an integer: while evaluating a value from WASM" = e0.msg :=
  (failures_annotated plainEvaluator okRuntime (.compiled readIntModule) [] "m.wasm" "f"
    .vTrue).1
    ⟨.Error, "expected an integer: while evaluating a value from WASM",
      ["while executing the WASM function 'f' from 'm.wasm'"]⟩ emptyDone readInt_call_fails

/-- C14, as stated, fails on an error raised by a callback: the user export `f` calls `get_int`
on the argument `true`, the callback throws a `TypeError`, and the error that reaches the caller
of `prim_wasm` carries the context and the message but is a plain `Error`: the kind of the
original error is not kept. -/
theorem callback_error_kind_lost :
    readIntModule.get "f" =
      some (.func (fun _ => .host (.get_int 0) (fun _ => .ret [.i32 0]))) ∧
    get_int 0 emptyDone =
      .error ⟨.TypeError, "expected an integer: while evaluating a value from WASM", []⟩
        emptyDone ∧
    prim_wasm plainEvaluator okRuntime (.compiled readIntModule) [] "m.wasm" "f" .vTrue =
      .error ⟨.Error, "expected an integer: while evaluating a value from WASM",
          ["while executing the WASM function 'f' from 'm.wasm'"]⟩ emptyDone :=
  ⟨rfl, rfl,
    prim_wasm_user_error plainEvaluator okRuntime readIntModule [] "m.wasm" "f" .vTrue
      [0, 0, 0, 0] (fun _ => .ret []) (fun _ => .ret [])
      (fun _ => .host (.get_int 0) (fun _ => .ret [.i32 0])) [] []
      emptyAfterInit emptyAfterInit emptyAfterHook emptyDone
      ⟨.Error, "expected an integer: while evaluating a value from WASM", []⟩
      rfl rfl rfl rfl rfl rfl rfl rfl
      (hsInitStep_skipped _ _ _ (fun f h => by cases h)) rfl rfl⟩

/-- A user export that returns no result: `.at(0)` throws `std::out_of_range`, which
`catch (Error &)` does not catch. -/
theorem no_result_not_annotated :
    silentModule.get "f" = some (.func (fun _ => .ret [])) ∧
    prim_wasm plainEvaluator okRuntime (.compiled silentModule) [] "m.wasm" "f" .vTrue =
      .stdException "vector::_M_range_check" emptyDone :=
  ⟨rfl,
    prim_wasm_no_result plainEvaluator okRuntime silentModule [] "m.wasm" "f" .vTrue
      [0, 0, 0, 0] (fun _ => .ret []) (fun _ => .ret []) (fun _ => .ret []) [] []
      emptyAfterInit emptyAfterInit emptyAfterHook emptyDone rfl rfl rfl rfl rfl rfl rfl rfl
      (hsInitStep_skipped _ _ _ (fun f h => by cases h)) rfl rfl⟩

/-! ## Kind tags -/

theorem forceValue_keeps_arena (p : Ptr) (st : Instance) :
    (forceValue p st).related (fun a b => b.values = a.values) st := by
  unfold forceValue
  split
  · trivial
  · rfl
  · rename_i w hd
    cases p with
    | cell a =>
      by_cases hlt : a < st.heap.length
      · simp [writeValue, M.bind, hlt, Outcome.related]
      · simp [writeValue, M.bind, hlt, Outcome.related]
    | vNull => simp [writeValue, M.bind, Outcome.related]
    | vTrue => simp [writeValue, M.bind, Outcome.related]
    | vFalse => simp [writeValue, M.bind, Outcome.related]
  · rfl
  · trivial

theorem get_type_of_forced (st : Instance) (id : Nat) (p : Ptr)
    (hid : st.values[id]? = some p) :
    ∀ w st1, forceValue p st = .ok w st1 →
      get_type id st =
        (match w with
          | .int _ => .ok 1 st1
          | .float _ => .ok 2 st1
          | .bool _ => .ok 3 st1
          | .string _ => .ok 4 st1
          | .path _ => .ok 5 st1
          | .null => .ok 6 st1
          | .attrs _ => .ok 7 st1
          | .list _ => .ok 8 st1
          | .function _ => .ok 9 st1
          | .external _ => .error ⟨.Error, "unsupported type", []⟩ st1) := by
  intro w st1 hw
  simp only [get_type, valuesAt, bind_apply, M.bind, hid, hw]
  cases w <;> rfl

theorem get_type_ok (st st1 : Instance) (id t : Nat) (p : Ptr)
    (hid : st.values[id]? = some p) (h : get_type id st = .ok t st1) :
    ∃ w, forceValue p st = .ok w st1 ∧
      (t = 1 ↔ ∃ n, w = .int n) ∧ (t = 2 ↔ ∃ x, w = .float x) ∧ (t = 3 ↔ ∃ b, w = .bool b) ∧
      (t = 4 ↔ ∃ s, w = .string s) ∧ (t = 5 ↔ ∃ s, w = .path s) ∧ (t = 6 ↔ w = .null) ∧
      (t = 7 ↔ ∃ bs, w = .attrs bs) ∧ (t = 8 ↔ ∃ es, w = .list es) ∧
      (t = 9 ↔ ∃ c, w = .function c) := by
  cases hf : forceValue p st with
  | ok w st2 =>
    rw [get_type_of_forced st id p hid w st2 hf] at h
    cases w <;> simp only [Outcome.ok.injEq, reduceCtorEq] at h <;>
      obtain ⟨rfl, rfl⟩ := h <;> exact ⟨_, rfl, by simp⟩
  | error e st2 => simp [get_type, valuesAt, M.bind, hid, hf] at h
  | stdException w st2 => simp [get_type, valuesAt, M.bind, hid, hf] at h
  | abort => simp [get_type, valuesAt, M.bind, hid, hf] at h
  | undefined => simp [get_type, valuesAt, M.bind, hid, hf] at h

theorem get_type_keeps_arena (st : Instance) (id : Nat) :
    (get_type id st).related (fun a b => b.values = a.values) st := by
  cases hid : st.values[id]? with
  | none => simp [get_type, valuesAt, M.bind, hid, Outcome.related]
  | some p =>
    have hf := forceValue_keeps_arena p st
    cases hfv : forceValue p st with
    | ok w st2 =>
      rw [hfv] at hf
      rw [get_type_of_forced st id p hid w st2 hfv]
      cases w <;> exact hf
    | error e st2 =>
      rw [hfv] at hf
      simpa [get_type, valuesAt, M.bind, hid, hfv, Outcome.related] using hf
    | stdException w st2 =>
      rw [hfv] at hf
      simpa [get_type, valuesAt, M.bind, hid, hfv, Outcome.related] using hf
    | abort => simp [get_type, valuesAt, M.bind, hid, hfv, Outcome.related]
    | undefined => simp [get_type, valuesAt, M.bind, hid, hfv, Outcome.related]

theorem get_type_after_make (st : Instance) (hfit : st.values.length < U32) :
    (∃ id st1, make_null st = .ok id st1 ∧ get_type id st1 = .ok 6 st1) ∧
    (∀ n : Int, ∃ id st1, make_int n st = .ok id st1 ∧ get_type id st1 = .ok 1 st1) := by
  have hmod : st.values.length % U32 = st.values.length := Nat.mod_eq_of_lt hfit
  refine ⟨⟨_, _, rfl, ?_⟩, fun n => ⟨_, _, make_int_eq n st, ?_⟩⟩
  · simp [hmod, get_type, valuesAt, forceValue, Instance.deref, M.bind]
  · simp [hmod, get_type, valuesAt, forceValue, Instance.deref, M.bind]

theorem get_type_after_make_int_wraps (st : Instance) (n : Int) (hlen : st.values.length = U32)
    (h0 : st.values[0]? = some .vNull) :
    ∃ st1, make_int n st = .ok 0 st1 ∧ get_type 0 st1 = .ok 6 st1 := by
  rw [make_int_eq, hlen, Nat.mod_self]
  refine ⟨_, rfl, ?_⟩
  have h1 : (st.values ++ [Ptr.cell st.heap.length])[0]? = some .vNull := by
    rw [List.getElem?_append_left (by rw [hlen]; exact U32_pos)]
    exact h0
  simp only [get_type, valuesAt, bind_apply, M.bind, h1, forceValue, Instance.deref, pure_apply]

/-- C15 (amended). The kind tag of `get_type`. For every valid id, if forcing the value
succeeds, `get_type` returns 1 for an integer, 2 for a float, 3 for a Boolean, 4 for a string,
5 for a path, 6 for null, 7 for an attribute set, 8 for a list, 9 for a function, and throws
"unsupported type" for any other kind; the tag determines the kind; and whatever the outcome,
the arena is the one before the call. On an arena of fewer than 2^32 entries,
`get_type` at the id returned by `make_null` is 6 and at the id returned by `make_int n` is 1. -/
theorem get_type_tags (st : Instance) (id : Nat) (p : Ptr) (hid : st.values[id]? = some p) :
    (∀ w st1, forceValue p st = .ok w st1 →
      get_type id st =
        (match w with
          | .int _ => .ok 1 st1
          | .float _ => .ok 2 st1
          | .bool _ => .ok 3 st1
          | .string _ => .ok 4 st1
          | .path _ => .ok 5 st1
          | .null => .ok 6 st1
          | .attrs _ => .ok 7 st1
          | .list _ => .ok 8 st1
          | .function _ => .ok 9 st1
          | .external _ => .error ⟨.Error, "unsupported type", []⟩ st1)) ∧
    (∀ t st1, get_type id st = .ok t st1 →
      ∃ w, forceValue p st = .ok w st1 ∧
        (t = 1 ↔ ∃ n, w = .int n) ∧ (t = 2 ↔ ∃ x, w = .float x) ∧ (t = 3 ↔ ∃ b, w = .bool b) ∧
        (t = 4 ↔ ∃ s, w = .string s) ∧ (t = 5 ↔ ∃ s, w = .path s) ∧ (t = 6 ↔ w = .null) ∧
        (t = 7 ↔ ∃ bs, w = .attrs bs) ∧ (t = 8 ↔ ∃ es, w = .list es) ∧
        (t = 9 ↔ ∃ c, w = .function c)) ∧
    (get_type id st).related (fun a b => b.values = a.values) st ∧
    (st.values.length < U32 →
      (∃ nid st1, make_null st = .ok nid st1 ∧ get_type nid st1 = .ok 6 st1) ∧
      (∀ n : Int, ∃ iid st1, make_int n st = .ok iid st1 ∧ get_type iid st1 = .ok 1 st1)) :=
  ⟨get_type_of_forced st id p hid,
    fun t st1 h => get_type_ok st st1 id t p hid h,
    get_type_keeps_arena st id,
    fun hfit => get_type_after_make st hfit⟩

theorem get_type_tags_witness :
    get_type 0 oneValue = .ok 3 oneValue ∧
    ((∃ nid st1, make_null oneValue = .ok nid st1 ∧ get_type nid st1 = .ok 6 st1) ∧
      (∀ n : Int, ∃ iid st1, make_int n oneValue = .ok iid st1 ∧ get_type iid st1 = .ok 1 st1)) :=
  ⟨(get_type_tags oneValue 0 .vTrue rfl).1 (.bool true) oneValue rfl,
    (get_type_tags oneValue 0 .vTrue rfl).2.2.2 (by decide)⟩

/-- C15, as stated, fails on an arena that already holds 2^32 entries: `make_int 7` returns the
id 0, which still names the first entry (a null), so `get_type` at the returned id is 6, not
1. -/
theorem get_type_fails_on_full_arena :
    ∃ st1, make_int 7 fullArena = .ok 0 st1 ∧ get_type 0 st1 = .ok 6 st1 :=
  get_type_after_make_int_wraps fullArena 7 fullArena_length fullArena_first

/-! ## `call_function` -/

theorem call_function_eq (ev : Evaluator) (st st0 : Instance) (funId ptr len : Nat) (f : Ptr)
    (code : Nat) (hid : st.values[funId]? = some f)
    (hfun : forceValue f st = .ok (.function code) st0)
    (hsrc : ptr + 4 * len ≤ st.mem.length)
    (hvalid : ∀ i ∈ storedIds st.mem ptr len, i < st.values.length) :
    ∃ args, args.map some = (storedIds st.mem ptr len).map (fun i => st.values[i]?) ∧
      call_function ev funId ptr len st =
        (ev.callFunction f args (.cell st0.heap.length) >>=
            fun _ => (pure (st.values.length % U32) : M Nat))
          { st0 with heap := st0.heap ++ [.uninitialized],
                     values := st.values ++ [.cell st0.heap.length] } := by
  obtain ⟨hv, hm, _, _⟩ := forceValue_frame f st st0 _ hfun
  obtain ⟨args, hrun, hargs⟩ := readValues_ok len ptr st0 (by rw [hm]; exact hsrc)
    (by rw [hm, hv]; exact hvalid)
  rw [hm, hv] at hargs
  refine ⟨args, hargs, ?_⟩
  have h1 : ptr ≤ st0.mem.length := by rw [hm]; omega
  have h2 : len * 4 ≤ st0.mem.length - ptr := by rw [hm]; omega
  simp only [call_function, valuesAt, hid, bind_apply, M.bind, forceFunction, hfun, pure_apply,
    memory, Span.subspanFrom, h1, if_true, subspanT, ge_iff_le, h2, Nat.zero_add, hrun, allocValue,
    stateAllocValue, addValue, hv]

theorem call_function_wraps (st : Instance) (code : Nat) (hlen : st.values.length = U32)
    (h0 : st.values[0]? = some (.cell 0)) (hheap : st.heap = [.forced (.function code)]) :
    ∃ st1, call_function plainEvaluator 0 0 0 st = .ok 0 st1 ∧
      st1.values[0]? = some (.cell 0) ∧
      st1.deref (.cell 0) = some (.forced (.function code)) ∧
      st1.values[U32]? = some (.cell 1) ∧
      st1.deref (.cell 1) = some (.forced .null) := by
  obtain ⟨args, hargs, h⟩ := call_function_eq plainEvaluator st st 0 0 0 (.cell 0) code h0
    (by simp [forceValue, Instance.deref, hheap]) (by omega) (by simp [storedIds])
  have hnil : args = [] := by simpa [storedIds] using hargs
  have hrun : call_function plainEvaluator 0 0 0 st =
      .ok 0 { st with heap := [.forced (.function code), .forced .null],
                      values := st.values ++ [.cell 1] } := by
    rw [h, hnil, hlen, Nat.mod_self]
    simp [plainEvaluator, writeValue, M.bind, hheap]
  refine ⟨_, hrun, ?_, rfl, ?_, rfl⟩
  · show (st.values ++ [Ptr.cell 1])[0]? = _
    rw [List.getElem?_append_left (by rw [hlen]; exact U32_pos)]
    exact h0
  · show (st.values ++ [Ptr.cell 1])[U32]? = _
    rw [← hlen, List.getElem?_append_right (le_refl _)]
    simp

theorem fullFunctionArena_length : fullFunctionArena.values.length = U32 := by
  have h : fullFunctionArena.values = .cell 0 :: List.replicate 4294967295 .vNull := rfl
  rw [h, List.length_cons, List.length_replicate]
  rfl

/-- C16 (amended). `call_function` passes the arguments in memory order and returns the id of
the result slot, on an arena of fewer than 2^32 entries. For every valid `funId` whose value
forces to a function and every `len` valid ids stored at `ptr`: the arguments are the values of
those ids, in the order of the ids in memory; `callFunction` is applied to the function, these
arguments and a fresh cell for the result, which is registered in the arena before the
application; the outcome of `call_function` is the outcome of that application, and when it
returns, the id returned is the size the arena had at entry, and it resolves to the result cell
in the state after the call, whatever the application appended to the arena in the meantime. -/
theorem call_function_result (ev : Evaluator) (st st0 : Instance) (funId ptr len : Nat)
    (f : Ptr) (code : Nat) (hid : st.values[funId]? = some f)
    (hfun : forceValue f st = .ok (.function code) st0)
    (hsrc : ptr + 4 * len ≤ st.mem.length)
    (hvalid : ∀ i ∈ storedIds st.mem ptr len, i < st.values.length)
    (hfit : st.values.length < U32) :
    ∃ args, args.map some = (storedIds st.mem ptr len).map (fun i => st.values[i]?) ∧
      call_function ev funId ptr len st =
        (ev.callFunction f args (.cell st0.heap.length) >>=
            fun _ => (pure st.values.length : M Nat))
          { st0 with heap := st0.heap ++ [.uninitialized],
                     values := st.values ++ [.cell st0.heap.length] } ∧
      ∀ st2, ev.callFunction f args (.cell st0.heap.length)
          { st0 with heap := st0.heap ++ [.uninitialized],
                     values := st.values ++ [.cell st0.heap.length] } = .ok () st2 →
        ArenaKept { st0 with heap := st0.heap ++ [.uninitialized],
                             values := st.values ++ [.cell st0.heap.length] } st2 →
        call_function ev funId ptr len st = .ok st.values.length st2 ∧
          st2.values[st.values.length]? = some (.cell st0.heap.length) := by
  obtain ⟨args, hargs, h⟩ := call_function_eq ev st st0 funId ptr len f code hid hfun hsrc hvalid
  rw [Nat.mod_eq_of_lt hfit] at h
  refine ⟨args, hargs, h, fun st2 hcall hkept => ?_⟩
  refine ⟨by rw [h]; simp only [bind_apply, M.bind, hcall, pure_apply], ?_⟩
  obtain ⟨added, hadd⟩ := hkept
  rw [hadd]
  show (st.values ++ [Ptr.cell st0.heap.length] ++ added)[st.values.length]? = _
  rw [List.append_assoc, List.getElem?_append_right (le_refl _)]
  simp

theorem call_function_result_witness :
    ∃ args, args.map some = [some (.cell 1)] ∧
      call_function plainEvaluator 0 0 1 oneFunction =
        (plainEvaluator.callFunction (.cell 0) args (.cell 2) >>= fun _ => (pure 2 : M Nat))
          oneFunctionEntered ∧
      ∀ st2, plainEvaluator.callFunction (.cell 0) args (.cell 2) oneFunctionEntered =
            .ok () st2 →
        ArenaKept oneFunctionEntered st2 →
        call_function plainEvaluator 0 0 1 oneFunction = .ok 2 st2 ∧
          st2.values[2]? = some (.cell 2) :=
  call_function_result plainEvaluator oneFunction oneFunction 0 0 1 (.cell 0) 0 rfl rfl
    (by decide) (by decide) (by decide)

/-- C16, as stated, fails on an arena that already holds 2^32 entries, the first of which is a
function: `call_function` on it, with no arguments, returns the id 0, which is not the size of
the arena at entry (2^32) and which still names the function, not the result of the application
(a null, stored in the cell that is registered as entry 2^32). -/
theorem call_function_fails_on_full_arena :
    fullFunctionArena.values.length = U32 ∧
    ∃ st1, call_function plainEvaluator 0 0 0 fullFunctionArena = .ok 0 st1 ∧
      st1.values[0]? = some (.cell 0) ∧
      st1.deref (.cell 0) = some (.forced (.function 0)) ∧
      st1.values[U32]? = some (.cell 1) ∧
      st1.deref (.cell 1) = some (.forced .null) :=
  ⟨fullFunctionArena_length,
    call_function_wraps fullFunctionArena 0 fullFunctionArena_length
      (List.getElem?_cons_zero) rfl⟩

/-! ## The ids accepted by the composite constructors -/

theorem readValues_fail : ∀ (count off : Nat) (st : Instance),
    off + 4 * count ≤ st.mem.length →
    (∃ i ∈ storedIds st.mem off count, st.values.length ≤ i) →
    readValues off count st = .stdException "vector::_M_range_check" st := by
  intro count
  induction count with
  | zero =>
    intro off st _ hbad
    obtain ⟨i, hi, _⟩ := hbad
    simp [storedIds] at hi
  | succ n ih =>
    intro off st hmem hbad
    have h4 : off + 4 ≤ st.mem.length := by omega
    by_cases hfirst : readU32 st.mem off < st.values.length
    · have hrest : ∃ i ∈ storedIds st.mem (off + 4) n, st.values.length ≤ i := by
        obtain ⟨i, hi, hle⟩ := hbad
        simp only [storedIds, List.mem_cons] at hi
        rcases hi with rfl | hi
        · omega
        · exact ⟨i, hi, hle⟩
      simp only [readValues, bind_apply, M.bind, loadU32_eq off st h4, valuesAt,
        List.getElem?_eq_getElem hfirst, ih (off + 4) st (by omega) hrest]
    · have hnone : st.values[readU32 st.mem off]? = none :=
        List.getElem?_eq_none (by omega)
      simp only [readValues, bind_apply, M.bind, loadU32_eq off st h4, valuesAt, hnone]

theorem readAttrs_fail : ∀ (count off : Nat) (st : Instance),
    off + 12 * count ≤ st.mem.length →
    (∀ r ∈ storedAttrs st.mem off count, r.1 + r.2.1 ≤ st.mem.length) →
    (∃ r ∈ storedAttrs st.mem off count, st.values.length ≤ r.2.2) →
    readAttrs ⟨0, st.mem.length⟩ off count st = .stdException "vector::_M_range_check" st := by
  intro count
  induction count with
  | zero =>
    intro off st _ _ hbad
    obtain ⟨r, hr, _⟩ := hbad
    simp [storedAttrs] at hr
  | succ n ih =>
    intro off st hmem hnames hbad
    have ha : off + 4 ≤ st.mem.length := by omega
    have hb : off + 4 + 4 ≤ st.mem.length := by omega
    have hc : off + 8 + 4 ≤ st.mem.length := by omega
    have hname := hnames (readU32 st.mem off, readU32 st.mem (off + 4),
      readU32 st.mem (off + 8)) (by simp [storedAttrs])
    simp only at hname
    have h1 : readU32 st.mem off ≤ st.mem.length ∧
        readU32 st.mem (off + 4) ≤ st.mem.length - readU32 st.mem off := by omega
    by_cases hfirst : readU32 st.mem (off + 8) < st.values.length
    · have hrest : ∃ r ∈ storedAttrs st.mem (off + 12) n, st.values.length ≤ r.2.2 := by
        obtain ⟨r, hr, hle⟩ := hbad
        simp only [storedAttrs, List.mem_cons] at hr
        rcases hr with rfl | hr
        · simp only at hle; omega
        · exact ⟨r, hr, hle⟩
      simp only [readAttrs, bind_apply, M.bind, loadU32_eq off st ha,
        loadU32_eq (off + 4) st hb, loadU32_eq (off + 8) st hc, Span.subspan, h1, and_self,
        if_true, loadBytes, Nat.zero_add, hname, valuesAt, List.getElem?_eq_getElem hfirst,
        ih (off + 12) st (by omega) (fun r hr => hnames r (by simp [storedAttrs, hr])) hrest]
    · have hnone : st.values[readU32 st.mem (off + 8)]? = none :=
        List.getElem?_eq_none (by omega)
      simp only [readAttrs, bind_apply, M.bind, loadU32_eq off st ha,
        loadU32_eq (off + 4) st hb, loadU32_eq (off + 8) st hc, Span.subspan, h1, and_self,
        if_true, loadBytes, Nat.zero_add, hname, valuesAt, hnone]

theorem make_list_accepts (st : Instance) (ptr n : Nat)
    (hsrc : ptr + 4 * n ≤ st.mem.length)
    (hvalid : ∀ i ∈ storedIds st.mem ptr n, i < st.values.length + 1) :
    ∃ ps, make_list ptr n st = .ok (st.values.length % U32)
        { st with heap := st.heap ++ [.forced (.list ps)],
                  values := st.values ++ [.cell st.heap.length] } ∧
      ps.map some = (storedIds st.mem ptr n).map
        (fun i => (st.values ++ [.cell st.heap.length])[i]?) ∧
      ∀ p ∈ ps, p ∈ st.values ∨ p = .cell st.heap.length := by
  obtain ⟨ps, hrun, hps⟩ := readValues_ok n ptr
    { st with heap := st.heap ++ [.uninitialized],
              values := st.values ++ [.cell st.heap.length] }
    hsrc (fun i hi => by have := hvalid i hi; simp; omega)
  refine ⟨ps, ?_, hps, ?_⟩
  · have h1 : ptr ≤ st.mem.length := by omega
    have h2 : n * 4 ≤ st.mem.length - ptr := by omega
    simp [make_list, memory, Span.subspanFrom, subspanT, M.bind, h1, h2, allocValue,
      stateAllocValue, addValue, hrun, writeValue, set_append_last]
  · intro p hp
    have hmem : some p ∈ ps.map some := List.mem_map_of_mem _ hp
    rw [hps] at hmem
    obtain ⟨i, _, hi⟩ := List.mem_map.1 hmem
    have := List.getElem?_mem hi
    simpa using this

theorem make_list_rejects (st : Instance) (ptr n : Nat)
    (hsrc : ptr + 4 * n ≤ st.mem.length)
    (hbad : ∃ i ∈ storedIds st.mem ptr n, st.values.length + 1 ≤ i) :
    make_list ptr n st = .stdException "vector::_M_range_check"
      { st with heap := st.heap ++ [.uninitialized],
                values := st.values ++ [.cell st.heap.length] } := by
  have hrun := readValues_fail n ptr
    { st with heap := st.heap ++ [.uninitialized],
              values := st.values ++ [.cell st.heap.length] }
    hsrc (by obtain ⟨i, hi, hle⟩ := hbad; exact ⟨i, hi, by simpa using hle⟩)
  have h1 : ptr ≤ st.mem.length := by omega
  have h2 : n * 4 ≤ st.mem.length - ptr := by omega
  simp [make_list, memory, Span.subspanFrom, subspanT, M.bind, h1, h2, allocValue,
    stateAllocValue, addValue, hrun]

theorem make_attrset_accepts (ev : Evaluator) (st : Instance) (ptr len : Nat)
    (hsrc : ptr + 12 * len ≤ st.mem.length)
    (hvalid : ∀ r ∈ storedAttrs st.mem ptr len,
      r.1 + r.2.1 ≤ st.mem.length ∧ r.2.2 < st.values.length + 1) :
    ∃ bs, make_attrset ev ptr len st = .ok (st.values.length % U32)
        { st with heap := st.heap ++ [.forced (.attrs (ev.sortBindings bs))],
                  values := st.values ++ [.cell st.heap.length] } ∧
      bs.map (fun b => (b.1, some b.2)) =
        (storedAttrs st.mem ptr len).map
          (fun r => (slice st.mem r.1 r.2.1, (st.values ++ [.cell st.heap.length])[r.2.2]?)) ∧
      ∀ b ∈ bs, b.2 ∈ st.values ∨ b.2 = .cell st.heap.length := by
  obtain ⟨bs, hrun, hbs⟩ := readAttrs_ok len ptr
    { st with heap := st.heap ++ [.uninitialized],
              values := st.values ++ [.cell st.heap.length] }
    hsrc (fun r hr => by have := hvalid r hr; simp; omega)
  refine ⟨bs, ?_, hbs, ?_⟩
  · have h1 : ptr ≤ st.mem.length := by omega
    have h2 : len * 12 ≤ st.mem.length - ptr := by omega
    simp [make_attrset, memory, Span.subspanFrom, subspanT, M.bind, h1, h2, allocValue,
      stateAllocValue, addValue, hrun, writeValue, set_append_last]
  · intro b hb
    have hmem : (b.1, some b.2) ∈ bs.map (fun b => (b.1, some b.2)) :=
      List.mem_map_of_mem _ hb
    rw [hbs] at hmem
    obtain ⟨r, _, hr⟩ := List.mem_map.1 hmem
    simp only [Prod.mk.injEq] at hr
    have := List.getElem?_mem hr.2
    simpa using this

theorem make_attrset_rejects (ev : Evaluator) (st : Instance) (ptr len : Nat)
    (hsrc : ptr + 12 * len ≤ st.mem.length)
    (hnames : ∀ r ∈ storedAttrs st.mem ptr len, r.1 + r.2.1 ≤ st.mem.length)
    (hbad : ∃ r ∈ storedAttrs st.mem ptr len, st.values.length + 1 ≤ r.2.2) :
    make_attrset ev ptr len st = .stdException "vector::_M_range_check"
      { st with heap := st.heap ++ [.uninitialized],
                values := st.values ++ [.cell st.heap.length] } := by
  have hrun := readAttrs_fail len ptr
    { st with heap := st.heap ++ [.uninitialized],
              values := st.values ++ [.cell st.heap.length] }
    hsrc hnames (by obtain ⟨r, hr, hle⟩ := hbad; exact ⟨r, hr, by simpa using hle⟩)
  have h1 : ptr ≤ st.mem.length := by omega
  have h2 : len * 12 ≤ st.mem.length - ptr := by omega
  simp [make_attrset, memory, Span.subspanFrom, subspanT, M.bind, h1, h2, allocValue,
    stateAllocValue, addValue, hrun]

/-- C17 (amended). The ids the composite constructors accept are those below the arena size
after the result slot has been registered, that is `id < n + 1` on an arena of size `n` at
entry: `allocValue` runs before the ids are looked up. For `make_list`, with the `len` ids in
range of memory: if every id is below `n + 1` the call returns, and every element of the list is
an entry the arena had before the call or the cell of the list itself; if some id is `n + 1` or
more, `values.at` throws `std::out_of_range` (with the result slot already registered). For
`make_attrset`, with the `len` records and their names in range of memory: the same, for the
value ids of the records. -/
theorem composite_constructor_ids (ev : Evaluator) (st : Instance) (ptr len : Nat) :
    (ptr + 4 * len ≤ st.mem.length →
      ((∀ i ∈ storedIds st.mem ptr len, i < st.values.length + 1) →
        ∃ ps, make_list ptr len st = .ok (st.values.length % U32)
            { st with heap := st.heap ++ [.forced (.list ps)],
                      values := st.values ++ [.cell st.heap.length] } ∧
          ps.map some = (storedIds st.mem ptr len).map
            (fun i => (st.values ++ [.cell st.heap.length])[i]?) ∧
          ∀ p ∈ ps, p ∈ st.values ∨ p = .cell st.heap.length) ∧
      ((∃ i ∈ storedIds st.mem ptr len, st.values.length + 1 ≤ i) →
        make_list ptr len st = .stdException "vector::_M_range_check"
          { st with heap := st.heap ++ [.uninitialized],
                    values := st.values ++ [.cell st.heap.length] })) ∧
    (ptr + 12 * len ≤ st.mem.length →
      (∀ r ∈ storedAttrs st.mem ptr len, r.1 + r.2.1 ≤ st.mem.length) →
      ((∀ r ∈ storedAttrs st.mem ptr len, r.2.2 < st.values.length + 1) →
        ∃ bs, make_attrset ev ptr len st = .ok (st.values.length % U32)
            { st with heap := st.heap ++ [.forced (.attrs (ev.sortBindings bs))],
                      values := st.values ++ [.cell st.heap.length] } ∧
          bs.map (fun b => (b.1, some b.2)) =
            (storedAttrs st.mem ptr len).map
              (fun r => (slice st.mem r.1 r.2.1,
                (st.values ++ [.cell st.heap.length])[r.2.2]?)) ∧
          ∀ b ∈ bs, b.2 ∈ st.values ∨ b.2 = .cell st.heap.length) ∧
      ((∃ r ∈ storedAttrs st.mem ptr len, st.values.length + 1 ≤ r.2.2) →
        make_attrset ev ptr len st = .stdException "vector::_M_range_check"
          { st with heap := st.heap ++ [.uninitialized],
                    values := st.values ++ [.cell st.heap.length] })) :=
  ⟨fun hsrc => ⟨fun hvalid => make_list_accepts st ptr len hsrc hvalid,
      fun hbad => make_list_rejects st ptr len hsrc hbad⟩,
    fun hsrc hnames => ⟨fun hvalid => make_attrset_accepts ev st ptr len hsrc
        (fun r hr => ⟨hnames r hr, hvalid r hr⟩),
      fun hbad => make_attrset_rejects ev st ptr len hsrc hnames hbad⟩⟩

theorem composite_constructor_ids_witness :
    (∃ ps, make_list 0 1 oneValue = .ok (oneValue.values.length % U32)
        { oneValue with heap := oneValue.heap ++ [.forced (.list ps)],
                        values := oneValue.values ++ [.cell oneValue.heap.length] } ∧
      ps.map some = (storedIds oneValue.mem 0 1).map
        (fun i => (oneValue.values ++ [.cell oneValue.heap.length])[i]?) ∧
      ∀ p ∈ ps, p ∈ oneValue.values ∨ p = .cell oneValue.heap.length) ∧
    make_list 4 1 oneValue = .stdException "vector::_M_range_check"
      { oneValue with heap := oneValue.heap ++ [.uninitialized],
                      values := oneValue.values ++ [.cell oneValue.heap.length] } ∧
    ∃ bs, make_attrset plainEvaluator 0 1 oneAttr = .ok (oneAttr.values.length % U32)
        { oneAttr with heap := oneAttr.heap ++ [.forced (.attrs (plainEvaluator.sortBindings bs))],
                       values := oneAttr.values ++ [.cell oneAttr.heap.length] } ∧
      bs.map (fun b => (b.1, some b.2)) =
        (storedAttrs oneAttr.mem 0 1).map
          (fun r => (slice oneAttr.mem r.1 r.2.1,
            (oneAttr.values ++ [.cell oneAttr.heap.length])[r.2.2]?)) ∧
      ∀ b ∈ bs, b.2 ∈ oneAttr.values ∨ b.2 = .cell oneAttr.heap.length :=
  ⟨((composite_constructor_ids plainEvaluator oneValue 0 1).1 (by decide)).1 (by decide),
    ((composite_constructor_ids plainEvaluator oneValue 4 1).1 (by decide)).2 (by decide),
    ((composite_constructor_ids plainEvaluator oneAttr 0 1).2 (by decide) (by decide)).1
      (by decide)⟩

/-- C17, as stated, fails on an arena of size 1 when memory holds the id 1: the id is not below
the arena size at entry, yet `make_list` and `make_attrset` succeed, and the list (the attribute
set) they build in the fresh cell 0 contains that very cell, the value being constructed. -/
theorem composite_contains_itself :
    selfReference.values.length = 1 ∧
    storedIds selfReference.mem 0 1 = [1] ∧
    storedAttrs selfReference.mem 4 1 = [(16, 1, 1)] ∧
    make_list 0 1 selfReference =
      .ok 1 { selfReference with heap := [.forced (.list [.cell 0])],
                                 values := [.vTrue, .cell 0] } ∧
    make_attrset plainEvaluator 4 1 selfReference =
      .ok 1 { selfReference with heap := [.forced (.attrs [([97], .cell 0)])],
                                 values := [.vTrue, .cell 0] } := by
  refine ⟨rfl, by decide, by decide, ?_, ?_⟩
  · obtain ⟨ps, hrun, hps, _⟩ := make_list_accepts selfReference 0 1 (by decide) (by decide)
    have h1 : (storedIds selfReference.mem 0 1).map
        (fun i => (selfReference.values ++ [.cell selfReference.heap.length])[i]?) =
        [some (.cell 0)] := by decide
    rw [h1] at hps
    have h2 : ps = [.cell 0] := by
      cases ps with
      | nil => simp at hps
      | cons p rest =>
        cases rest with
        | nil => simpa using hps
        | cons q rest2 => simp at hps
    rw [hrun, h2]
    rfl
  · obtain ⟨bs, hrun, hbs, _⟩ := make_attrset_accepts plainEvaluator selfReference 4 1
      (by decide) (by decide)
    have h1 : (storedAttrs selfReference.mem 4 1).map
        (fun r => (slice selfReference.mem r.1 r.2.1,
          (selfReference.values ++ [.cell selfReference.heap.length])[r.2.2]?)) =
        [([97], some (.cell 0))] := by decide
    rw [h1] at hbs
    have h2 : bs = [([97], .cell 0)] := by
      cases bs with
      | nil => simp at hbs
      | cons p rest =>
        cases rest with
        | nil =>
          obtain ⟨n, v⟩ := p
          simpa using hbs
        | cons q rest2 => simp at hbs
    rw [hrun, h2]
    rfl

end NixWasm
